import Mathlib

/-!
# libconnman-qt: the `NetworkManager` reconciliation engine

A shallow embedding of `libconnman-qt/networkmanager.cpp`.

* Service records live in a heap addressed by natural numbers (the C++
  `NetworkService *`); `new` takes the address `next` and bumps it, so a fresh
  record never aliases an older one.  `deleteLater` clears the heap cell.
* `QHash`/`QVariantMap` are association lists read through `hashValue`
  (first binding wins), written through `hashInsert` (replaces the binding).
* Emitted Qt signals are appended to `signals`; calls made on the remote
  manager proxy are appended to `calls`.
* The routing probe at the top of `updateDefaultRoute` is `routeProbe`, run on
  the lines read from the routing table; an operation that recomputes the
  default route takes the interface name the probe produced (`defaultNetDev`,
  empty when the probe found nothing).
* A dereference of a null manager handle is the fault `Fault.nullManager`; an
  index out of range in `QList::at` is the fault `Fault.indexOutOfRange`.
-/

namespace ConnmanQt

/-! ## Property values and property bags -/

/-- Modelled from the spec: the value type of a property bag (`QVariant`), absent
from the sources; only the string, boolean and unsigned cases occur. -/
inductive QVariant where
  | str (s : String)
  | bool (b : Bool)
  | uint (n : Nat)
  deriving DecidableEq, Repr

/-- A `QVariantMap` / `QHash<QString, _>` as an association list. -/
abbrev QVariantMap := List (String × QVariant)

/-- The lookup `QHash::value` / `QHash::find`: the binding of `key`, if any. -/
def hashValue {β : Type} : List (String × β) → String → Option β
  | [], _ => none
  | (k, v) :: rest, key => if k = key then some v else hashValue rest key

/-- The removal `QHash::remove`: drop every binding of `key`. -/
def hashRemove {β : Type} (m : List (String × β)) (key : String) : List (String × β) :=
  m.filter (fun kv => decide (kv.1 ≠ key))

/-- The insertion `QHash::insert`: bind `key` to `v`, replacing an earlier binding. -/
def hashInsert {β : Type} (m : List (String × β)) (key : String) (v : β) : List (String × β) :=
  (key, v) :: hashRemove m key

/-- The conversion `QVariant::toString` on the modelled cases. -/
def QVariant.toString : QVariant → String
  | .str s => s
  | .bool b => if b then "true" else "false"
  | .uint n => Nat.repr n

/-- The conversion `QVariant::toBool` on the modelled cases. -/
def QVariant.toBool : QVariant → Bool
  | .str s => !(decide (s = "") || decide (s = "0") || decide (s = "false"))
  | .bool b => b
  | .uint n => decide (n ≠ 0)

/-! ## Records -/

/-- Modelled from the spec: the `NetworkService` class is absent from the sources;
§3 describes it as a property bag identified by an immutable path. -/
structure NetworkService where
  path : String
  props : QVariantMap
  deriving DecidableEq, Repr

/-- Modelled from the spec: `NetworkService::updateProperties`, the property merge of
§3 ("mutated by property-merge, never replaced wholesale"). -/
def NetworkService.updateProperties (r : NetworkService) (news : QVariantMap) : NetworkService :=
  { r with props := news.foldl (fun acc kv => hashInsert acc kv.1 kv.2) r.props }

/-- Modelled from the spec: `NetworkService::state`, derived from the `State` property. -/
def NetworkService.state (r : NetworkService) : String :=
  match hashValue r.props "State" with
  | some (QVariant.str s) => s
  | _ => ""

/-- Modelled from the spec: `NetworkService::type`, derived from the `Type` property. -/
def NetworkService.type (r : NetworkService) : String :=
  match hashValue r.props "Type" with
  | some (QVariant.str s) => s
  | _ => ""

/-- Modelled from the spec: `NetworkService::favorite`, the bool of the `Favorite`
property. -/
def NetworkService.favorite (r : NetworkService) : Bool :=
  match hashValue r.props "Favorite" with
  | some v => v.toBool
  | none => false

/-- Modelled from the spec: `service->ethernet().value("Interface")`, the
technology-specific interface-name property (`Ethernet.Interface` in §3);
`none` is the invalid variant of a missing key. -/
def NetworkService.ethernetInterface (r : NetworkService) : Option QVariant :=
  hashValue r.props "Ethernet.Interface"

/-- Modelled from the spec: the `NetworkTechnology` class is absent from the sources;
a property bag with its own path, keyed in the cache by its type. -/
structure NetworkTechnology where
  objPath : String
  props : QVariantMap
  deriving DecidableEq, Repr

/-- Modelled from the spec: `NetworkTechnology::type`, derived from the `Type` property. -/
def NetworkTechnology.type (t : NetworkTechnology) : String :=
  match hashValue t.props "Type" with
  | some (QVariant.str s) => s
  | _ => ""

/-- One element of a `ConnmanObjectList`: an object path with its properties. -/
structure ConnmanObject where
  objpath : String
  properties : QVariantMap
  deriving DecidableEq, Repr

/-! ## Engine state -/

/-- Signals emitted by the engine (`Q_EMIT`). -/
inductive Signal where
  | availabilityChanged (b : Bool)
  | stateChanged (s : String)
  | offlineModeChanged (b : Bool)
  | sessionModeChanged (b : Bool)
  | technologiesChanged
  | servicesChanged
  | savedServicesChanged
  | servicesListChanged (l : List String)
  | serviceAdded (p : String)
  | serviceRemoved (p : String)
  | defaultRouteChanged (r : Option Nat)
  | servicesEnabledChanged
  | technologiesEnabledChanged
  deriving DecidableEq, Repr

/-- Calls made on the remote manager proxy `m_manager`. -/
inductive RemoteCall where
  | GetProperties
  | GetTechnologies
  | GetServices
  | GetSavedServices
  | SetProperty (name : String) (v : QVariant)
  | RegisterAgent (p : String)
  | UnregisterAgent (p : String)
  | RegisterCounter (p : String) (accuracy period : Nat)
  | UnregisterCounter (p : String)
  | CreateSession (settings : QVariantMap) (notifier : String)
  | DestroySession (p : String)
  | ResetCounters (t : String)
  deriving DecidableEq, Repr

/-- What stops a handler: a call through the null `m_manager`, or `QList::at`
with an index that is out of range. -/
inductive Fault where
  | nullManager
  | indexOutOfRange
  deriving DecidableEq, Repr

/-- The members of `NetworkManager`, with the record heap made explicit. -/
structure NetworkManager where
  heap : Nat → Option NetworkService
  next : Nat
  m_manager : Bool
  m_defaultRoute : Option Nat
  m_invalidDefaultRoute : Option Nat
  m_propertiesCache : QVariantMap
  m_technologiesCache : List (String × NetworkTechnology)
  m_servicesCache : List (String × Nat)
  m_servicesOrder : List Nat
  m_savedServicesOrder : List Nat
  m_available : Bool
  m_servicesEnabled : Bool
  m_technologiesEnabled : Bool
  servicesReady : Bool
  technologiesReady : Bool
  signals : List Signal
  calls : List RemoteCall

/-- The member initialisers of the constructor (lines 40-49). -/
def NetworkManager.initial : NetworkManager where
  heap := fun _ => none
  next := 0
  m_manager := false
  m_defaultRoute := none
  m_invalidDefaultRoute := none
  m_propertiesCache := []
  m_technologiesCache := []
  m_servicesCache := []
  m_servicesOrder := []
  m_savedServicesOrder := []
  m_available := false
  m_servicesEnabled := true
  m_technologiesEnabled := true
  servicesReady := false
  technologiesReady := false
  signals := []
  calls := []

/-- The statement `Q_EMIT sig`. -/
def emit (sig : Signal) (s : NetworkManager) : NetworkManager :=
  { s with signals := s.signals ++ [sig] }

/-- A call `m_manager->c(...)` on a non-null handle. -/
def remoteCall (c : RemoteCall) (s : NetworkManager) : NetworkManager :=
  { s with calls := s.calls ++ [c] }

/-- The allocation `new NetworkService(path, props, this)`: the record is placed at address
`s.next`. -/
def newService (path : String) (props : QVariantMap) (s : NetworkManager) : NetworkManager :=
  { s with
    heap := fun q => if q = s.next then some { path := path, props := props } else s.heap q
    next := s.next + 1 }

/-- The call `service->updateProperties(props)` on the record at address `p`. -/
def mergeProperties (p : Nat) (props : QVariantMap) (s : NetworkManager) : NetworkManager :=
  { s with
    heap := fun q => if q = p then (s.heap p).map (fun r => r.updateProperties props) else s.heap q }

/-- The call `service->deleteLater()`: the record at address `p` is destroyed. -/
def deleteLater (p : Nat) (s : NetworkManager) : NetworkManager :=
  { s with heap := fun q => if q = p then none else s.heap q }

/-- The accessor `service->state()`; a dangling reference reads as a record without properties. -/
def stateOf (s : NetworkManager) (p : Nat) : String :=
  match s.heap p with
  | some r => r.state
  | none => ""

/-- The accessor `service->type()`; a dangling reference reads as a record without properties. -/
def typeOf (s : NetworkManager) (p : Nat) : String :=
  match s.heap p with
  | some r => r.type
  | none => ""

/-- The accessor `service->favorite()`; a dangling reference reads as a record without properties. -/
def favoriteOf (s : NetworkManager) (p : Nat) : Bool :=
  match s.heap p with
  | some r => r.favorite
  | none => false

/-- The accessor `service->path()`; a dangling reference reads as the empty path. -/
def pathOf (s : NetworkManager) (p : Nat) : String :=
  match s.heap p with
  | some r => r.path
  | none => ""

/-- The accessor `service->ethernet().value("Interface")`. -/
def interfaceOf (s : NetworkManager) (p : Nat) : Option QVariant :=
  match s.heap p with
  | some r => r.ethernetInterface
  | none => none

/-! ## Queries -/

/-- The loop of `getServices` (lines 447-450): `acc` is the vector `services`. -/
def getServicesLoop (s : NetworkManager) (tech : String) : List Nat → List Nat → List Nat
  | [], acc => acc
  | service :: rest, acc =>
    if tech = "" ∨ typeOf s service = tech then
      getServicesLoop s tech rest (acc ++ [service])
    else
      getServicesLoop s tech rest acc

/-- The query `NetworkManager::getServices` (lines 441-453). -/
def getServices (tech : String) (s : NetworkManager) : List Nat :=
  getServicesLoop s tech s.m_servicesOrder []

/-- The loop of `getSavedServices` (lines 461-465). -/
def getSavedServicesLoop (s : NetworkManager) (tech : String) : List Nat → List Nat → List Nat
  | [], acc => acc
  | service :: rest, acc =>
    if (tech = "" ∨ typeOf s service = tech) ∧ favoriteOf s service = true then
      getSavedServicesLoop s tech rest (acc ++ [service])
    else
      getSavedServicesLoop s tech rest acc

/-- The query `NetworkManager::getSavedServices` (lines 455-468). -/
def getSavedServices (tech : String) (s : NetworkManager) : List Nat :=
  getSavedServicesLoop s tech s.m_savedServicesOrder []

/-! ## Default route -/

/-- The test of lines 350-351: state `online` or `ready`, and the interface
property equal to the probed device name. -/
def routeCandidate (s : NetworkManager) (defaultNetDev : String) (service : Nat) : Bool :=
  (decide (stateOf s service = "online") || decide (stateOf s service = "ready"))
    && decide (interfaceOf s service = some (QVariant.str defaultNetDev))

/-- The scan of lines 349-359: the first service that passes the test. -/
def scanRoute (s : NetworkManager) (defaultNetDev : String) : List Nat → Option Nat
  | [] => none
  | service :: rest =>
    if routeCandidate s defaultNetDev service then some service
    else scanRoute s defaultNetDev rest

/-- Lines 360-361: the lazily created sentinel record `NetworkService("/", {})`. -/
def ensureInvalidRoute (s : NetworkManager) : NetworkManager :=
  match s.m_invalidDefaultRoute with
  | some _ => s
  | none => { newService "/" [] s with m_invalidDefaultRoute := some s.next }

/-- The slot `NetworkManager::updateDefaultRoute` (lines 349-365), given the device name
found by the routing probe (lines 332-347). -/
def updateDefaultRoute (defaultNetDev : String) (s : NetworkManager) : NetworkManager :=
  match scanRoute s defaultNetDev (getServices "" s) with
  | some service =>
    if s.m_defaultRoute = some service then s
    else emit (Signal.defaultRouteChanged (some service)) { s with m_defaultRoute := some service }
  | none =>
    let s1 := ensureInvalidRoute s
    emit (Signal.defaultRouteChanged s1.m_invalidDefaultRoute)
      { s1 with m_defaultRoute := s1.m_invalidDefaultRoute }

/-- The separator of line 339, the tab character. -/
def tab : Char := Char.ofNat 9

/-- The fields of a line of characters between occurrences of `sep`, empty
fields kept: a line without separator is one field, the empty line one empty
field. -/
def splitChars (sep : Char) : List Char → List (List Char)
  | [] => [[]]
  | c :: cs =>
    if c = sep then [] :: splitChars sep cs
    else
      match splitChars sep cs with
      | [] => [[c]]
      | field :: fields => (c :: field) :: fields

/-- The call `line.split(sep)` of line 339 (`QString::split`, empty parts kept). -/
def QString.split (line : String) (sep : Char) : List String :=
  (splitChars sep line.data).map String.mk

/-- The call `lineList.at(i)` (`QList::at`): the index has to be in range. -/
def atIndex (lineList : List String) (i : Nat) : Except Fault String :=
  match lineList.get? i with
  | some field => Except.ok field
  | none => Except.error Fault.indexOutOfRange

/-- The loop of lines 337-345 over the lines that `in.readLine()` delivers
before the null line; `lineList.at(3)` is evaluated only when the first
comparison holds. -/
def routeProbeLoop : List String → Except Fault String
  | [] => Except.ok ""
  | line :: rest =>
    let lineList := QString.split line tab
    match atIndex lineList 1 with
    | Except.error e => Except.error e
    | Except.ok destination =>
      if destination = "00000000" then
        match atIndex lineList 3 with
        | Except.error e => Except.error e
        | Except.ok flags =>
          if flags = "0003" then atIndex lineList 0
          else routeProbeLoop rest
      else routeProbeLoop rest

/-- The routing probe of `updateDefaultRoute` (lines 332-347): `routeFile` is
`none` when `/proc/net/route` cannot be opened, else its lines; the result is
`defaultNetDev`, empty when no line matched. -/
def routeProbe (routeFile : Option (List String)) : Except Fault String :=
  match routeFile with
  | none => Except.ok ""
  | some lines => routeProbeLoop lines

/-- The slot `NetworkManager::updateDefaultRoute` as a whole (lines 330-365): the
probe, then the selection on its result. -/
def updateDefaultRouteFrom (routeFile : Option (List String)) (s : NetworkManager) :
    Except Fault NetworkManager :=
  match routeProbe routeFile with
  | Except.ok defaultNetDev => Except.ok (updateDefaultRoute defaultNetDev s)
  | Except.error e => Except.error e

/-! ## Connection life cycle -/

/-- The slot `NetworkManager::disconnectTechnologies` (lines 109-125). -/
def disconnectTechnologies (s : NetworkManager) : NetworkManager :=
  if s.m_technologiesCache = [] then s
  else emit Signal.technologiesChanged { s with m_technologiesCache := [] }

/-- The loop of lines 136-137: `deleteLater` on every cached record. -/
def deleteAll : List (String × Nat) → NetworkManager → NetworkManager
  | [], s => s
  | (_, service) :: rest, s => deleteAll rest (deleteLater service s)

/-- The slot `NetworkManager::disconnectServices` (lines 127-155). -/
def disconnectServices (s : NetworkManager) : NetworkManager :=
  let s1 := { deleteAll s.m_servicesCache s with m_servicesCache := [] }
  let s2 :=
    if s1.m_defaultRoute = s1.m_invalidDefaultRoute then s1
    else emit (Signal.defaultRouteChanged s1.m_invalidDefaultRoute)
      { s1 with m_defaultRoute := s1.m_invalidDefaultRoute }
  let s3 :=
    if s2.m_servicesOrder = [] then s2
    else emit Signal.servicesChanged { s2 with m_servicesOrder := [] }
  if s3.m_savedServicesOrder = [] then s3
  else emit Signal.savedServicesChanged { s3 with m_savedServicesOrder := [] }

/-- The slot `NetworkManager::disconnectFromConnman` (lines 100-107). -/
def disconnectFromConnman (s : NetworkManager) : NetworkManager :=
  disconnectServices (disconnectTechnologies { s with m_manager := false })

/-- The slot `NetworkManager::connectToConnman` (lines 73-98); `valid` is the
answer of `m_manager->isValid()` for the fresh proxy. -/
def connectToConnman (valid : Bool) (defaultNetDev : String) (s : NetworkManager) :
    NetworkManager :=
  let s1 := { disconnectFromConnman s with m_manager := true }
  if valid then
    updateDefaultRoute defaultNetDev (remoteCall RemoteCall.GetProperties s1)
  else
    let s2 := { s1 with m_manager := false }
    if s2.m_available then emit (Signal.availabilityChanged false) { s2 with m_available := false }
    else s2

/-- The slot `NetworkManager::connmanUnregistered` (lines 157-163). -/
def connmanUnregistered (s : NetworkManager) : NetworkManager :=
  let s1 := disconnectFromConnman s
  if s1.m_available then emit (Signal.availabilityChanged false) { s1 with m_available := false }
  else s1

/-- The constructor (lines 39-67); `registered` is the answer of
`isServiceRegistered("net.connman")`. -/
def NetworkManager.construct (registered valid : Bool) (defaultNetDev : String) :
    NetworkManager :=
  let s := { NetworkManager.initial with m_available := registered }
  if s.m_available then connectToConnman valid defaultNetDev s else s

/-- The method `NetworkManager::setupTechnologies` (lines 165-184): the call goes
through `m_manager`. -/
def setupTechnologies (s : NetworkManager) : Except Fault NetworkManager :=
  if s.m_manager then Except.ok (remoteCall RemoteCall.GetTechnologies s)
  else Except.error Fault.nullManager

/-- The method `NetworkManager::setupServices` (lines 186-206): the call goes
through `m_manager`. -/
def setupServices (s : NetworkManager) : Except Fault NetworkManager :=
  if s.m_manager then Except.ok (remoteCall RemoteCall.GetServices s)
  else Except.error Fault.nullManager

/-- The readiness gate `NetworkManager::callsFinished` (lines 749-766). -/
def callsFinished (s : NetworkManager) : NetworkManager :=
  if (s.m_technologiesEnabled && !s.technologiesReady)
      || (s.m_servicesEnabled && !s.servicesReady) then s
  else if !s.m_available then
    emit (Signal.availabilityChanged true) { s with m_available := true }
  else s

/-! ## Incremental updates -/

/-- The record used for one entry of a services list: the cached one, else the
record about to be created at `s.next` (lines 224-232). -/
def servicePtr (s : NetworkManager) (svcPath : String) : Nat :=
  match hashValue s.m_servicesCache svcPath with
  | some service => service
  | none => s.next

/-- Lines 224-232 and 297-305: reuse the cached record and merge the properties,
or create the record and cache it. -/
def reuseOrCreate (obj : ConnmanObject) (s : NetworkManager) : NetworkManager :=
  match hashValue s.m_servicesCache obj.objpath with
  | some service => mergeProperties service obj.properties s
  | none =>
    { newService obj.objpath obj.properties s with
      m_servicesCache := hashInsert s.m_servicesCache obj.objpath s.next }

/-- One iteration of the first loop of `updateServices` (lines 219-249);
`order` is the index of the entry. -/
def updateServicesEntry (defaultNetDev : String) (order : Nat) (obj : ConnmanObject)
    (s : NetworkManager) : NetworkManager :=
  let service := servicePtr s obj.objpath
  let addedService := (hashValue s.m_servicesCache obj.objpath).isNone
  let s1 := reuseOrCreate obj s
  let s2 := { s1 with m_servicesOrder := s1.m_servicesOrder ++ [service] }
  let s3 :=
    if favoriteOf s2 service then s2
    else { s2 with m_savedServicesOrder := s2.m_savedServicesOrder.erase service }
  let s4 := if order = 0 then updateDefaultRoute defaultNetDev s3 else s3
  if addedService then emit (Signal.serviceAdded obj.objpath) s4 else s4

/-- The first loop of `updateServices` (lines 218-250), from entry number
`order`; the second component is the local `serviceList`. -/
def updateServicesLoop (defaultNetDev : String) :
    Nat → List ConnmanObject → NetworkManager → List String → NetworkManager × List String
  | _, [], s, serviceList => (s, serviceList)
  | order, obj :: rest, s, serviceList =>
    let s1 := updateServicesEntry defaultNetDev order obj s
    updateServicesLoop defaultNetDev (order + 1) rest s1
      (serviceList ++ [pathOf s1 (servicePtr s obj.objpath)])

/-- One iteration of the second loop of `updateServices` (lines 253-272). -/
def removeService (svcPath : String) (s : NetworkManager) : NetworkManager :=
  match hashValue s.m_servicesCache svcPath with
  | some service =>
    let s1 :=
      if service ∈ s.m_savedServicesOrder then
        mergeProperties service
          [("Strength", QVariant.uint 0), ("State", QVariant.str "idle")] s
      else
        { deleteLater service s with m_servicesCache := hashRemove s.m_servicesCache svcPath }
    emit (Signal.serviceRemoved svcPath) s1
  | none => s

/-- The second loop of `updateServices` (lines 252-273). -/
def removeServices : List String → NetworkManager → NetworkManager
  | [], s => s
  | svcPath :: rest, s => removeServices rest (removeService svcPath s)

/-- The slot `NetworkManager::updateServices` (lines 208-281). -/
def updateServices (changed : List ConnmanObject) (removed : List String)
    (defaultNetDev : String) (s : NetworkManager) : NetworkManager :=
  let r := updateServicesLoop defaultNetDev 0 changed { s with m_servicesOrder := [] } []
  let s1 := removeServices removed r.1
  let s2 := if changed = [] then updateDefaultRoute defaultNetDev s1 else s1
  emit Signal.savedServicesChanged
    (emit (Signal.servicesListChanged r.2) (emit Signal.servicesChanged s2))

/-- One iteration of the loop of `updateSavedServices` (lines 292-308). -/
def updateSavedServicesEntry (obj : ConnmanObject) (s : NetworkManager) : NetworkManager :=
  let service := servicePtr s obj.objpath
  let s1 := reuseOrCreate obj s
  { s1 with m_savedServicesOrder := s1.m_savedServicesOrder ++ [service] }

/-- The loop of `updateSavedServices` (lines 292-308). -/
def updateSavedServicesLoop : List ConnmanObject → NetworkManager → NetworkManager
  | [], s => s
  | obj :: rest, s => updateSavedServicesLoop rest (updateSavedServicesEntry obj s)

/-- The slot `NetworkManager::updateSavedServices` (lines 283-311). -/
def updateSavedServices (changed : List ConnmanObject) (s : NetworkManager) : NetworkManager :=
  emit Signal.savedServicesChanged
    (updateSavedServicesLoop changed { s with m_savedServicesOrder := [] })

/-- The string of a cached manager property, empty when missing
(`m_propertiesCache[name].toString()`). -/
def propertyString (m : QVariantMap) (name : String) : String :=
  match hashValue m name with
  | some v => v.toString
  | none => ""

/-- The slot `NetworkManager::propertyChanged` (lines 313-328). -/
def propertyChanged (name : String) (value : QVariant) (defaultNetDev : String)
    (s : NetworkManager) : NetworkManager :=
  let s1 := { s with m_propertiesCache := hashInsert s.m_propertiesCache name value }
  if name = "State" then
    updateDefaultRoute defaultNetDev (emit (Signal.stateChanged value.toString) s1)
  else if name = "OfflineMode" then emit (Signal.offlineModeChanged value.toBool) s1
  else if name = "SessionMode" then emit (Signal.sessionModeChanged value.toBool) s1
  else s1

/-- The slot `NetworkManager::technologyAdded` (lines 367-375). -/
def technologyAdded (technology : String) (properties : QVariantMap) (s : NetworkManager) :
    NetworkManager :=
  let tech : NetworkTechnology := { objPath := technology, props := properties }
  emit Signal.technologiesChanged
    { s with m_technologiesCache := hashInsert s.m_technologiesCache tech.type tech }

/-- The slot `NetworkManager::technologyRemoved` (lines 377-391). -/
def technologyRemoved (technology : String) (s : NetworkManager) : NetworkManager :=
  let s1 :=
    match s.m_technologiesCache.find? (fun kv => decide (kv.2.objPath = technology)) with
    | some kv => { s with m_technologiesCache := hashRemove s.m_technologiesCache kv.2.type }
    | none => s
  emit Signal.technologiesChanged s1

/-! ## Reply handlers -/

/-- The slot `NetworkManager::propertiesReply` (lines 615-640); `reply` is `none`
for an error reply. -/
def propertiesReply (reply : Option QVariantMap) (s : NetworkManager) :
    Except Fault NetworkManager :=
  match reply with
  | none => Except.ok s
  | some props =>
    let s1 := emit (Signal.stateChanged (propertyString props "State"))
      { s with m_propertiesCache := props }
    if s1.m_technologiesEnabled then
      match setupTechnologies s1 with
      | Except.ok s2 => Except.ok (callsFinished s2)
      | Except.error e => Except.error e
    else Except.ok (callsFinished s1)

/-- The loop of `technologiesReply` (lines 652-658). -/
def technologiesReplyLoop :
    List ConnmanObject → List (String × NetworkTechnology) → List (String × NetworkTechnology)
  | [], cache => cache
  | obj :: rest, cache =>
    let tech : NetworkTechnology := { objPath := obj.objpath, props := obj.properties }
    technologiesReplyLoop rest (hashInsert cache tech.type tech)

/-- The slot `NetworkManager::technologiesReply` (lines 642-666). -/
def technologiesReply (reply : Option (List ConnmanObject)) (s : NetworkManager) :
    Except Fault NetworkManager :=
  match reply with
  | none => Except.ok s
  | some lst =>
    let s1 := emit Signal.technologiesChanged
      { s with m_technologiesCache := technologiesReplyLoop lst s.m_technologiesCache }
    let s2 := { s1 with technologiesReady := true }
    if s2.m_servicesEnabled then
      match setupServices s2 with
      | Except.ok s3 => Except.ok (callsFinished s3)
      | Except.error e => Except.error e
    else Except.ok (callsFinished s2)

/-- One iteration of the first loop of `servicesReply` (lines 686-701): the
record is always created. -/
def servicesReplyEntry (defaultNetDev : String) (order : Nat) (obj : ConnmanObject)
    (s : NetworkManager) : NetworkManager :=
  let s1 :=
    { newService obj.objpath obj.properties s with
      m_servicesCache := hashInsert s.m_servicesCache obj.objpath s.next
      m_servicesOrder := s.m_servicesOrder ++ [s.next] }
  if order = 0 then updateDefaultRoute defaultNetDev s1 else s1

/-- The first loop of `servicesReply` (lines 686-701), from entry number `order`. -/
def servicesReplyLoop (defaultNetDev : String) :
    Nat → List ConnmanObject → NetworkManager → NetworkManager
  | _, [], s => s
  | order, obj :: rest, s =>
    servicesReplyLoop defaultNetDev (order + 1) rest (servicesReplyEntry defaultNetDev order obj s)

/-- One iteration of the second loop of `servicesReply` (lines 725-740): a cached
record is reused as it is. -/
def savedReplyEntry (obj : ConnmanObject) (s : NetworkManager) : NetworkManager :=
  match hashValue s.m_servicesCache obj.objpath with
  | some service => { s with m_savedServicesOrder := s.m_savedServicesOrder ++ [service] }
  | none =>
    { newService obj.objpath obj.properties s with
      m_servicesCache := hashInsert s.m_servicesCache obj.objpath s.next
      m_savedServicesOrder := s.m_savedServicesOrder ++ [s.next] }

/-- The second loop of `servicesReply` (lines 725-740). -/
def savedReplyLoop : List ConnmanObject → NetworkManager → NetworkManager
  | [], s => s
  | obj :: rest, s => savedReplyLoop rest (savedReplyEntry obj s)

/-- The first half of `servicesReply` (lines 678-707): the current services are
listed afresh and services-changed is emitted. -/
def servicesReplyCurrent (lst : List ConnmanObject) (defaultNetDev : String)
    (s : NetworkManager) : NetworkManager :=
  let s1 := servicesReplyLoop defaultNetDev 0 lst { s with m_servicesOrder := [] }
  let s2 := if lst = [] then updateDefaultRoute defaultNetDev s1 else s1
  emit Signal.servicesChanged s2

/-- The second half of `servicesReply` (lines 719-746), once the saved services
have arrived. -/
def servicesReplySaved (savedLst : List ConnmanObject) (s : NetworkManager) : NetworkManager :=
  let s5 := savedReplyLoop savedLst { s with m_savedServicesOrder := [] }
  let s6 := emit Signal.savedServicesChanged s5
  callsFinished { s6 with servicesReady := true }

/-- The slot `NetworkManager::servicesReply` (lines 668-747); `reply` is the
answer to `GetServices` and `saved` the answer to the blocking
`GetSavedServices`, each `none` for an error reply. -/
def servicesReply (reply saved : Option (List ConnmanObject)) (defaultNetDev : String)
    (s : NetworkManager) : Except Fault NetworkManager :=
  match reply with
  | none => Except.ok s
  | some lst =>
    let s3 := servicesReplyCurrent lst defaultNetDev s
    if s3.m_manager then
      let s4 := remoteCall RemoteCall.GetSavedServices s3
      match saved with
      | none => Except.ok s4
      | some savedLst => Except.ok (servicesReplySaved savedLst s4)
    else Except.error Fault.nullManager

/-! ## Commands -/

/-- The method `NetworkManager::setOfflineMode` (lines 472-479). -/
def setOfflineMode (offlineMode : Bool) (s : NetworkManager) : Except Fault NetworkManager :=
  if !s.m_manager then Except.ok s
  else Except.ok (remoteCall (RemoteCall.SetProperty "OfflineMode" (QVariant.bool offlineMode)) s)

/-- The method `NetworkManager::registerAgent` (lines 482-486). -/
def registerAgent (path : String) (s : NetworkManager) : Except Fault NetworkManager :=
  if s.m_manager then Except.ok (remoteCall (RemoteCall.RegisterAgent path) s)
  else Except.ok s

/-- The method `NetworkManager::unregisterAgent` (lines 488-492). -/
def unregisterAgent (path : String) (s : NetworkManager) : Except Fault NetworkManager :=
  if s.m_manager then Except.ok (remoteCall (RemoteCall.UnregisterAgent path) s)
  else Except.ok s

/-- The method `NetworkManager::registerCounter` (lines 494-498). -/
def registerCounter (path : String) (accuracy period : Nat) (s : NetworkManager) :
    Except Fault NetworkManager :=
  if s.m_manager then Except.ok (remoteCall (RemoteCall.RegisterCounter path accuracy period) s)
  else Except.ok s

/-- The method `NetworkManager::unregisterCounter` (lines 500-504). -/
def unregisterCounter (path : String) (s : NetworkManager) : Except Fault NetworkManager :=
  if s.m_manager then Except.ok (remoteCall (RemoteCall.UnregisterCounter path) s)
  else Except.ok s

/-- The method `NetworkManager::createSession` (lines 506-515), state part; the
returned path is `createSessionPath`. -/
def createSession (settings : QVariantMap) (sessionNotifierPath : String)
    (s : NetworkManager) : Except Fault NetworkManager :=
  if !s.m_manager then Except.ok s
  else Except.ok (remoteCall (RemoteCall.CreateSession settings sessionNotifierPath) s)

/-- The value returned by `createSession`: the empty path when disconnected,
else the value of the awaited reply. -/
def createSessionPath (replyValue : String) (s : NetworkManager) : String :=
  if !s.m_manager then "" else replyValue

/-- The method `NetworkManager::destroySession` (lines 517-521). -/
def destroySession (sessionAgentPath : String) (s : NetworkManager) :
    Except Fault NetworkManager :=
  if s.m_manager then Except.ok (remoteCall (RemoteCall.DestroySession sessionAgentPath) s)
  else Except.ok s

/-- The method `NetworkManager::setSessionMode` (lines 523-527). -/
def setSessionMode (sessionMode : Bool) (s : NetworkManager) : Except Fault NetworkManager :=
  if s.m_manager then
    Except.ok (remoteCall (RemoteCall.SetProperty "SessionMode" (QVariant.bool sessionMode)) s)
  else Except.ok s

/-- The method `NetworkManager::resetCountersForType` (lines 574-577): the handle
is dereferenced without a test. -/
def resetCountersForType (type : String) (s : NetworkManager) : Except Fault NetworkManager :=
  if s.m_manager then Except.ok (remoteCall (RemoteCall.ResetCounters type) s)
  else Except.error Fault.nullManager

/-- The method `NetworkManager::setServicesEnabled` (lines 539-552). -/
def setServicesEnabled (enabled : Bool) (s : NetworkManager) : Except Fault NetworkManager :=
  if s.m_servicesEnabled = enabled then Except.ok s
  else
    let s1 := { s with m_servicesEnabled := enabled }
    if s1.m_servicesEnabled then
      match setupServices s1 with
      | Except.ok s2 => Except.ok (emit Signal.servicesEnabledChanged s2)
      | Except.error e => Except.error e
    else Except.ok (emit Signal.servicesEnabledChanged (disconnectServices s1))

/-- The method `NetworkManager::setTechnologiesEnabled` (lines 559-572). -/
def setTechnologiesEnabled (enabled : Bool) (s : NetworkManager) : Except Fault NetworkManager :=
  if s.m_technologiesEnabled = enabled then Except.ok s
  else
    let s1 := { s with m_technologiesEnabled := enabled }
    if s1.m_technologiesEnabled then
      match setupTechnologies s1 with
      | Except.ok s2 => Except.ok (emit Signal.technologiesEnabledChanged s2)
      | Except.error e => Except.error e
    else Except.ok (emit Signal.technologiesEnabledChanged (disconnectTechnologies s1))

/-- The pass-through commands of the public surface. -/
inductive Command where
  | setOfflineMode (offlineMode : Bool)
  | setSessionMode (sessionMode : Bool)
  | registerAgent (path : String)
  | unregisterAgent (path : String)
  | registerCounter (path : String) (accuracy period : Nat)
  | unregisterCounter (path : String)
  | createSession (settings : QVariantMap) (sessionNotifierPath : String)
  | destroySession (sessionAgentPath : String)
  | resetCountersForType (type : String)
  deriving DecidableEq, Repr

/-- Dispatch of a command to its method. -/
def Command.run : Command → NetworkManager → Except Fault NetworkManager
  | .setOfflineMode b => ConnmanQt.setOfflineMode b
  | .setSessionMode b => ConnmanQt.setSessionMode b
  | .registerAgent p => ConnmanQt.registerAgent p
  | .unregisterAgent p => ConnmanQt.unregisterAgent p
  | .registerCounter p a q => ConnmanQt.registerCounter p a q
  | .unregisterCounter p => ConnmanQt.unregisterCounter p
  | .createSession m p => ConnmanQt.createSession m p
  | .destroySession p => ConnmanQt.destroySession p
  | .resetCountersForType t => ConnmanQt.resetCountersForType t

/-! ## Event sequences -/

/-- Everything that can be delivered to the engine: watcher events, replies,
change notifications and calls of the public surface. -/
inductive Event where
  | connectToConnman (valid : Bool) (defaultNetDev : String)
  | connmanUnregistered
  | disconnectFromConnman
  | propertiesReply (reply : Option QVariantMap)
  | technologiesReply (reply : Option (List ConnmanObject))
  | servicesReply (reply saved : Option (List ConnmanObject)) (defaultNetDev : String)
  | updateServices (changed : List ConnmanObject) (removed : List String)
      (defaultNetDev : String)
  | updateSavedServices (changed : List ConnmanObject)
  | propertyChanged (name : String) (value : QVariant) (defaultNetDev : String)
  | technologyAdded (technology : String) (properties : QVariantMap)
  | technologyRemoved (technology : String)
  | setServicesEnabled (enabled : Bool)
  | setTechnologiesEnabled (enabled : Bool)
  | command (c : Command)
  deriving DecidableEq, Repr

/-- Delivery of one event. -/
def Event.step : Event → NetworkManager → Except Fault NetworkManager
  | .connectToConnman valid dev, s => Except.ok (ConnmanQt.connectToConnman valid dev s)
  | .connmanUnregistered, s => Except.ok (ConnmanQt.connmanUnregistered s)
  | .disconnectFromConnman, s => Except.ok (ConnmanQt.disconnectFromConnman s)
  | .propertiesReply reply, s => ConnmanQt.propertiesReply reply s
  | .technologiesReply reply, s => ConnmanQt.technologiesReply reply s
  | .servicesReply reply saved dev, s => ConnmanQt.servicesReply reply saved dev s
  | .updateServices changed removed dev, s =>
    Except.ok (ConnmanQt.updateServices changed removed dev s)
  | .updateSavedServices changed, s => Except.ok (ConnmanQt.updateSavedServices changed s)
  | .propertyChanged name value dev, s => Except.ok (ConnmanQt.propertyChanged name value dev s)
  | .technologyAdded t props, s => Except.ok (ConnmanQt.technologyAdded t props s)
  | .technologyRemoved t, s => Except.ok (ConnmanQt.technologyRemoved t s)
  | .setServicesEnabled b, s => ConnmanQt.setServicesEnabled b s
  | .setTechnologiesEnabled b, s => ConnmanQt.setTechnologiesEnabled b s
  | .command c, s => c.run s

/-- Delivery of a sequence of events, stopping at the first fault. -/
def run : List Event → NetworkManager → Except Fault NetworkManager
  | [], s => Except.ok s
  | e :: rest, s =>
    match e.step s with
    | Except.ok s1 => run rest s1
    | Except.error f => Except.error f

/-! ## Well-formed states -/

/-- What the allocator and the cache guarantee in every state the engine can
be in: addresses from `next` on are unused, every cached address holds a live
record whose path is its key, and the sentinel record is `("/", {})` and is
not cached. -/
structure WellFormed (s : NetworkManager) : Prop where
  fresh : ∀ q, s.next ≤ q → s.heap q = none
  cached : ∀ k p, (k, p) ∈ s.m_servicesCache → ∃ r, s.heap p = some r ∧ r.path = k
  sentinel : ∀ q, s.m_invalidDefaultRoute = some q →
    s.heap q = some { path := "/", props := [] } ∧ ∀ k, (k, q) ∉ s.m_servicesCache

/-- The record at address `p` is live with `Strength` 0 and `State` idle. -/
def IdleZero (s : NetworkManager) (p : Nat) : Prop :=
  ∃ r, s.heap p = some r ∧ hashValue r.props "Strength" = some (QVariant.uint 0) ∧
    hashValue r.props "State" = some (QVariant.str "idle")

/-- The state in which the second loop of `updateServices` starts: the changed
entries have been merged (lines 215-250). -/
def updateServicesChanged (changed : List ConnmanObject) (defaultNetDev : String)
    (s : NetworkManager) : NetworkManager :=
  (updateServicesLoop defaultNetDev 0 changed { s with m_servicesOrder := [] } []).1

/-- The state in which line 247 emits `serviceAdded` for an entry of `changed`:
the iteration has run up to and including line 245 (record reused or created,
pushed on `m_servicesOrder`, saved list pruned, `updateDefaultRoute` at entry
number 0). -/
def updateServicesEntryListed (defaultNetDev : String) (order : Nat) (obj : ConnmanObject)
    (s : NetworkManager) : NetworkManager :=
  let service := servicePtr s obj.objpath
  let s1 := reuseOrCreate obj s
  let s2 := { s1 with m_servicesOrder := s1.m_servicesOrder ++ [service] }
  let s3 :=
    if favoriteOf s2 service then s2
    else { s2 with m_savedServicesOrder := s2.m_savedServicesOrder.erase service }
  if order = 0 then updateDefaultRoute defaultNetDev s3 else s3

/-- The pruning invariant of `updateServices`: the saved list holds no record
twice, and a listed record whose favorite flag is off is not in the saved list. -/
def UnfavoritePruned (s : NetworkManager) : Prop :=
  WellFormed s ∧ s.m_savedServicesOrder.Nodup ∧
    ∀ p ∈ s.m_servicesOrder, p < s.next ∧ (favoriteOf s p = false → p ∉ s.m_savedServicesOrder)

/-- The handler that led from `s` to `t` left the connection and readiness
members and the call log alone. -/
structure SameControl (s t : NetworkManager) : Prop where
  manager : t.m_manager = s.m_manager
  available : t.m_available = s.m_available
  servicesEnabled : t.m_servicesEnabled = s.m_servicesEnabled
  technologiesEnabled : t.m_technologiesEnabled = s.m_technologiesEnabled
  servicesReady : t.servicesReady = s.servicesReady
  technologiesReady : t.technologiesReady = s.technologiesReady
  calls : t.calls = s.calls

/-- The handler that led from `s` to `t` left the records, the services cache,
both order lists and the route members alone. -/
structure SameData (s t : NetworkManager) : Prop where
  heap : t.heap = s.heap
  next : t.next = s.next
  defaultRoute : t.m_defaultRoute = s.m_defaultRoute
  invalidRoute : t.m_invalidDefaultRoute = s.m_invalidDefaultRoute
  cache : t.m_servicesCache = s.m_servicesCache
  order : t.m_servicesOrder = s.m_servicesOrder
  saved : t.m_savedServicesOrder = s.m_savedServicesOrder

/-- From `s` to `t` no record that existed in `s` was touched and the default
route and the sentinel reference are the same. -/
structure RouteStable (s t : NetworkManager) : Prop where
  next : s.next ≤ t.next
  heap : ∀ q, q < s.next → t.heap q = s.heap q
  defaultRoute : t.m_defaultRoute = s.m_defaultRoute
  invalidRoute : t.m_invalidDefaultRoute = s.m_invalidDefaultRoute

/-- The default route is the sentinel record: non-null, equal to
`m_invalidDefaultRoute`, with path `"/"` and no properties. -/
def IsSentinelRoute (s : NetworkManager) : Prop :=
  ∃ q, s.m_defaultRoute = some q ∧ s.m_invalidDefaultRoute = some q ∧
    s.heap q = some { path := "/", props := [] }

/-- The test of lines 350-351 on a record. -/
def recordCandidate (r : NetworkService) (defaultNetDev : String) : Bool :=
  (decide (r.state = "online") || decide (r.state = "ready"))
    && decide (r.ethernetInterface = some (QVariant.str defaultNetDev))

/-- The default-route invariant as the specification states it: the default
route is non-null and is the sentinel or a record of `m_servicesOrder` whose
state is `online` or `ready`. -/
def defaultRouteOk (s : NetworkManager) : Bool :=
  match s.m_defaultRoute with
  | none => false
  | some p =>
    decide (s.m_invalidDefaultRoute = some p) ||
      (decide (p ∈ s.m_servicesOrder) &&
        (decide (stateOf s p = "online") || decide (stateOf s p = "ready")))

/-- The default-route invariant the engine keeps: the default route equals the
sentinel reference or is a record of `m_servicesOrder`, and it is null only
while the sentinel has not been created. -/
def DefaultRouteInv (s : NetworkManager) : Prop :=
  (s.m_defaultRoute = s.m_invalidDefaultRoute ∨
    ∃ p, p ∈ s.m_servicesOrder ∧ s.m_defaultRoute = some p) ∧
  (s.m_defaultRoute = none → s.m_invalidDefaultRoute = none)

/-- What a recomputation leaves behind: a non-null default route that is the
sentinel or a record of `m_servicesOrder` passing the test of lines 350-351. -/
def RouteSelected (defaultNetDev : String) (s : NetworkManager) : Prop :=
  ∃ p, s.m_defaultRoute = some p ∧
    (s.m_invalidDefaultRoute = some p ∨
      (p ∈ s.m_servicesOrder ∧ routeCandidate s defaultNetDev p = true))

/-- The record at address `p` is live and is the one the services cache
stores under the record's own path. -/
def cacheOwns (s : NetworkManager) (p : Nat) : Bool :=
  match s.heap p with
  | some r => decide (hashValue s.m_servicesCache r.path = some p)
  | none => false

/-- Every record of `m_servicesOrder` and of `m_savedServicesOrder` is the one
cached under its own path. -/
def OrdersCached (s : NetworkManager) : Prop :=
  ∀ p, p ∈ s.m_servicesOrder ∨ p ∈ s.m_savedServicesOrder → cacheOwns s p = true

/-- The same with the exception the specification makes for the sentinel. -/
def ordersCachedOrSentinel (s : NetworkManager) : Bool :=
  (s.m_servicesOrder ++ s.m_savedServicesOrder).all
    (fun p => cacheOwns s p || decide (s.m_invalidDefaultRoute = some p))

/-- The inputs under which the cache invariant is kept: a services reply names
each path once and its saved-services call succeeds, and an incremental update
does not list a path as both changed and removed. -/
def Event.consistent : Event → Prop
  | .servicesReply (some lst) saved _ =>
    (lst.map ConnmanObject.objpath).Nodup ∧ saved.isSome = true
  | .updateServices changed removed _ => ∀ obj ∈ changed, obj.objpath ∉ removed
  | _ => True

/-- The state the cache invariant is proved on. -/
def CacheInv (s : NetworkManager) : Prop :=
  WellFormed s ∧ OrdersCached s

/-! ## Readiness -/

/-- A reply handler that ends in the readiness gate: a successful properties,
technologies or services reply. -/
def Event.isGateStep : Event → Bool
  | .propertiesReply (some _) => true
  | .technologiesReply (some _) => true
  | .servicesReply (some _) (some _) _ => true
  | _ => false

/-- The event is the technologies subsystem reporting ready. -/
def Event.reportsTechnologies : Event → Bool
  | .technologiesReply (some _) => true
  | _ => false

/-- The event is the services subsystem reporting ready. -/
def Event.reportsServices : Event → Bool
  | .servicesReply (some _) (some _) _ => true
  | _ => false

/-- The event starts or ends a connection. -/
def Event.reconnects : Event → Bool
  | .connectToConnman _ _ => true
  | .connmanUnregistered => true
  | .disconnectFromConnman => true
  | _ => false

/-- The condition of the readiness gate (lines 754-755), read on the ready flags. -/
def gateOpen (s : NetworkManager) : Prop :=
  (s.m_technologiesEnabled = true → s.technologiesReady = true) ∧
  (s.m_servicesEnabled = true → s.servicesReady = true)

/-- From `s` to `t` the ready flags are the same and `available` was not set. -/
structure ReadinessKept (s t : NetworkManager) : Prop where
  technologiesReady : t.technologiesReady = s.technologiesReady
  servicesReady : t.servicesReady = s.servicesReady
  available : t.m_available = true → s.m_available = true

/-- The event is a connect. -/
def Event.isConnect : Event → Bool
  | .connectToConnman _ _ => true
  | _ => false

/-- The events delivered since the last connect (all of them when there was
none). -/
def sinceLastConnect : List Event → List Event
  | [] => []
  | e :: rest =>
    if rest.any Event.isConnect then sinceLastConnect rest
    else if e.isConnect then rest
    else e :: rest

/-- What one event does to the ready flags and to `available`: a flag is set
exactly by its subsystem's successful reply, and an unavailable engine becomes
available exactly at a gate step after which the gate condition holds. -/
def StepSpec (e : Event) (s t : NetworkManager) : Prop :=
  t.technologiesReady = (s.technologiesReady || e.reportsTechnologies) ∧
  t.servicesReady = (s.servicesReady || e.reportsServices) ∧
  (s.m_available = false → (t.m_available = true ↔ (e.isGateStep = true ∧ gateOpen t)))

/-- Each enabled subsystem has reported ready within `evs`. -/
def enabledReported (s : NetworkManager) (evs : List Event) : Prop :=
  (s.m_technologiesEnabled = true → evs.any Event.reportsTechnologies = true) ∧
  (s.m_servicesEnabled = true → evs.any Event.reportsServices = true)

/-- A line of the routing table as the probe needs it: at least two fields, and
at least four when the second field is `00000000`. -/
def routeLineOk (line : String) : Bool :=
  let lineList := QString.split line tab
  decide (2 ≤ lineList.length) &&
    (decide (lineList.get? 1 ≠ some "00000000") || decide (4 ≤ lineList.length))

/-- The test of the probe as the specification words it: the second field is
`00000000` and the fourth field is `0003`. -/
def isDefaultRouteLine (line : String) : Bool :=
  let lineList := QString.split line tab
  decide (lineList.get? 1 = some "00000000") && decide (lineList.get? 3 = some "0003")

/-- The answer of the probe as the specification states it: the first field of
the first line that passes the test, or no interface (the empty name). -/
def routeProbeSpec (routeFile : Option (List String)) : String :=
  match (routeFile.getD []).find? isDefaultRouteLine with
  | some line => (QString.split line tab).headD ""
  | none => ""

/-! ## States used as concrete inputs -/

/-- A wifi service and an ethernet service, as delivered in a services list. -/
def sampleWifi : ConnmanObject :=
  { objpath := "/wifi0", properties := [("Type", QVariant.str "wifi")] }

/-- An ethernet service, as delivered in a services list. -/
def sampleEther : ConnmanObject :=
  { objpath := "/eth0", properties := [("Type", QVariant.str "ethernet")] }

/-- The engine after an incremental update listing an ethernet and a wifi service. -/
def sampleTwoServices : NetworkManager :=
  updateServices [sampleEther, sampleWifi] [] "" NetworkManager.initial

/-- A saved wifi service with its favorite flag on. -/
def sampleFavorite : ConnmanObject :=
  { objpath := "/wifi0",
    properties := [("Type", QVariant.str "wifi"), ("Favorite", QVariant.bool true)] }

/-- The same wifi service, reported with its favorite flag off. -/
def sampleUnfavorite : ConnmanObject :=
  { objpath := "/wifi0", properties := [("Favorite", QVariant.bool false)] }

/-- The engine after a saved-services notification listing one favorite service. -/
def sampleSaved : NetworkManager :=
  updateSavedServices [sampleFavorite] NetworkManager.initial

/-- The engine after a saved-services notification that lists the same path twice. -/
def sampleSavedTwice : NetworkManager :=
  updateSavedServices [sampleFavorite, sampleFavorite] NetworkManager.initial

/-- A service that is idle on `eth0`. -/
def sampleIdle : ConnmanObject :=
  { objpath := "/idle",
    properties := [("State", QVariant.str "idle"), ("Ethernet.Interface", QVariant.str "eth0")] }

/-- A service that is online on `eth0`. -/
def sampleOnline : ConnmanObject :=
  { objpath := "/online",
    properties := [("State", QVariant.str "online"),
      ("Ethernet.Interface", QVariant.str "eth0")] }

/-- The engine right after a connect with a valid manager handle. -/
def sampleConnected : NetworkManager :=
  connectToConnman true "eth0" (NetworkManager.construct false true "")

/-- The online service as a saved-services notification reports it once it
has gone idle. -/
def sampleOnlineGoneIdle : ConnmanObject :=
  { objpath := "/online", properties := [("State", QVariant.str "idle")] }

/-- A bootstrap that fetches one online service, followed by a saved-services
notification that reports it idle. -/
def sampleStaleRouteTrace : List Event :=
  [Event.connectToConnman true "eth0", Event.propertiesReply (some []),
   Event.technologiesReply (some []),
   Event.servicesReply (some [sampleOnline]) (some []) "eth0",
   Event.updateSavedServices [sampleOnlineGoneIdle]]

/-- A bootstrap followed by an incremental update, all inputs consistent. -/
def sampleConsistentTrace : List Event :=
  [Event.connectToConnman true "eth0", Event.propertiesReply (some []),
   Event.technologiesReply (some []),
   Event.servicesReply (some [sampleOnline, sampleIdle]) (some [sampleFavorite]) "eth0",
   Event.updateServices [sampleOnline] ["/idle"] "eth0"]

/-- A second services fetch whose saved-services call fails. -/
def sampleSavedCallFails : List Event :=
  [Event.connectToConnman true "eth0",
   Event.servicesReply (some [sampleFavorite]) (some [sampleFavorite]) "eth0",
   Event.servicesReply (some [sampleFavorite]) none "eth0"]

/-- A services fetch whose reply names one path twice. -/
def sampleRepeatedPath : List Event :=
  [Event.connectToConnman true "eth0",
   Event.servicesReply (some [sampleOnline, sampleOnline]) (some []) "eth0"]

/-- An incremental update that lists one path as changed and as removed. -/
def sampleChangedAndRemoved : List Event :=
  [Event.connectToConnman true "eth0", Event.updateServices [sampleOnline] ["/online"] "eth0"]

/-- A full bootstrap, an unregistration, and a reconnect up to the properties
reply. -/
def sampleReconnectTrace : List Event :=
  [Event.connectToConnman true "eth0", Event.propertiesReply (some []),
   Event.technologiesReply (some []), Event.servicesReply (some []) (some []) "eth0",
   Event.connmanUnregistered,
   Event.connectToConnman true "eth0", Event.propertiesReply (some [])]

/-- A first bootstrap: connect, then the three replies. -/
def sampleBootstrap : List Event :=
  [Event.propertiesReply (some []), Event.technologiesReply (some []),
   Event.servicesReply (some [sampleOnline]) (some []) "eth0"]

/-- A service that is online and reports the empty interface name. -/
def sampleOnlineUnnamed : ConnmanObject :=
  { objpath := "/unnamed",
    properties := [("State", QVariant.str "online"), ("Ethernet.Interface", QVariant.str "")] }

/-- The engine after an incremental update that lists an idle service and the
unnamed online one while the routing probe finds `eth0`. -/
def sampleUnnamedListed : NetworkManager :=
  updateServices [sampleIdle, sampleOnlineUnnamed] [] "eth0" sampleConnected

/-- A routing table in the kernel's format: the header, a subnet route and the
default route through `eth0`. -/
def sampleRouteTable : List String :=
  ["Iface\tDestination\tGateway \tFlags\tRefCnt\tUse\tMetric\tMask\t\tMTU\tWindow\tIRTT",
   "eth0\t0001A8C0\t00000000\t0001\t0\t0\t0\t00FFFFFF\t0\t0\t0",
   "eth0\t00000000\t0101A8C0\t0003\t0\t0\t100\t00000000\t0\t0\t0"]

/-! # Verification -/

/-! ## Association lists -/

theorem hashValue_mem {β : Type} (m : List (String × β)) (k : String) (v : β)
    (h : hashValue m k = some v) : (k, v) ∈ m := by
  induction m with
  | nil => simp [hashValue] at h
  | cons kv rest ih =>
    obtain ⟨k1, v1⟩ := kv
    by_cases hk : k1 = k
    · simp [hashValue, hk] at h
      simp [hk, h]
    · simp [hashValue, hk] at h
      exact List.mem_cons_of_mem _ (ih h)

theorem hashRemove_cons {β : Type} (k1 : String) (v1 : β) (rest : List (String × β))
    (k : String) :
    hashRemove ((k1, v1) :: rest) k
      = if k1 = k then hashRemove rest k else (k1, v1) :: hashRemove rest k := by
  by_cases hk : k1 = k
  · simp [hashRemove, List.filter_cons, hk]
  · simp [hashRemove, List.filter_cons, hk]

theorem hashValue_remove_ne {β : Type} (m : List (String × β)) (k key : String) (h : key ≠ k) :
    hashValue (hashRemove m k) key = hashValue m key := by
  induction m with
  | nil => rfl
  | cons kv rest ih =>
    obtain ⟨k1, v1⟩ := kv
    rw [hashRemove_cons]
    by_cases hk : k1 = k
    · subst hk
      have h1 : ¬ k1 = key := fun e => h e.symm
      simpa [hashValue, h1] using ih
    · by_cases hkey : k1 = key
      · subst hkey
        simp [hashValue, hk]
      · simpa [hashValue, hk, hkey] using ih

theorem hashValue_remove_self {β : Type} (m : List (String × β)) (k : String) :
    hashValue (hashRemove m k) k = none := by
  induction m with
  | nil => rfl
  | cons kv rest ih =>
    obtain ⟨k1, v1⟩ := kv
    rw [hashRemove_cons]
    by_cases hk : k1 = k
    · simpa [hk] using ih
    · simpa [hashValue, hk] using ih

theorem hashValue_insert_self {β : Type} (m : List (String × β)) (k : String) (v : β) :
    hashValue (hashInsert m k v) k = some v := by
  simp [hashInsert, hashValue]

theorem hashValue_insert_ne {β : Type} (m : List (String × β)) (k key : String) (v : β)
    (h : key ≠ k) : hashValue (hashInsert m k v) key = hashValue m key := by
  have h1 : ¬ k = key := fun e => h e.symm
  simp [hashInsert, hashValue, h1, hashValue_remove_ne m k key h]

theorem mem_hashRemove {β : Type} (m : List (String × β)) (k : String) (kv : String × β)
    (h : kv ∈ hashRemove m k) : kv ∈ m ∧ kv.1 ≠ k := by
  simpa [hashRemove] using h

theorem mem_hashInsert {β : Type} (m : List (String × β)) (k : String) (v : β)
    (kv : String × β) (h : kv ∈ hashInsert m k v) : kv = (k, v) ∨ (kv ∈ m ∧ kv.1 ≠ k) := by
  simp only [hashInsert, List.mem_cons] at h
  rcases h with h | h
  · exact Or.inl h
  · exact Or.inr (mem_hashRemove m k kv h)

/-! ## Queries -/

theorem getServicesLoop_eq (s : NetworkManager) (tech : String) (l acc : List Nat) :
    getServicesLoop s tech l acc
      = acc ++ l.filter (fun p => decide (tech = "" ∨ typeOf s p = tech)) := by
  induction l generalizing acc with
  | nil => simp [getServicesLoop]
  | cons p rest ih =>
    by_cases h : tech = "" ∨ typeOf s p = tech
    · simp [getServicesLoop, h, ih]
    · simp [getServicesLoop, h, ih]

theorem getServices_all (s : NetworkManager) : getServices "" s = s.m_servicesOrder := by
  simp [getServices, getServicesLoop_eq]

/-- C5: for a non-empty technology string, `getServices` returns exactly the
records of `m_servicesOrder` whose type equals it, in the same order, and for
the empty string it returns `m_servicesOrder` itself. -/
theorem getServices_filter (s : NetworkManager) (tech : String) :
    (tech ≠ "" →
      getServices tech s = s.m_servicesOrder.filter (fun p => decide (typeOf s p = tech))) ∧
    getServices "" s = s.m_servicesOrder := by
  refine ⟨fun h => ?_, getServices_all s⟩
  simp [getServices, getServicesLoop_eq, h]

theorem getServices_filter_witness :
    "wifi" ≠ "" ∧
      getServices "wifi" sampleTwoServices
        = sampleTwoServices.m_servicesOrder.filter
            (fun p => decide (typeOf sampleTwoServices p = "wifi")) :=
  ⟨by decide, (getServices_filter sampleTwoServices "wifi").1 (by decide)⟩

/-! ## Default route: the no-match branch -/

/-- C6: on the engine as constructed (no service listed), two recomputations in
a row with the same probe result emit the default-route-changed signal twice:
the no-match branch of `updateDefaultRoute` emits without comparing. -/
theorem updateDefaultRoute_twice_emits_twice (defaultNetDev : String) :
    (updateDefaultRoute defaultNetDev
        (updateDefaultRoute defaultNetDev NetworkManager.initial)).signals
      = [Signal.defaultRouteChanged (some 0), Signal.defaultRouteChanged (some 0)] ∧
    (updateDefaultRoute defaultNetDev
        (updateDefaultRoute defaultNetDev NetworkManager.initial)).m_defaultRoute
      = (updateDefaultRoute defaultNetDev NetworkManager.initial).m_defaultRoute := by
  constructor <;> rfl

/-! ## Bootstrap with technologies disabled -/

/-- C7: with technologies disabled before the manager properties arrive, the
successful properties reply issues neither a technology fetch nor a services
fetch (the only call on the proxy stays `GetProperties`), and the engine stays
unavailable with services enabled and not ready. -/
theorem propertiesReply_technologiesDisabled_no_fetch (props : QVariantMap)
    (defaultNetDev : String) :
    ∃ s, run [Event.connectToConnman true defaultNetDev, Event.setTechnologiesEnabled false,
          Event.propertiesReply (some props)] (NetworkManager.construct false true "")
        = Except.ok s ∧
      s.calls = [RemoteCall.GetProperties] ∧ s.m_manager = true ∧
      s.m_technologiesEnabled = false ∧ s.m_servicesEnabled = true ∧
      s.servicesReady = false ∧ s.m_available = false :=
  ⟨_, rfl, rfl, rfl, rfl, rfl, rfl, rfl⟩

/-! ## Commands while disconnected -/

theorem disconnectTechnologies_manager (s : NetworkManager) :
    (disconnectTechnologies s).m_manager = s.m_manager := by
  unfold disconnectTechnologies
  split <;> rfl

theorem disconnectServices_manager (s : NetworkManager) :
    (disconnectServices s).m_manager = s.m_manager := by
  have hd : ∀ (l : List (String × Nat)) (t : NetworkManager),
      (deleteAll l t).m_manager = t.m_manager := by
    intro l
    induction l with
    | nil => intro t; rfl
    | cons kv rest ih => intro t; obtain ⟨k, p⟩ := kv; simp [deleteAll, ih, deleteLater]
  unfold disconnectServices
  simp only []
  repeat' split
  all_goals simp [emit, hd]

theorem disconnectFromConnman_manager (s : NetworkManager) :
    (disconnectFromConnman s).m_manager = false := by
  simp [disconnectFromConnman, disconnectServices_manager, disconnectTechnologies_manager]

/-- Every command other than `resetCountersForType` is a no-op on a
disconnected engine. -/
theorem command_disconnected_noop (c : Command) (s : NetworkManager)
    (hm : s.m_manager = false) (hc : ∀ t, c ≠ Command.resetCountersForType t) :
    c.run s = Except.ok s := by
  cases c <;>
    simp_all [Command.run, ConnmanQt.setOfflineMode, ConnmanQt.setSessionMode,
      ConnmanQt.registerAgent, ConnmanQt.unregisterAgent, ConnmanQt.registerCounter,
      ConnmanQt.unregisterCounter, ConnmanQt.createSession, ConnmanQt.destroySession]

/-- C8: after a disconnect (manager handle null) `resetCountersForType`
dereferences the handle and faults, where the other commands test it first. -/
theorem resetCountersForType_disconnected_faults (s : NetworkManager) (type : String) :
    (Command.resetCountersForType type).run (disconnectFromConnman s)
      = Except.error Fault.nullManager := by
  simp [Command.run, ConnmanQt.resetCountersForType, disconnectFromConnman_manager]

theorem WellFormed.wf_of_eq {s t : NetworkManager} (h : WellFormed s)
    (hh : t.heap = s.heap) (hn : t.next = s.next) (hc : t.m_servicesCache = s.m_servicesCache)
    (hi : t.m_invalidDefaultRoute = s.m_invalidDefaultRoute) : WellFormed t := by
  refine ⟨?_, ?_, ?_⟩
  · intro q hq; rw [hh]; exact h.fresh q (hn ▸ hq)
  · intro k p hkp; rw [hh]; exact h.cached k p (hc ▸ hkp)
  · intro q hq; rw [hh, hc]; exact h.sentinel q (hi ▸ hq)

theorem WellFormed.wf_lt_next {s : NetworkManager} (h : WellFormed s) {p : Nat}
    {r : NetworkService} (hp : s.heap p = some r) : p < s.next := by
  by_contra hlt
  have := h.fresh p (Nat.le_of_not_lt hlt)
  rw [this] at hp
  cases hp

theorem WellFormed.wf_initial : WellFormed NetworkManager.initial :=
  ⟨fun _ _ => rfl, fun _ _ h => by simp [NetworkManager.initial] at h,
   fun _ h => by simp [NetworkManager.initial] at h⟩

theorem WellFormed.wf_emit {s : NetworkManager} (h : WellFormed s) (sig : Signal) :
    WellFormed (emit sig s) := h.wf_of_eq rfl rfl rfl rfl

/-- Creating a record and caching it under its path keeps the state well formed. -/
theorem WellFormed.wf_create {s : NetworkManager} (h : WellFormed s) (path : String)
    (props : QVariantMap) (t : NetworkManager)
    (hh : t.heap = (newService path props s).heap) (hn : t.next = s.next + 1)
    (hc : t.m_servicesCache = hashInsert s.m_servicesCache path s.next)
    (hi : t.m_invalidDefaultRoute = s.m_invalidDefaultRoute) : WellFormed t := by
  refine ⟨?_, ?_, ?_⟩
  · intro q hq
    rw [hh, hn] at *
    have hne : q ≠ s.next := by omega
    simp only [newService, hne, if_false]
    exact h.fresh q (by omega)
  · intro k p hkp
    rw [hc] at hkp
    rw [hh]
    rcases mem_hashInsert _ _ _ _ hkp with heq | ⟨hmem, -⟩
    · cases heq
      exact ⟨{ path := path, props := props }, by simp [newService], rfl⟩
    · obtain ⟨r, hr, hpath⟩ := h.cached k p hmem
      have hne : p ≠ s.next := Nat.ne_of_lt (h.wf_lt_next hr)
      exact ⟨r, by simp [newService, hne, hr], hpath⟩
  · intro q hq
    rw [hi] at hq
    obtain ⟨hr, hnc⟩ := h.sentinel q hq
    have hne : q ≠ s.next := Nat.ne_of_lt (h.wf_lt_next hr)
    refine ⟨by rw [hh]; simp [newService, hne, hr], ?_⟩
    intro k hk
    rw [hc] at hk
    rcases mem_hashInsert _ _ _ _ hk with heq | ⟨hmem, -⟩
    · cases heq; exact hne rfl
    · exact hnc k hmem

/-- Merging properties into a cached record keeps the state well formed. -/
theorem WellFormed.wf_merge {s : NetworkManager} (h : WellFormed s) (k : String) (p : Nat)
    (props : QVariantMap) (hkp : (k, p) ∈ s.m_servicesCache) :
    WellFormed (mergeProperties p props s) := by
  refine ⟨?_, ?_, ?_⟩
  · intro q hq
    have := h.fresh q hq
    by_cases hqp : q = p
    · subst hqp; simp [mergeProperties, this]
    · simp [mergeProperties, hqp, this]
  · intro k1 p1 hk1
    obtain ⟨r, hr, hpath⟩ := h.cached k1 p1 hk1
    by_cases hqp : p1 = p
    · subst hqp
      exact ⟨r.updateProperties props, by simp [mergeProperties, hr], hpath⟩
    · exact ⟨r, by simp [mergeProperties, hqp, hr], hpath⟩
  · intro q hq
    obtain ⟨hr, hnc⟩ := h.sentinel q hq
    have hne : q ≠ p := fun e => hnc k (e ▸ hkp)
    exact ⟨by simp [mergeProperties, hne, hr], hnc⟩

/-- Deleting a cached record together with its cache entry keeps the state well formed. -/
theorem WellFormed.wf_delete {s : NetworkManager} (h : WellFormed s) (k : String) (p : Nat)
    (hkp : (k, p) ∈ s.m_servicesCache) :
    WellFormed { deleteLater p s with m_servicesCache := hashRemove s.m_servicesCache k } := by
  refine ⟨?_, ?_, ?_⟩
  · intro q hq
    have := h.fresh q hq
    by_cases hqp : q = p
    · simp [deleteLater, hqp]
    · simp [deleteLater, hqp, this]
  · intro k1 p1 hk1
    obtain ⟨hmem, hne⟩ := mem_hashRemove _ _ _ hk1
    obtain ⟨r, hr, hpath⟩ := h.cached k1 p1 hmem
    have hpp : p1 ≠ p := by
      intro e
      subst e
      obtain ⟨r2, hr2, hpath2⟩ := h.cached k p1 hkp
      rw [hr] at hr2
      cases hr2
      exact hne (hpath.symm.trans hpath2)
    exact ⟨r, by simp [deleteLater, hpp, hr], hpath⟩
  · intro q hq
    obtain ⟨hr, hnc⟩ := h.sentinel q hq
    have hne : q ≠ p := fun e => hnc k (e ▸ hkp)
    refine ⟨by simp [deleteLater, hne, hr], ?_⟩
    intro k1 hk1
    exact hnc k1 (mem_hashRemove _ _ _ hk1).1

theorem WellFormed.wf_ensureInvalidRoute {s : NetworkManager} (h : WellFormed s) :
    WellFormed (ensureInvalidRoute s) := by
  unfold ConnmanQt.ensureInvalidRoute
  split
  · exact h
  · rename_i hnone
    refine ⟨?_, ?_, ?_⟩
    · intro q hq
      have hne : q ≠ s.next := by simp [newService] at hq; omega
      have hle : s.next ≤ q := by simp [newService] at hq; omega
      simp [newService, hne, h.fresh q hle]
    · intro k p hkp
      obtain ⟨r, hr, hpath⟩ := h.cached k p hkp
      have hne : p ≠ s.next := Nat.ne_of_lt (h.wf_lt_next hr)
      exact ⟨r, by simp [newService, hne, hr], hpath⟩
    · intro q hq
      have hq2 : s.next = q := by simpa using hq
      subst hq2
      refine ⟨by simp [newService], ?_⟩
      intro k hk
      obtain ⟨r, hr, -⟩ := h.cached k s.next hk
      exact Nat.lt_irrefl _ (h.wf_lt_next hr)

theorem WellFormed.wf_updateDefaultRoute {s : NetworkManager} (h : WellFormed s)
    (defaultNetDev : String) : WellFormed (updateDefaultRoute defaultNetDev s) := by
  unfold ConnmanQt.updateDefaultRoute
  split
  · split
    · exact h
    · exact h.wf_of_eq rfl rfl rfl rfl
  · exact h.wf_ensureInvalidRoute.wf_of_eq rfl rfl rfl rfl

theorem updateDefaultRoute_lists (defaultNetDev : String) (s : NetworkManager) :
    (updateDefaultRoute defaultNetDev s).m_servicesCache = s.m_servicesCache ∧
    (updateDefaultRoute defaultNetDev s).m_servicesOrder = s.m_servicesOrder ∧
    (updateDefaultRoute defaultNetDev s).m_savedServicesOrder = s.m_savedServicesOrder := by
  unfold updateDefaultRoute ensureInvalidRoute
  repeat' split
  all_goals simp [emit, newService]

theorem updateDefaultRoute_next (defaultNetDev : String) (s : NetworkManager) :
    s.next ≤ (updateDefaultRoute defaultNetDev s).next := by
  unfold updateDefaultRoute ensureInvalidRoute
  repeat' split
  all_goals simp [emit, newService]

theorem updateDefaultRoute_heap (defaultNetDev : String) (s : NetworkManager) (q : Nat)
    (hq : q < s.next) : (updateDefaultRoute defaultNetDev s).heap q = s.heap q := by
  have hne : q ≠ s.next := Nat.ne_of_lt hq
  unfold updateDefaultRoute ensureInvalidRoute
  repeat' split
  all_goals simp [emit, newService, hne]

theorem WellFormed.wf_reuseOrCreate {s : NetworkManager} (h : WellFormed s) (obj : ConnmanObject) :
    WellFormed (reuseOrCreate obj s) := by
  unfold ConnmanQt.reuseOrCreate
  split
  · rename_i service hv
    exact h.wf_merge obj.objpath service obj.properties (hashValue_mem _ _ _ hv)
  · exact h.wf_create obj.objpath obj.properties _ rfl rfl rfl rfl

theorem WellFormed.wf_updateServicesEntry {s : NetworkManager} (h : WellFormed s)
    (defaultNetDev : String) (order : Nat) (obj : ConnmanObject) :
    WellFormed (updateServicesEntry defaultNetDev order obj s) := by
  have h1 := h.wf_reuseOrCreate obj
  unfold ConnmanQt.updateServicesEntry
  dsimp only
  repeat' split
  all_goals
    try apply WellFormed.wf_emit
    try apply WellFormed.wf_updateDefaultRoute
    exact h1.wf_of_eq rfl rfl rfl rfl

theorem updateServicesLoop_induct (P : NetworkManager → Prop) (defaultNetDev : String)
    (changed : List ConnmanObject)
    (hstep : ∀ order obj s, obj ∈ changed → P s →
      P (updateServicesEntry defaultNetDev order obj s)) :
    ∀ (order : Nat) (s : NetworkManager) (l : List String), P s →
      P (updateServicesLoop defaultNetDev order changed s l).1 := by
  induction changed with
  | nil => intro order s l h; exact h
  | cons obj rest ih =>
    intro order s l h
    simp only [updateServicesLoop]
    exact ih (fun o ob t hm ht => hstep o ob t (List.mem_cons_of_mem _ hm) ht) _ _ _
      (hstep order obj s (List.mem_cons_self _ _) h)

theorem removeServices_induct (P : NetworkManager → Prop) (removed : List String)
    (hstep : ∀ k s, k ∈ removed → P s → P (removeService k s)) :
    ∀ s : NetworkManager, P s → P (removeServices removed s) := by
  induction removed with
  | nil => intro s h; exact h
  | cons k rest ih =>
    intro s h
    simp only [removeServices]
    exact ih (fun k1 t hm ht => hstep k1 t (List.mem_cons_of_mem _ hm) ht) _
      (hstep k s (List.mem_cons_self _ _) h)

theorem WellFormed.wf_updateServicesChanged {s : NetworkManager} (h : WellFormed s)
    (changed : List ConnmanObject) (defaultNetDev : String) :
    WellFormed (updateServicesChanged changed defaultNetDev s) :=
  updateServicesLoop_induct WellFormed defaultNetDev changed
    (fun order obj _ _ ht => ht.wf_updateServicesEntry defaultNetDev order obj) 0 _ []
    (h.wf_of_eq rfl rfl rfl rfl)

theorem updateProperties_idle (r : NetworkService) :
    hashValue (r.updateProperties
        [("Strength", QVariant.uint 0), ("State", QVariant.str "idle")]).props "Strength"
      = some (QVariant.uint 0) ∧
    hashValue (r.updateProperties
        [("Strength", QVariant.uint 0), ("State", QVariant.str "idle")]).props "State"
      = some (QVariant.str "idle") := by
  constructor
  · simp only [NetworkService.updateProperties, List.foldl]
    rw [hashValue_insert_ne _ _ _ _ (by decide), hashValue_insert_self]
  · simp only [NetworkService.updateProperties, List.foldl]
    rw [hashValue_insert_self]

/-- One removal keeps a record that is cached and saved: the binding stays, the
record stays in the saved list, and once forced idle it stays idle. -/
theorem removeService_keep (s : NetworkManager) (k k1 : String) (p : Nat)
    (hwf : WellFormed s) (hc : hashValue s.m_servicesCache k = some p)
    (hs : p ∈ s.m_savedServicesOrder) :
    (WellFormed (removeService k1 s) ∧
      hashValue (removeService k1 s).m_servicesCache k = some p ∧
      p ∈ (removeService k1 s).m_savedServicesOrder) ∧
    (IdleZero s p → IdleZero (removeService k1 s) p) ∧
    (k1 = k → IdleZero (removeService k1 s) p) := by
  unfold removeService
  split
  · rename_i q hq
    have hqmem := hashValue_mem _ _ _ hq
    by_cases hqs : q ∈ s.m_savedServicesOrder
    · simp only [hqs, if_true]
      refine ⟨⟨(hwf.wf_merge k1 q _ hqmem).wf_emit _, hc, hs⟩, ?_, ?_⟩
      · rintro ⟨r, hr, h1, h2⟩
        by_cases hpq : p = q
        · subst hpq
          exact ⟨_, by simp [emit, mergeProperties, hr], updateProperties_idle r⟩
        · exact ⟨r, by simp [emit, mergeProperties, hpq, hr], h1, h2⟩
      · intro hk
        subst hk
        rw [hc] at hq
        cases hq
        obtain ⟨r, hr, -⟩ := hwf.cached _ _ hqmem
        exact ⟨_, by simp [emit, mergeProperties, hr], updateProperties_idle r⟩
    · simp only [hqs, if_false]
      have hpq : p ≠ q := fun e => hqs (e ▸ hs)
      have hkk : k ≠ k1 := by
        intro e
        subst e
        rw [hc] at hq
        cases hq
        exact hpq rfl
      refine ⟨⟨(hwf.wf_delete k1 q hqmem).wf_emit _, ?_, hs⟩, ?_, ?_⟩
      · simpa [emit, hashValue_remove_ne _ _ _ hkk] using hc
      · rintro ⟨r, hr, h1, h2⟩
        exact ⟨r, by simp [emit, deleteLater, hpq, hr], h1, h2⟩
      · intro hk
        exact absurd hk.symm hkk
  · rename_i hnone
    refine ⟨⟨hwf, hc, hs⟩, id, ?_⟩
    intro hk
    subst hk
    rw [hc] at hnone
    cases hnone

theorem removeServices_keep (removed : List String) (k : String) (p : Nat) :
    ∀ s : NetworkManager, WellFormed s → hashValue s.m_servicesCache k = some p →
      p ∈ s.m_savedServicesOrder → (k ∈ removed ∨ IdleZero s p) →
      WellFormed (removeServices removed s) ∧
      hashValue (removeServices removed s).m_servicesCache k = some p ∧
      p ∈ (removeServices removed s).m_savedServicesOrder ∧
      IdleZero (removeServices removed s) p := by
  induction removed with
  | nil =>
    intro s hwf hc hs hor
    rcases hor with h | h
    · cases h
    · exact ⟨hwf, hc, hs, h⟩
  | cons k1 rest ih =>
    intro s hwf hc hs hor
    obtain ⟨⟨hwf1, hc1, hs1⟩, hkeep, hset⟩ := removeService_keep s k k1 p hwf hc hs
    simp only [removeServices]
    refine ih _ hwf1 hc1 hs1 ?_
    rcases hor with h | h
    · rcases List.mem_cons.mp h with h | h
      · exact Or.inr (hset h.symm)
      · exact Or.inl h
    · exact Or.inr (hkeep h)

/-- The second loop on its own: a removed path whose cached record is in
`m_savedServicesOrder` when the removals are processed keeps its cache entry,
and the record is live with `Strength` 0 and `State` idle when `updateServices`
returns. -/
theorem updateServices_kept_at_removal (s : NetworkManager) (changed : List ConnmanObject)
    (removed : List String) (defaultNetDev : String) (svcPath : String) (service : Nat)
    (hwf : WellFormed s) (hrem : svcPath ∈ removed)
    (hcached : hashValue (updateServicesChanged changed defaultNetDev s).m_servicesCache svcPath
      = some service)
    (hsaved : service ∈ (updateServicesChanged changed defaultNetDev s).m_savedServicesOrder) :
    hashValue (updateServices changed removed defaultNetDev s).m_servicesCache svcPath
      = some service ∧
    IdleZero (updateServices changed removed defaultNetDev s) service ∧
    ∃ r, (updateServices changed removed defaultNetDev s).heap service = some r ∧
      r.state = "idle" := by
  obtain ⟨hwf2, hc2, -, hz2⟩ := removeServices_keep removed svcPath service _
    (hwf.wf_updateServicesChanged changed defaultNetDev) hcached hsaved (Or.inl hrem)
  have key : hashValue (updateServices changed removed defaultNetDev s).m_servicesCache svcPath
      = some service ∧
      IdleZero (updateServices changed removed defaultNetDev s) service := by
    unfold updateServices
    simp only [updateServicesChanged] at hwf2 hc2 hz2
    by_cases hch : changed = []
    · simp only [hch, if_true, emit]
      simp only [hch] at hwf2 hc2 hz2
      obtain ⟨r, hr, h1, h2⟩ := hz2
      refine ⟨by rw [(updateDefaultRoute_lists _ _).1]; exact hc2, r, ?_, h1, h2⟩
      simp only []
      rw [updateDefaultRoute_heap _ _ _ (hwf2.wf_lt_next hr)]
      exact hr
    · simp only [hch, if_false, emit]
      exact ⟨hc2, hz2⟩
  refine ⟨key.1, key.2, ?_⟩
  obtain ⟨r, hr, -, h2⟩ := key.2
  exact ⟨r, hr, by simp [NetworkService.state, h2]⟩

/-! ## One services entry: reuse or create -/

theorem reuseOrCreate_cache (obj : ConnmanObject) (s : NetworkManager) (k : String) :
    hashValue (reuseOrCreate obj s).m_servicesCache k
      = if k = obj.objpath then some (servicePtr s obj.objpath)
        else hashValue s.m_servicesCache k := by
  unfold reuseOrCreate servicePtr
  by_cases hk : k = obj.objpath
  · subst hk
    cases hv : hashValue s.m_servicesCache obj.objpath with
    | none => simp [hashValue_insert_self]
    | some p => simp [mergeProperties, hv]
  · cases hv : hashValue s.m_servicesCache obj.objpath with
    | none => simp [hk, hashValue_insert_ne _ _ _ _ hk]
    | some p => simp [hk, mergeProperties]

theorem reuseOrCreate_heap (obj : ConnmanObject) (s : NetworkManager) (q : Nat)
    (hq : q ≠ servicePtr s obj.objpath) : (reuseOrCreate obj s).heap q = s.heap q := by
  unfold reuseOrCreate
  unfold servicePtr at hq
  cases hv : hashValue s.m_servicesCache obj.objpath with
  | none => rw [hv] at hq; simp [newService]; intro h; exact absurd h hq
  | some p => rw [hv] at hq; simp [mergeProperties]; intro h; exact absurd h hq

theorem reuseOrCreate_fields (obj : ConnmanObject) (s : NetworkManager) :
    (reuseOrCreate obj s).m_servicesOrder = s.m_servicesOrder ∧
    (reuseOrCreate obj s).m_savedServicesOrder = s.m_savedServicesOrder ∧
    (reuseOrCreate obj s).m_defaultRoute = s.m_defaultRoute ∧
    (reuseOrCreate obj s).m_invalidDefaultRoute = s.m_invalidDefaultRoute ∧
    s.next ≤ (reuseOrCreate obj s).next := by
  unfold reuseOrCreate
  cases hv : hashValue s.m_servicesCache obj.objpath with
  | none => simp [newService]
  | some p => simp [mergeProperties]

theorem reuseOrCreate_ptr_lt (obj : ConnmanObject) (s : NetworkManager) (h : WellFormed s) :
    servicePtr s obj.objpath < (reuseOrCreate obj s).next := by
  unfold reuseOrCreate servicePtr
  cases hv : hashValue s.m_servicesCache obj.objpath with
  | none => simp [newService]
  | some p =>
    obtain ⟨r, hr, -⟩ := h.cached _ _ (hashValue_mem _ _ _ hv)
    simpa [mergeProperties] using h.wf_lt_next hr

/-! ## One iteration of the first loop of `updateServices` -/

theorem updateServicesEntry_order (defaultNetDev : String) (order : Nat) (obj : ConnmanObject)
    (s : NetworkManager) :
    (updateServicesEntry defaultNetDev order obj s).m_servicesOrder
      = s.m_servicesOrder ++ [servicePtr s obj.objpath] := by
  unfold updateServicesEntry
  dsimp only
  repeat' split
  all_goals simp [emit, (updateDefaultRoute_lists _ _).2.1, (reuseOrCreate_fields obj s).1]

theorem updateServicesEntry_cache (defaultNetDev : String) (order : Nat) (obj : ConnmanObject)
    (s : NetworkManager) (k : String) :
    hashValue (updateServicesEntry defaultNetDev order obj s).m_servicesCache k
      = if k = obj.objpath then some (servicePtr s obj.objpath)
        else hashValue s.m_servicesCache k := by
  rw [← reuseOrCreate_cache]
  unfold updateServicesEntry
  dsimp only
  repeat' split
  all_goals simp [emit, (updateDefaultRoute_lists _ _).1]

theorem updateServicesEntry_next (defaultNetDev : String) (order : Nat) (obj : ConnmanObject)
    (s : NetworkManager) :
    (reuseOrCreate obj s).next ≤ (updateServicesEntry defaultNetDev order obj s).next := by
  unfold updateServicesEntry
  dsimp only
  repeat' split
  all_goals
    try simp only [emit]
    first
    | exact Nat.le_refl _
    | (refine le_trans ?_ (updateDefaultRoute_next _ _); exact Nat.le_refl _)

theorem updateServicesEntry_heap (defaultNetDev : String) (order : Nat) (obj : ConnmanObject)
    (s : NetworkManager) (q : Nat) (hq : q < (reuseOrCreate obj s).next) :
    (updateServicesEntry defaultNetDev order obj s).heap q = (reuseOrCreate obj s).heap q := by
  unfold updateServicesEntry
  dsimp only
  repeat' split
  all_goals try simp only [emit]
  all_goals
    first
    | rfl
    | exact updateDefaultRoute_heap _ _ _ hq

theorem updateServicesEntry_saved (defaultNetDev : String) (order : Nat) (obj : ConnmanObject)
    (s : NetworkManager) :
    (updateServicesEntry defaultNetDev order obj s).m_savedServicesOrder
      = if favoriteOf (reuseOrCreate obj s) (servicePtr s obj.objpath) then s.m_savedServicesOrder
        else s.m_savedServicesOrder.erase (servicePtr s obj.objpath) := by
  unfold updateServicesEntry
  dsimp only
  have hf : ∀ l : List Nat,
      favoriteOf { reuseOrCreate obj s with m_servicesOrder := l } (servicePtr s obj.objpath)
        = favoriteOf (reuseOrCreate obj s) (servicePtr s obj.objpath) := fun _ => rfl
  by_cases hfav : favoriteOf (reuseOrCreate obj s) (servicePtr s obj.objpath) = true
  · simp only [hf, hfav, if_true]
    repeat' split
    all_goals simp [emit, (updateDefaultRoute_lists _ _).2.2, (reuseOrCreate_fields obj s).2.1]
  · simp only [hf, hfav]
    repeat' split
    all_goals simp [emit, (updateDefaultRoute_lists _ _).2.2, (reuseOrCreate_fields obj s).2.1]

/-! ## Pruning of the saved list -/

theorem favoriteOf_congr (s t : NetworkManager) (p : Nat) (h : t.heap p = s.heap p) :
    favoriteOf t p = favoriteOf s p := by
  simp [favoriteOf, h]

theorem favorite_updateProperties_idle (r : NetworkService) :
    (r.updateProperties [("Strength", QVariant.uint 0), ("State", QVariant.str "idle")]).favorite
      = r.favorite := by
  simp only [NetworkService.favorite, NetworkService.updateProperties, List.foldl]
  rw [hashValue_insert_ne _ _ _ _ (by decide), hashValue_insert_ne _ _ _ _ (by decide)]

theorem updateServicesEntry_pruned (defaultNetDev : String) (order : Nat) (obj : ConnmanObject)
    (s : NetworkManager) (h : UnfavoritePruned s) :
    UnfavoritePruned (updateServicesEntry defaultNetDev order obj s) := by
  obtain ⟨hwf, hnd, hinv⟩ := h
  have hlt := reuseOrCreate_ptr_lt obj s hwf
  have hR := (reuseOrCreate_fields obj s).2.2.2.2
  have hE := updateServicesEntry_next defaultNetDev order obj s
  have hsaved := updateServicesEntry_saved defaultNetDev order obj s
  have hsub : ∀ p, p ∈ (updateServicesEntry defaultNetDev order obj s).m_savedServicesOrder →
      p ∈ s.m_savedServicesOrder := by
    intro p hp
    rw [hsaved] at hp
    split at hp
    · exact hp
    · exact List.mem_of_mem_erase hp
  have hptr : favoriteOf (updateServicesEntry defaultNetDev order obj s)
        (servicePtr s obj.objpath) = false →
      servicePtr s obj.objpath ∉
        (updateServicesEntry defaultNetDev order obj s).m_savedServicesOrder := by
    intro hfav
    rw [favoriteOf_congr _ _ _ (updateServicesEntry_heap defaultNetDev order obj s _ hlt)] at hfav
    rw [hsaved]
    simp only [hfav]
    exact fun hm => (List.Nodup.mem_erase_iff hnd).mp hm |>.1 rfl
  refine ⟨hwf.wf_updateServicesEntry defaultNetDev order obj, ?_, ?_⟩
  · rw [hsaved]
    split
    · exact hnd
    · exact hnd.erase _
  · intro p hp
    rw [updateServicesEntry_order] at hp
    rcases List.mem_append.mp hp with hp | hp
    · obtain ⟨hpl, hpf⟩ := hinv p hp
      refine ⟨by omega, ?_⟩
      by_cases hpp : p = servicePtr s obj.objpath
      · subst hpp; exact hptr
      · intro hfav hmem
        rw [favoriteOf_congr _ _ _ (updateServicesEntry_heap defaultNetDev order obj s _
          (by omega)), favoriteOf_congr _ _ _ (reuseOrCreate_heap obj s _ hpp)] at hfav
        exact hpf hfav (hsub p hmem)
    · have hpp : p = servicePtr s obj.objpath := by simpa using hp
      subst hpp
      exact ⟨by omega, hptr⟩

theorem removeService_fields (k : String) (s : NetworkManager) :
    (removeService k s).m_servicesOrder = s.m_servicesOrder ∧
    (removeService k s).m_savedServicesOrder = s.m_savedServicesOrder ∧
    (removeService k s).next = s.next ∧
    (removeService k s).m_defaultRoute = s.m_defaultRoute ∧
    (removeService k s).m_invalidDefaultRoute = s.m_invalidDefaultRoute := by
  unfold removeService
  repeat' split
  all_goals simp [emit, mergeProperties, deleteLater]

theorem removeService_cache_sub (k1 k : String) (p : Nat) (s : NetworkManager)
    (h : hashValue (removeService k1 s).m_servicesCache k = some p) :
    hashValue s.m_servicesCache k = some p := by
  unfold removeService at h
  split at h
  · split at h
    · simpa [emit, mergeProperties] using h
    · by_cases hk : k = k1
      · subst hk
        simp [emit, deleteLater, hashValue_remove_self] at h
      · simpa [emit, deleteLater, hashValue_remove_ne _ _ _ hk] using h
  · exact h

theorem removeService_pruned (k : String) (s : NetworkManager) (h : UnfavoritePruned s) :
    UnfavoritePruned (removeService k s) := by
  obtain ⟨hwf, hnd, hinv⟩ := h
  obtain ⟨ho, hs, hn, -, -⟩ := removeService_fields k s
  refine ⟨?_, hs ▸ hnd, ?_⟩
  · unfold removeService
    split
    · rename_i q hq
      split
      · exact (hwf.wf_merge k q _ (hashValue_mem _ _ _ hq)).wf_emit _
      · exact (hwf.wf_delete k q (hashValue_mem _ _ _ hq)).wf_emit _
    · exact hwf
  · intro p hp
    rw [ho] at hp
    rw [hs, hn]
    obtain ⟨hpl, hpf⟩ := hinv p hp
    refine ⟨hpl, ?_⟩
    unfold removeService
    split
    · rename_i q hq
      by_cases hqs : q ∈ s.m_savedServicesOrder
      · simp only [hqs, if_true]
        intro hfav
        apply hpf
        rw [← hfav]
        by_cases hpq : p = q
        · subst hpq
          cases hr : s.heap p with
          | none => simp [favoriteOf, emit, mergeProperties, hr]
          | some r =>
            simp [favoriteOf, emit, mergeProperties, hr, favorite_updateProperties_idle]
        · simp [favoriteOf, emit, mergeProperties, hpq]
      · simp only [hqs, if_false]
        intro hfav
        by_cases hpq : p = q
        · subst hpq; exact hqs
        · apply hpf
          rw [← hfav]
          simp [favoriteOf, emit, deleteLater, hpq]
    · exact hpf

theorem updateServicesLoop_cached_mem (defaultNetDev : String) (changed : List ConnmanObject) :
    ∀ (order : Nat) (s : NetworkManager) (l : List String) (done : List String),
      (∀ k p, k ∈ done → hashValue s.m_servicesCache k = some p → p ∈ s.m_servicesOrder) →
      ∀ k p, (k ∈ done ∨ k ∈ changed.map ConnmanObject.objpath) →
        hashValue (updateServicesLoop defaultNetDev order changed s l).1.m_servicesCache k
          = some p →
        p ∈ (updateServicesLoop defaultNetDev order changed s l).1.m_servicesOrder := by
  induction changed with
  | nil =>
    intro order s l done h k p hk hv
    rcases hk with hk | hk
    · exact h k p hk hv
    · simp at hk
  | cons obj rest ih =>
    intro order s l done h k p hk hv
    simp only [updateServicesLoop] at hv ⊢
    refine ih _ _ _ (obj.objpath :: done) ?_ k p ?_ hv
    · intro k1 p1 hk1 hv1
      rw [updateServicesEntry_cache] at hv1
      rw [updateServicesEntry_order]
      by_cases hkk : k1 = obj.objpath
      · simp only [hkk, if_true] at hv1
        cases hv1
        simp
      · simp only [hkk, if_false] at hv1
        rcases List.mem_cons.mp hk1 with hk1 | hk1
        · exact absurd hk1 hkk
        · exact List.mem_append_left _ (h k1 p1 hk1 hv1)
    · rcases hk with hk | hk
      · exact Or.inl (List.mem_cons_of_mem _ hk)
      · rw [List.map_cons] at hk
        rcases List.mem_cons.mp hk with hk | hk
        · exact Or.inl (by simp [hk])
        · exact Or.inr hk

theorem removeServices_order (removed : List String) (s : NetworkManager) :
    (removeServices removed s).m_servicesOrder = s.m_servicesOrder ∧
    (removeServices removed s).m_savedServicesOrder = s.m_savedServicesOrder :=
  removeServices_induct
    (fun t => t.m_servicesOrder = s.m_servicesOrder ∧
      t.m_savedServicesOrder = s.m_savedServicesOrder) removed
    (fun k t _ ht => ⟨(removeService_fields k t).1.trans ht.1,
      (removeService_fields k t).2.1.trans ht.2⟩) s ⟨rfl, rfl⟩

theorem removeServices_cache_sub (removed : List String) (k : String) (p : Nat) :
    ∀ s : NetworkManager, hashValue (removeServices removed s).m_servicesCache k = some p →
      hashValue s.m_servicesCache k = some p := by
  induction removed with
  | nil => intro s h; exact h
  | cons k1 rest ih =>
    intro s h
    exact removeService_cache_sub k1 k p s (ih _ h)

theorem updateSavedServicesLoop_induct (P : NetworkManager → Prop)
    (changed : List ConnmanObject)
    (hstep : ∀ obj s, obj ∈ changed → P s → P (updateSavedServicesEntry obj s)) :
    ∀ s : NetworkManager, P s → P (updateSavedServicesLoop changed s) := by
  induction changed with
  | nil => intro s h; exact h
  | cons obj rest ih =>
    intro s h
    simp only [updateSavedServicesLoop]
    exact ih (fun ob t hm ht => hstep ob t (List.mem_cons_of_mem _ hm) ht) _
      (hstep obj s (List.mem_cons_self _ _) h)

theorem WellFormed.wf_updateSavedServices {s : NetworkManager} (h : WellFormed s)
    (changed : List ConnmanObject) : WellFormed (updateSavedServices changed s) := by
  unfold ConnmanQt.updateSavedServices
  apply WellFormed.wf_emit
  refine updateSavedServicesLoop_induct WellFormed changed ?_ _ (h.wf_of_eq rfl rfl rfl rfl)
  intro obj t _ ht
  exact (ht.wf_reuseOrCreate obj).wf_of_eq rfl rfl rfl rfl

theorem sampleSaved_wellFormed : WellFormed sampleSaved :=
  WellFormed.wf_initial.wf_updateSavedServices _

/-- C4, as amended: when the saved list holds no record twice, a service listed
in `changed` whose favorite flag is off after the merge is not in
`m_savedServicesOrder` when `updateServices` returns. -/
theorem updateServices_unfavorite_pruned (s : NetworkManager) (changed : List ConnmanObject)
    (removed : List String) (defaultNetDev : String) (hwf : WellFormed s)
    (hnd : s.m_savedServicesOrder.Nodup) (obj : ConnmanObject) (hobj : obj ∈ changed)
    (service : Nat)
    (hcached : hashValue (updateServices changed removed defaultNetDev s).m_servicesCache
      obj.objpath = some service)
    (hfav : favoriteOf (updateServices changed removed defaultNetDev s) service = false) :
    service ∉ (updateServices changed removed defaultNetDev s).m_savedServicesOrder := by
  have hne : changed ≠ [] := fun e => by simp [e] at hobj
  have h0 : UnfavoritePruned { s with m_servicesOrder := [] } :=
    ⟨hwf.wf_of_eq rfl rfl rfl rfl, hnd, by simp⟩
  have h1 := updateServicesLoop_induct UnfavoritePruned defaultNetDev changed
    (fun order ob t _ ht => updateServicesEntry_pruned defaultNetDev order ob t ht) 0 _ [] h0
  have h2 := removeServices_induct UnfavoritePruned removed
    (fun k t _ ht => removeService_pruned k t ht) _ h1
  have hmem := updateServicesLoop_cached_mem defaultNetDev changed 0
    { s with m_servicesOrder := [] } [] [] (by simp)
  unfold updateServices at hcached hfav ⊢
  simp only [hne, if_false, emit] at hcached hfav ⊢
  have hin := hmem obj.objpath service (Or.inr (List.mem_map_of_mem _ hobj))
    (removeServices_cache_sub removed _ _ _ hcached)
  rw [← (removeServices_order removed _).1] at hin
  exact (h2.2.2 service hin).2 hfav

theorem updateServices_unfavorite_pruned_witness :
    WellFormed sampleSaved ∧ sampleSaved.m_savedServicesOrder.Nodup ∧
    0 ∉ (updateServices [sampleUnfavorite] [] "" sampleSaved).m_savedServicesOrder :=
  ⟨sampleSaved_wellFormed, by decide,
    updateServices_unfavorite_pruned sampleSaved [sampleUnfavorite] [] ""
      sampleSaved_wellFormed (by decide) sampleUnfavorite (by decide) 0 (by decide) (by decide)⟩

/-- C4 as stated fails when the saved list holds the record twice: only its
first occurrence is removed. -/
theorem updateServices_unfavorite_left_in_saved :
    sampleUnfavorite ∈ [sampleUnfavorite] ∧
    hashValue (updateServices [sampleUnfavorite] [] "" sampleSavedTwice).m_servicesCache
      sampleUnfavorite.objpath = some 0 ∧
    favoriteOf (updateServices [sampleUnfavorite] [] "" sampleSavedTwice) 0 = false ∧
    0 ∈ (updateServices [sampleUnfavorite] [] "" sampleSavedTwice).m_savedServicesOrder := by
  decide

/-! ## Control members -/

theorem SameControl.sc_refl (s : NetworkManager) : SameControl s s :=
  ⟨rfl, rfl, rfl, rfl, rfl, rfl, rfl⟩

theorem SameControl.sc_trans {s t u : NetworkManager} (h1 : SameControl s t)
    (h2 : SameControl t u) : SameControl s u :=
  ⟨h2.manager.trans h1.manager, h2.available.trans h1.available,
   h2.servicesEnabled.trans h1.servicesEnabled,
   h2.technologiesEnabled.trans h1.technologiesEnabled,
   h2.servicesReady.trans h1.servicesReady, h2.technologiesReady.trans h1.technologiesReady,
   h2.calls.trans h1.calls⟩

/-- A state that agrees with `t` on the control members is as good as `t`. -/
theorem SameControl.sc_data {s t u : NetworkManager} (h : SameControl s t)
    (e1 : u.m_manager = t.m_manager) (e2 : u.m_available = t.m_available)
    (e3 : u.m_servicesEnabled = t.m_servicesEnabled)
    (e4 : u.m_technologiesEnabled = t.m_technologiesEnabled)
    (e5 : u.servicesReady = t.servicesReady) (e6 : u.technologiesReady = t.technologiesReady)
    (e7 : u.calls = t.calls) : SameControl s u :=
  h.sc_trans ⟨e1, e2, e3, e4, e5, e6, e7⟩

theorem SameControl.sc_emit {s t : NetworkManager} {sig : Signal} (h : SameControl s t) :
    SameControl s (emit sig t) :=
  h.sc_data rfl rfl rfl rfl rfl rfl rfl

theorem SameControl.sc_updateDefaultRoute {s t : NetworkManager} {defaultNetDev : String}
    (h : SameControl s t) : SameControl s (updateDefaultRoute defaultNetDev t) := by
  unfold ConnmanQt.updateDefaultRoute ensureInvalidRoute
  repeat' split
  all_goals exact h.sc_data rfl rfl rfl rfl rfl rfl rfl

theorem SameControl.sc_reuseOrCreate {s t : NetworkManager} {obj : ConnmanObject}
    (h : SameControl s t) : SameControl s (reuseOrCreate obj t) := by
  unfold ConnmanQt.reuseOrCreate
  split <;> exact h.sc_data rfl rfl rfl rfl rfl rfl rfl

theorem SameControl.sc_updateServicesEntry {s t : NetworkManager} {defaultNetDev : String}
    {order : Nat} {obj : ConnmanObject} (h : SameControl s t) :
    SameControl s (updateServicesEntry defaultNetDev order obj t) := by
  have h1 : SameControl s (ConnmanQt.reuseOrCreate obj t) := h.sc_reuseOrCreate
  unfold ConnmanQt.updateServicesEntry
  dsimp only
  repeat' split
  all_goals
    try apply SameControl.sc_emit
    try apply SameControl.sc_updateDefaultRoute
    exact h1.sc_data rfl rfl rfl rfl rfl rfl rfl

theorem SameControl.sc_removeService {s t : NetworkManager} {k : String}
    (h : SameControl s t) : SameControl s (removeService k t) := by
  unfold ConnmanQt.removeService
  repeat' split
  all_goals
    try apply SameControl.sc_emit
    exact h.sc_data rfl rfl rfl rfl rfl rfl rfl

theorem SameControl.sc_updateServices {s t : NetworkManager} {changed : List ConnmanObject}
    {removed : List String} {defaultNetDev : String} (h : SameControl s t) :
    SameControl s (updateServices changed removed defaultNetDev t) := by
  have h0 : SameControl s { t with m_servicesOrder := [] } := h.sc_data rfl rfl rfl rfl rfl rfl rfl
  have h1 := updateServicesLoop_induct (SameControl s) defaultNetDev changed
    (fun _ _ _ _ hu => hu.sc_updateServicesEntry) 0 _ [] h0
  have h2 := removeServices_induct (SameControl s) removed
    (fun _ _ _ hu => hu.sc_removeService) _ h1
  unfold ConnmanQt.updateServices
  dsimp only
  split
  · exact h2.sc_updateDefaultRoute.sc_emit.sc_emit.sc_emit
  · exact h2.sc_emit.sc_emit.sc_emit

theorem SameControl.sc_updateSavedServices {s t : NetworkManager} {changed : List ConnmanObject}
    (h : SameControl s t) : SameControl s (updateSavedServices changed t) := by
  unfold ConnmanQt.updateSavedServices
  apply SameControl.sc_emit
  refine updateSavedServicesLoop_induct (SameControl s) changed ?_ _
    (h.sc_data rfl rfl rfl rfl rfl rfl rfl)
  intro obj u _ hu
  have h1 : SameControl s (ConnmanQt.reuseOrCreate obj u) := hu.sc_reuseOrCreate
  exact h1.sc_data rfl rfl rfl rfl rfl rfl rfl

/-! ## The bulk services fetch -/

theorem servicesReplyLoop_induct (P : NetworkManager → Prop) (defaultNetDev : String)
    (lst : List ConnmanObject) (n : Nat)
    (hstep : ∀ order obj s, n ≤ order → obj ∈ lst → P s →
      P (servicesReplyEntry defaultNetDev order obj s)) :
    ∀ (order : Nat) (s : NetworkManager), n ≤ order → P s →
      P (servicesReplyLoop defaultNetDev order lst s) := by
  induction lst with
  | nil => intro order s _ h; exact h
  | cons obj rest ih =>
    intro order s hn h
    simp only [servicesReplyLoop]
    exact ih (fun o ob t ho hm ht => hstep o ob t ho (List.mem_cons_of_mem _ hm) ht) _ _
      (Nat.le_succ_of_le hn) (hstep order obj s hn (List.mem_cons_self _ _) h)

theorem savedReplyLoop_induct (P : NetworkManager → Prop) (lst : List ConnmanObject)
    (hstep : ∀ obj s, obj ∈ lst → P s → P (savedReplyEntry obj s)) :
    ∀ s : NetworkManager, P s → P (savedReplyLoop lst s) := by
  induction lst with
  | nil => intro s h; exact h
  | cons obj rest ih =>
    intro s h
    simp only [savedReplyLoop]
    exact ih (fun ob t hm ht => hstep ob t (List.mem_cons_of_mem _ hm) ht) _
      (hstep obj s (List.mem_cons_self _ _) h)

theorem WellFormed.wf_servicesReplyEntry {s : NetworkManager} (h : WellFormed s)
    (defaultNetDev : String) (order : Nat) (obj : ConnmanObject) :
    WellFormed (servicesReplyEntry defaultNetDev order obj s) := by
  unfold ConnmanQt.servicesReplyEntry
  dsimp only
  split
  · apply WellFormed.wf_updateDefaultRoute
    exact h.wf_create obj.objpath obj.properties _ rfl rfl rfl rfl
  · exact h.wf_create obj.objpath obj.properties _ rfl rfl rfl rfl

theorem WellFormed.wf_savedReplyEntry {s : NetworkManager} (h : WellFormed s)
    (obj : ConnmanObject) : WellFormed (savedReplyEntry obj s) := by
  unfold ConnmanQt.savedReplyEntry
  split
  · exact h.wf_of_eq rfl rfl rfl rfl
  · exact h.wf_create obj.objpath obj.properties _ rfl rfl rfl rfl

theorem SameControl.sc_servicesReplyEntry {s t : NetworkManager} {defaultNetDev : String}
    {order : Nat} {obj : ConnmanObject} (h : SameControl s t) :
    SameControl s (servicesReplyEntry defaultNetDev order obj t) := by
  unfold ConnmanQt.servicesReplyEntry
  dsimp only
  split
  · apply SameControl.sc_updateDefaultRoute
    exact h.sc_data rfl rfl rfl rfl rfl rfl rfl
  · exact h.sc_data rfl rfl rfl rfl rfl rfl rfl

theorem SameControl.sc_savedReplyEntry {s t : NetworkManager} {obj : ConnmanObject}
    (h : SameControl s t) : SameControl s (savedReplyEntry obj t) := by
  unfold ConnmanQt.savedReplyEntry
  split <;> exact h.sc_data rfl rfl rfl rfl rfl rfl rfl

theorem RouteStable.rs_refl (s : NetworkManager) : RouteStable s s :=
  ⟨Nat.le_refl _, fun _ _ => rfl, rfl, rfl⟩

/-- A state that agrees with `t` on heap, allocator and route members is as good as `t`. -/
theorem RouteStable.rs_data {s t u : NetworkManager} (h : RouteStable s t)
    (e1 : u.heap = t.heap) (e2 : u.next = t.next) (e3 : u.m_defaultRoute = t.m_defaultRoute)
    (e4 : u.m_invalidDefaultRoute = t.m_invalidDefaultRoute) : RouteStable s u :=
  ⟨e2 ▸ h.next, fun q hq => by rw [e1]; exact h.heap q hq, e3.trans h.defaultRoute,
   e4.trans h.invalidRoute⟩

/-- Allocation of a record keeps the older records and the route members. -/
theorem RouteStable.rs_create {s t u : NetworkManager} (h : RouteStable s t) (path : String)
    (props : QVariantMap) (e1 : u.heap = (newService path props t).heap)
    (e2 : u.next = t.next + 1) (e3 : u.m_defaultRoute = t.m_defaultRoute)
    (e4 : u.m_invalidDefaultRoute = t.m_invalidDefaultRoute) : RouteStable s u := by
  refine ⟨by have := h.next; omega, ?_, e3.trans h.defaultRoute, e4.trans h.invalidRoute⟩
  intro q hq
  have hne : q ≠ t.next := by have := h.next; omega
  rw [e1]
  simp only [newService, hne, if_false]
  exact h.heap q hq

theorem RouteStable.rs_servicesReplyEntry {s t : NetworkManager} {defaultNetDev : String}
    {order : Nat} {obj : ConnmanObject} (h : RouteStable s t) (ho : 1 ≤ order) :
    RouteStable s (servicesReplyEntry defaultNetDev order obj t) := by
  have hne : order ≠ 0 := by omega
  unfold ConnmanQt.servicesReplyEntry
  simp only [hne, if_false]
  exact h.rs_create obj.objpath obj.properties rfl rfl rfl rfl

theorem RouteStable.rs_savedReplyEntry {s t : NetworkManager} {obj : ConnmanObject}
    (h : RouteStable s t) : RouteStable s (savedReplyEntry obj t) := by
  unfold ConnmanQt.savedReplyEntry
  split
  · exact h.rs_data rfl rfl rfl rfl
  · exact h.rs_create obj.objpath obj.properties rfl rfl rfl rfl

theorem RouteStable.rs_callsFinished {s t : NetworkManager} (h : RouteStable s t) :
    RouteStable s (callsFinished t) := by
  unfold ConnmanQt.callsFinished
  repeat' split
  all_goals exact h.rs_data rfl rfl rfl rfl

theorem IsSentinelRoute.sr_stable {s t : NetworkManager} (h : IsSentinelRoute s)
    (hwf : WellFormed s) (hst : RouteStable s t) : IsSentinelRoute t := by
  obtain ⟨q, hd, hi, hr⟩ := h
  exact ⟨q, hst.defaultRoute.trans hd, hst.invalidRoute.trans hi,
    (hst.heap q (hwf.wf_lt_next hr)).trans hr⟩

theorem updateDefaultRoute_sentinel (defaultNetDev : String) (s : NetworkManager)
    (hwf : WellFormed s) (h : scanRoute s defaultNetDev (getServices "" s) = none) :
    IsSentinelRoute (updateDefaultRoute defaultNetDev s) := by
  unfold updateDefaultRoute
  rw [h]
  dsimp only
  unfold ensureInvalidRoute
  split
  · rename_i q hq
    exact ⟨q, by simp [emit, hq], by simp [emit, hq], by simpa [emit] using (hwf.sentinel q hq).1⟩
  · exact ⟨s.next, by simp [emit], by simp [emit], by simp [emit, newService]⟩

theorem updateDefaultRoute_match (defaultNetDev : String) (s : NetworkManager) (p : Nat)
    (h : scanRoute s defaultNetDev (getServices "" s) = some p) :
    (updateDefaultRoute defaultNetDev s).m_defaultRoute = some p ∧
    (updateDefaultRoute defaultNetDev s).heap = s.heap ∧
    (updateDefaultRoute defaultNetDev s).next = s.next ∧
    (updateDefaultRoute defaultNetDev s).m_invalidDefaultRoute = s.m_invalidDefaultRoute := by
  unfold updateDefaultRoute
  rw [h]
  dsimp only
  split
  · rename_i hd; exact ⟨hd, rfl, rfl, rfl⟩
  · exact ⟨rfl, rfl, rfl, rfl⟩

theorem SameControl.sc_servicesReplyLoop {s t : NetworkManager} {defaultNetDev : String}
    {lst : List ConnmanObject} {order : Nat} (h : SameControl s t) :
    SameControl s (servicesReplyLoop defaultNetDev order lst t) :=
  servicesReplyLoop_induct (SameControl s) defaultNetDev lst 0
    (fun _ _ _ _ _ hu => hu.sc_servicesReplyEntry) order t (Nat.zero_le _) h

theorem SameControl.sc_servicesReplyCurrent {s t : NetworkManager} {lst : List ConnmanObject}
    {defaultNetDev : String} (h : SameControl s t) :
    SameControl s (servicesReplyCurrent lst defaultNetDev t) := by
  have h0 : SameControl s { t with m_servicesOrder := [] } := h.sc_data rfl rfl rfl rfl rfl rfl rfl
  have h1 : SameControl s
      (ConnmanQt.servicesReplyLoop defaultNetDev 0 lst { t with m_servicesOrder := [] }) :=
    h0.sc_servicesReplyLoop
  unfold ConnmanQt.servicesReplyCurrent
  dsimp only
  split
  · exact h1.sc_updateDefaultRoute.sc_emit
  · exact h1.sc_emit

/-- The result of `servicesReply` when both replies are good and the manager
handle is set. -/
theorem servicesReply_ok (lst saved : List ConnmanObject) (defaultNetDev : String)
    (s : NetworkManager) (hm : s.m_manager = true) :
    servicesReply (some lst) (some saved) defaultNetDev s
      = Except.ok (servicesReplySaved saved
          (remoteCall RemoteCall.GetSavedServices (servicesReplyCurrent lst defaultNetDev s))) := by
  have h2 : (servicesReplyCurrent lst defaultNetDev s).m_manager = true :=
    ((SameControl.sc_refl s).sc_servicesReplyCurrent.manager).trans hm
  unfold servicesReply
  simp only [h2, if_true]

/-- After the first entry, the rest of `servicesReply` leaves the existing
records and the route members alone. -/
theorem servicesReply_tail_stable (rest saved : List ConnmanObject) (defaultNetDev : String)
    (t : NetworkManager) :
    RouteStable t (servicesReplySaved saved
      (remoteCall RemoteCall.GetSavedServices
        (emit Signal.servicesChanged (servicesReplyLoop defaultNetDev 1 rest t)))) := by
  have h1 : RouteStable t (servicesReplyLoop defaultNetDev 1 rest t) :=
    servicesReplyLoop_induct (RouteStable t) defaultNetDev rest 1
      (fun _ _ _ ho _ hu => hu.rs_servicesReplyEntry ho) 1 t (Nat.le_refl _) (RouteStable.rs_refl t)
  have h2 : RouteStable t
      { remoteCall RemoteCall.GetSavedServices
          (emit Signal.servicesChanged (servicesReplyLoop defaultNetDev 1 rest t))
        with m_savedServicesOrder := [] } := h1.rs_data rfl rfl rfl rfl
  have h3 := savedReplyLoop_induct (RouteStable t) saved
    (fun _ _ _ hu => hu.rs_savedReplyEntry) _ h2
  unfold servicesReplySaved
  apply RouteStable.rs_callsFinished
  exact h3.rs_data rfl rfl rfl rfl

theorem servicesReply_tail_order (rest saved : List ConnmanObject) (defaultNetDev : String)
    (t : NetworkManager) (a : Nat) (h : t.m_servicesOrder.head? = some a) :
    (servicesReplySaved saved
      (remoteCall RemoteCall.GetSavedServices
        (emit Signal.servicesChanged
          (servicesReplyLoop defaultNetDev 1 rest t)))).m_servicesOrder.head? = some a := by
  have h1 : (servicesReplyLoop defaultNetDev 1 rest t).m_servicesOrder.head? = some a := by
    refine servicesReplyLoop_induct (fun u => u.m_servicesOrder.head? = some a) defaultNetDev
      rest 1 ?_ 1 t (Nat.le_refl _) h
    intro order obj u ho _ hu
    have hne : order ≠ 0 := by omega
    unfold servicesReplyEntry
    simp only [hne, if_false]
    cases hl : u.m_servicesOrder with
    | nil => simp [hl] at hu
    | cons x xs => simpa [hl] using hu
  have h3 := savedReplyLoop_induct (fun u => u.m_servicesOrder.head? = some a) saved
    (fun obj u _ hu => by
      unfold savedReplyEntry
      split <;> exact hu)
    { remoteCall RemoteCall.GetSavedServices
          (emit Signal.servicesChanged (servicesReplyLoop defaultNetDev 1 rest t))
        with m_savedServicesOrder := [] } h1
  unfold servicesReplySaved callsFinished
  dsimp only
  repeat' split
  all_goals exact h3

/-- C1, as amended: after a successful bulk fetch (both replies good, manager
handle set) the default route is the record created for the first entry of the
reply when that entry is `online`/`ready` on the probed interface, and the
sentinel record with path `"/"` otherwise (also for an empty reply); later
entries of the reply are not considered. -/
theorem servicesReply_defaultRoute (s : NetworkManager) (lst saved : List ConnmanObject)
    (defaultNetDev : String) (hwf : WellFormed s) (hm : s.m_manager = true) :
    ∃ t, servicesReply (some lst) (some saved) defaultNetDev s = Except.ok t ∧
      match lst with
      | [] => IsSentinelRoute t
      | obj :: _ =>
        if recordCandidate { path := obj.objpath, props := obj.properties } defaultNetDev then
          t.m_defaultRoute = some s.next ∧
          t.heap s.next = some { path := obj.objpath, props := obj.properties } ∧
          t.m_servicesOrder.head? = some s.next
        else IsSentinelRoute t := by
  refine ⟨_, servicesReply_ok lst saved defaultNetDev s hm, ?_⟩
  have hwf0 : WellFormed { s with m_servicesOrder := [] } := hwf.wf_of_eq rfl rfl rfl rfl
  cases lst with
  | nil =>
    simp only [servicesReplyCurrent, servicesReplyLoop, if_true]
    have hsent : IsSentinelRoute
        (updateDefaultRoute defaultNetDev { s with m_servicesOrder := [] }) :=
      updateDefaultRoute_sentinel _ _ hwf0 (by simp [getServices_all, scanRoute])
    have hst := servicesReply_tail_stable [] saved defaultNetDev
      (updateDefaultRoute defaultNetDev { s with m_servicesOrder := [] })
    simp only [servicesReplyLoop] at hst
    exact hsent.sr_stable (hwf0.wf_updateDefaultRoute _) hst
  | cons obj rest =>
    have hne : (obj :: rest) ≠ [] := by simp
    simp only [servicesReplyCurrent, hne, if_false, servicesReplyLoop]
    have hst := servicesReply_tail_stable rest saved defaultNetDev
      (servicesReplyEntry defaultNetDev 0 obj { s with m_servicesOrder := [] })
    have hwfc : WellFormed
        { newService obj.objpath obj.properties { s with m_servicesOrder := [] } with
          m_servicesCache := hashInsert s.m_servicesCache obj.objpath s.next
          m_servicesOrder := [] ++ [s.next] } :=
      hwf0.wf_create obj.objpath obj.properties _ rfl rfl rfl rfl
    have hscan : scanRoute
        { newService obj.objpath obj.properties { s with m_servicesOrder := [] } with
          m_servicesCache := hashInsert s.m_servicesCache obj.objpath s.next
          m_servicesOrder := [] ++ [s.next] } defaultNetDev
        (getServices ""
          { newService obj.objpath obj.properties { s with m_servicesOrder := [] } with
            m_servicesCache := hashInsert s.m_servicesCache obj.objpath s.next
            m_servicesOrder := [] ++ [s.next] })
        = if recordCandidate { path := obj.objpath, props := obj.properties } defaultNetDev
          then some s.next else none := by
      rw [getServices_all]
      simp [scanRoute, routeCandidate, recordCandidate, stateOf, interfaceOf, newService]
    have he0 : servicesReplyEntry defaultNetDev 0 obj { s with m_servicesOrder := [] }
        = updateDefaultRoute defaultNetDev
          { newService obj.objpath obj.properties { s with m_servicesOrder := [] } with
            m_servicesCache := hashInsert s.m_servicesCache obj.objpath s.next
            m_servicesOrder := [] ++ [s.next] } := by
      simp [servicesReplyEntry]
    by_cases hcand :
        recordCandidate { path := obj.objpath, props := obj.properties } defaultNetDev = true
    · simp only [hcand, if_true] at hscan ⊢
      obtain ⟨hd, hh, hn, -⟩ := updateDefaultRoute_match _ _ _ hscan
      rw [← he0] at hd hh hn
      refine ⟨hst.defaultRoute.trans hd, ?_, ?_⟩
      · rw [hst.heap s.next (by rw [hn]; simp [newService]), hh]
        simp [newService]
      · apply servicesReply_tail_order
        rw [he0, (updateDefaultRoute_lists _ _).2.1]
        simp
    · simp only [hcand] at hscan ⊢
      have hsent := updateDefaultRoute_sentinel _ _ hwfc hscan
      rw [← he0] at hsent
      exact hsent.sr_stable (he0 ▸ hwfc.wf_updateDefaultRoute _) hst

/-! ## Teardown -/

theorem deleteAll_eq (l : List (String × Nat)) :
    ∀ s : NetworkManager, deleteAll l s = { s with heap := (deleteAll l s).heap } := by
  induction l with
  | nil => intro s; rfl
  | cons kv rest ih =>
    intro s
    obtain ⟨k, p⟩ := kv
    simp only [deleteAll]
    rw [ih]
    rfl

theorem deleteAll_heap_none (l : List (String × Nat)) (q : Nat) :
    ∀ s : NetworkManager, s.heap q = none → (deleteAll l s).heap q = none := by
  induction l with
  | nil => intro s h; exact h
  | cons kv rest ih =>
    intro s h
    obtain ⟨k, p⟩ := kv
    simp only [deleteAll]
    apply ih
    by_cases hq : q = p
    · simp [deleteLater, hq]
    · simp [deleteLater, hq, h]

theorem deleteAll_heap_keep (l : List (String × Nat)) (q : Nat) (hq : ∀ k, (k, q) ∉ l) :
    ∀ s : NetworkManager, (deleteAll l s).heap q = s.heap q := by
  induction l with
  | nil => intro s; rfl
  | cons kv rest ih =>
    intro s
    obtain ⟨k, p⟩ := kv
    simp only [deleteAll]
    rw [ih (fun k1 hk1 => hq k1 (List.mem_cons_of_mem _ hk1))]
    have hne : q ≠ p := fun e => hq k (by simp [e])
    simp [deleteLater, hne]

theorem WellFormed.wf_disconnectServices {s : NetworkManager} (h : WellFormed s) :
    WellFormed (disconnectServices s) := by
  have h1 : WellFormed { deleteAll s.m_servicesCache s with m_servicesCache := [] } := by
    rw [deleteAll_eq]
    refine ⟨?_, ?_, ?_⟩
    · intro q hq
      exact deleteAll_heap_none _ q s (h.fresh q hq)
    · intro k p hkp
      simp at hkp
    · intro q hq
      obtain ⟨hr, hnc⟩ := h.sentinel q hq
      refine ⟨?_, by simp⟩
      show (deleteAll s.m_servicesCache s).heap q = _
      rw [deleteAll_heap_keep _ q hnc]
      exact hr
  unfold ConnmanQt.disconnectServices
  dsimp only
  repeat' split
  all_goals
    try apply WellFormed.wf_emit
    first
    | exact h1
    | exact h1.wf_of_eq rfl rfl rfl rfl

theorem WellFormed.wf_disconnectFromConnman {s : NetworkManager} (h : WellFormed s) :
    WellFormed (disconnectFromConnman s) := by
  unfold ConnmanQt.disconnectFromConnman
  apply WellFormed.wf_disconnectServices
  unfold disconnectTechnologies
  split
  · exact h.wf_of_eq rfl rfl rfl rfl
  · exact h.wf_of_eq rfl rfl rfl rfl

theorem WellFormed.wf_connectToConnman {s : NetworkManager} (h : WellFormed s) (valid : Bool)
    (defaultNetDev : String) : WellFormed (connectToConnman valid defaultNetDev s) := by
  have h1 := h.wf_disconnectFromConnman
  unfold ConnmanQt.connectToConnman
  dsimp only
  repeat' split
  all_goals
    try apply WellFormed.wf_updateDefaultRoute
    exact h1.wf_of_eq rfl rfl rfl rfl

theorem sampleConnected_wellFormed : WellFormed sampleConnected :=
  (WellFormed.wf_initial.wf_of_eq rfl rfl rfl rfl).wf_connectToConnman true "eth0"

theorem servicesReply_defaultRoute_witness :
    WellFormed sampleConnected ∧ sampleConnected.m_manager = true ∧
    ∃ t, servicesReply (some [sampleOnline, sampleIdle]) (some []) "eth0" sampleConnected
        = Except.ok t ∧
      match [sampleOnline, sampleIdle] with
      | [] => IsSentinelRoute t
      | obj :: _ =>
        if recordCandidate { path := obj.objpath, props := obj.properties } "eth0" then
          t.m_defaultRoute = some sampleConnected.next ∧
          t.heap sampleConnected.next = some { path := obj.objpath, props := obj.properties } ∧
          t.m_servicesOrder.head? = some sampleConnected.next
        else IsSentinelRoute t :=
  ⟨sampleConnected_wellFormed, rfl,
    servicesReply_defaultRoute sampleConnected [sampleOnline, sampleIdle] [] "eth0"
      sampleConnected_wellFormed rfl⟩

/-- C1 as stated fails when the first entry does not qualify and a later one
does: the reply lists an idle service, then a service online on the probed
interface; the online service is the first qualifying record of
`m_servicesOrder`, yet the default route is the sentinel. -/
theorem servicesReply_later_entry_not_selected :
    ∃ t, servicesReply (some [sampleIdle, sampleOnline]) (some []) "eth0" sampleConnected
        = Except.ok t ∧
      t.m_servicesOrder = [1, 2] ∧
      t.heap 2 = some { path := sampleOnline.objpath, props := sampleOnline.properties } ∧
      scanRoute t "eth0" t.m_servicesOrder = some 2 ∧
      t.m_defaultRoute = some 0 ∧ t.m_invalidDefaultRoute = some 0 ∧
      t.heap 0 = some { path := "/", props := [] } :=
  ⟨_, rfl, by decide⟩

/-! ## The default-route invariant -/

theorem scanRoute_some (s : NetworkManager) (defaultNetDev : String) (l : List Nat) (p : Nat)
    (h : scanRoute s defaultNetDev l = some p) :
    p ∈ l ∧ routeCandidate s defaultNetDev p = true := by
  induction l with
  | nil => simp [scanRoute] at h
  | cons q rest ih =>
    by_cases hq : routeCandidate s defaultNetDev q = true
    · simp [scanRoute, hq] at h
      subst h
      exact ⟨List.mem_cons_self _ _, hq⟩
    · simp [scanRoute, hq] at h
      exact ⟨List.mem_cons_of_mem _ (ih h).1, (ih h).2⟩

theorem routeSelected_updateDefaultRoute (defaultNetDev : String) (s : NetworkManager) :
    RouteSelected defaultNetDev (updateDefaultRoute defaultNetDev s) := by
  cases hscan : scanRoute s defaultNetDev (getServices "" s) with
  | none =>
    unfold updateDefaultRoute
    rw [hscan]
    dsimp only
    unfold ensureInvalidRoute
    split
    · rename_i q hq
      exact ⟨q, by simp [emit, hq], Or.inl (by simp [emit, hq])⟩
    · exact ⟨s.next, by simp [emit], Or.inl (by simp [emit])⟩
  | some p =>
    obtain ⟨hd, hh, -, -⟩ := updateDefaultRoute_match defaultNetDev s p hscan
    obtain ⟨hmem, hcand⟩ := scanRoute_some _ _ _ _ hscan
    rw [getServices_all] at hmem
    refine ⟨p, hd, Or.inr ⟨by rw [(updateDefaultRoute_lists _ _).2.1]; exact hmem, ?_⟩⟩
    simpa [routeCandidate, stateOf, interfaceOf, hh] using hcand

theorem DefaultRouteInv.dr_updateDefaultRoute (defaultNetDev : String) (s : NetworkManager) :
    DefaultRouteInv (updateDefaultRoute defaultNetDev s) := by
  obtain ⟨p, hd, hor⟩ := routeSelected_updateDefaultRoute defaultNetDev s
  refine ⟨?_, fun h => by rw [hd] at h; cases h⟩
  rcases hor with h | ⟨h, -⟩
  · exact Or.inl (hd.trans h.symm)
  · exact Or.inr ⟨p, h, hd⟩

/-- The invariant survives a step that keeps the route members and only adds
to `m_servicesOrder`. -/
theorem DefaultRouteInv.dr_grow {s t : NetworkManager} (h : DefaultRouteInv s)
    (e1 : t.m_defaultRoute = s.m_defaultRoute)
    (e2 : t.m_invalidDefaultRoute = s.m_invalidDefaultRoute)
    (e3 : ∀ p, p ∈ s.m_servicesOrder → p ∈ t.m_servicesOrder) : DefaultRouteInv t := by
  obtain ⟨h1, h2⟩ := h
  refine ⟨?_, fun hn => by rw [e2]; exact h2 (e1 ▸ hn)⟩
  rcases h1 with h1 | ⟨p, hp, hd⟩
  · exact Or.inl (by rw [e1, e2]; exact h1)
  · exact Or.inr ⟨p, e3 p hp, e1.trans hd⟩

theorem DefaultRouteInv.dr_data {s t : NetworkManager} (h : DefaultRouteInv s)
    (e1 : t.m_defaultRoute = s.m_defaultRoute)
    (e2 : t.m_invalidDefaultRoute = s.m_invalidDefaultRoute)
    (e3 : t.m_servicesOrder = s.m_servicesOrder) : DefaultRouteInv t :=
  h.dr_grow e1 e2 (fun _ hp => e3 ▸ hp)

theorem DefaultRouteInv.dr_emit {s : NetworkManager} {sig : Signal} (h : DefaultRouteInv s) :
    DefaultRouteInv (emit sig s) := h.dr_data rfl rfl rfl

theorem updateServicesLoop_induct_from (P : NetworkManager → Prop) (defaultNetDev : String)
    (changed : List ConnmanObject) (n : Nat)
    (hstep : ∀ order obj s, n ≤ order → obj ∈ changed → P s →
      P (updateServicesEntry defaultNetDev order obj s)) :
    ∀ (order : Nat) (s : NetworkManager) (l : List String), n ≤ order → P s →
      P (updateServicesLoop defaultNetDev order changed s l).1 := by
  induction changed with
  | nil => intro order s l _ h; exact h
  | cons obj rest ih =>
    intro order s l hn h
    simp only [updateServicesLoop]
    exact ih (fun o ob t ho hm ht => hstep o ob t ho (List.mem_cons_of_mem _ hm) ht) _ _ _
      (Nat.le_succ_of_le hn) (hstep order obj s hn (List.mem_cons_self _ _) h)

theorem updateServicesEntry_route (defaultNetDev : String) (order : Nat) (obj : ConnmanObject)
    (s : NetworkManager) (ho : order ≠ 0) :
    (updateServicesEntry defaultNetDev order obj s).m_defaultRoute = s.m_defaultRoute ∧
    (updateServicesEntry defaultNetDev order obj s).m_invalidDefaultRoute
      = s.m_invalidDefaultRoute := by
  obtain ⟨-, -, h3, h4, -⟩ := reuseOrCreate_fields obj s
  unfold updateServicesEntry
  simp only [ho, if_false]
  repeat' split
  all_goals exact ⟨h3, h4⟩

theorem DefaultRouteInv.dr_updateServicesEntry_first (defaultNetDev : String) (obj : ConnmanObject)
    (s : NetworkManager) : DefaultRouteInv (updateServicesEntry defaultNetDev 0 obj s) := by
  unfold ConnmanQt.updateServicesEntry
  simp only [if_true]
  repeat' split
  all_goals exact DefaultRouteInv.dr_updateDefaultRoute _ _

theorem DefaultRouteInv.dr_updateServicesEntry_later {s : NetworkManager} (h : DefaultRouteInv s)
    (defaultNetDev : String) (order : Nat) (obj : ConnmanObject) (ho : 1 ≤ order) :
    DefaultRouteInv (updateServicesEntry defaultNetDev order obj s) := by
  obtain ⟨h1, h2⟩ := updateServicesEntry_route defaultNetDev order obj s (by omega)
  refine h.dr_grow h1 h2 ?_
  intro p hp
  rw [updateServicesEntry_order]
  exact List.mem_append_left _ hp

theorem removeServices_route (removed : List String) (s : NetworkManager) :
    (removeServices removed s).m_defaultRoute = s.m_defaultRoute ∧
    (removeServices removed s).m_invalidDefaultRoute = s.m_invalidDefaultRoute :=
  removeServices_induct
    (fun t => t.m_defaultRoute = s.m_defaultRoute ∧
      t.m_invalidDefaultRoute = s.m_invalidDefaultRoute) removed
    (fun k t _ ht => ⟨(removeService_fields k t).2.2.2.1.trans ht.1,
      (removeService_fields k t).2.2.2.2.trans ht.2⟩) s ⟨rfl, rfl⟩

theorem DefaultRouteInv.dr_updateServices (changed : List ConnmanObject) (removed : List String)
    (defaultNetDev : String) (s : NetworkManager) :
    DefaultRouteInv (updateServices changed removed defaultNetDev s) := by
  unfold ConnmanQt.updateServices
  dsimp only
  cases changed with
  | nil =>
    simp only [if_true]
    exact (DefaultRouteInv.dr_updateDefaultRoute _ _).dr_emit.dr_emit.dr_emit
  | cons obj rest =>
    have hne : (obj :: rest) ≠ [] := by simp
    simp only [hne, if_false, updateServicesLoop]
    have h1 := updateServicesLoop_induct_from DefaultRouteInv defaultNetDev rest 1
      (fun order ob t ho _ ht => ht.dr_updateServicesEntry_later defaultNetDev order ob ho)
      1 _ ([] ++ [pathOf (updateServicesEntry defaultNetDev 0 obj { s with m_servicesOrder := [] })
        (servicePtr { s with m_servicesOrder := [] } obj.objpath)]) (Nat.le_refl _)
      (DefaultRouteInv.dr_updateServicesEntry_first defaultNetDev obj { s with m_servicesOrder := [] })
    have h2 : DefaultRouteInv (removeServices removed
        (updateServicesLoop defaultNetDev (0 + 1) rest
          (updateServicesEntry defaultNetDev 0 obj { s with m_servicesOrder := [] })
          ([] ++ [pathOf (updateServicesEntry defaultNetDev 0 obj { s with m_servicesOrder := [] })
            (servicePtr { s with m_servicesOrder := [] } obj.objpath)])).1) :=
      h1.dr_data (removeServices_route _ _).1 (removeServices_route _ _).2
        (removeServices_order _ _).1
    exact h2.dr_emit.dr_emit.dr_emit

theorem DefaultRouteInv.dr_updateSavedServices {s : NetworkManager} (h : DefaultRouteInv s)
    (changed : List ConnmanObject) : DefaultRouteInv (updateSavedServices changed s) := by
  unfold ConnmanQt.updateSavedServices
  apply DefaultRouteInv.dr_emit
  refine updateSavedServicesLoop_induct DefaultRouteInv changed ?_ _ (h.dr_data rfl rfl rfl)
  intro obj t _ ht
  obtain ⟨h1, -, h3, h4, -⟩ := reuseOrCreate_fields obj t
  exact ht.dr_data h3 h4 h1

theorem DefaultRouteInv.dr_callsFinished {s : NetworkManager} (h : DefaultRouteInv s) :
    DefaultRouteInv (callsFinished s) := by
  unfold ConnmanQt.callsFinished
  repeat' split
  all_goals exact h.dr_data rfl rfl rfl

theorem DefaultRouteInv.dr_servicesReplyEntry_later {s : NetworkManager} (h : DefaultRouteInv s)
    (defaultNetDev : String) (order : Nat) (obj : ConnmanObject) (ho : 1 ≤ order) :
    DefaultRouteInv (servicesReplyEntry defaultNetDev order obj s) := by
  have hne : order ≠ 0 := by omega
  unfold ConnmanQt.servicesReplyEntry
  simp only [hne, if_false]
  exact h.dr_grow rfl rfl (fun p hp => List.mem_append_left _ hp)

theorem DefaultRouteInv.dr_servicesReplyCurrent (lst : List ConnmanObject)
    (defaultNetDev : String) (s : NetworkManager) :
    DefaultRouteInv (servicesReplyCurrent lst defaultNetDev s) := by
  unfold ConnmanQt.servicesReplyCurrent
  dsimp only
  apply DefaultRouteInv.dr_emit
  cases lst with
  | nil =>
    rw [if_pos rfl]
    exact DefaultRouteInv.dr_updateDefaultRoute _ _
  | cons obj rest =>
    have hne : (obj :: rest) ≠ [] := by simp
    simp only [hne, if_false, servicesReplyLoop]
    refine servicesReplyLoop_induct DefaultRouteInv defaultNetDev rest 1
      (fun order ob t ho _ ht => ht.dr_servicesReplyEntry_later defaultNetDev order ob ho)
      1 _ (Nat.le_refl _) ?_
    unfold servicesReplyEntry
    simp only [if_true]
    exact DefaultRouteInv.dr_updateDefaultRoute _ _

theorem DefaultRouteInv.dr_servicesReplySaved {s : NetworkManager} (h : DefaultRouteInv s)
    (lst : List ConnmanObject) : DefaultRouteInv (servicesReplySaved lst s) := by
  unfold ConnmanQt.servicesReplySaved
  dsimp only
  apply DefaultRouteInv.dr_callsFinished
  have h1 : DefaultRouteInv (savedReplyLoop lst { s with m_savedServicesOrder := [] }) := by
    refine savedReplyLoop_induct DefaultRouteInv lst ?_ _ (h.dr_data rfl rfl rfl)
    intro obj t _ ht
    unfold savedReplyEntry
    split <;> exact ht.dr_data rfl rfl rfl
  exact h1.dr_data rfl rfl rfl

theorem DefaultRouteInv.dr_servicesReply {s t : NetworkManager} (h : DefaultRouteInv s)
    (reply saved : Option (List ConnmanObject)) (defaultNetDev : String)
    (hok : servicesReply reply saved defaultNetDev s = Except.ok t) : DefaultRouteInv t := by
  cases reply with
  | none =>
    simp only [ConnmanQt.servicesReply, Except.ok.injEq] at hok
    exact hok ▸ h
  | some lst =>
    have h2 := DefaultRouteInv.dr_servicesReplyCurrent lst defaultNetDev s
    unfold ConnmanQt.servicesReply at hok
    dsimp only at hok
    split at hok
    · cases saved with
      | none =>
        simp only [Except.ok.injEq] at hok
        subst hok
        exact h2.dr_data rfl rfl rfl
      | some savedLst =>
        simp only [Except.ok.injEq] at hok
        subst hok
        have h3 : DefaultRouteInv (remoteCall RemoteCall.GetSavedServices
            (ConnmanQt.servicesReplyCurrent lst defaultNetDev s)) := h2.dr_data rfl rfl rfl
        exact DefaultRouteInv.dr_servicesReplySaved h3 savedLst
    · cases hok

theorem deleteAll_route (l : List (String × Nat)) (s : NetworkManager) :
    (deleteAll l s).m_defaultRoute = s.m_defaultRoute ∧
    (deleteAll l s).m_invalidDefaultRoute = s.m_invalidDefaultRoute := by
  rw [deleteAll_eq]
  exact ⟨rfl, rfl⟩

theorem DefaultRouteInv.dr_disconnectServices (s : NetworkManager)
    (h : s.m_defaultRoute = none → s.m_invalidDefaultRoute = none) :
    DefaultRouteInv (disconnectServices s) := by
  obtain ⟨h1, h2⟩ := deleteAll_route s.m_servicesCache s
  unfold ConnmanQt.disconnectServices
  dsimp only
  by_cases hd : s.m_defaultRoute = s.m_invalidDefaultRoute
  · have hd2 : (deleteAll s.m_servicesCache s).m_defaultRoute
        = (deleteAll s.m_servicesCache s).m_invalidDefaultRoute := by rw [h1, h2]; exact hd
    rw [if_pos hd2]
    repeat' split
    all_goals
      refine ⟨Or.inl ?_, ?_⟩
      · simpa [emit] using hd2
      · simpa [emit, h1, h2] using h
  · have hd2 : ¬ (deleteAll s.m_servicesCache s).m_defaultRoute
        = (deleteAll s.m_servicesCache s).m_invalidDefaultRoute := by rw [h1, h2]; exact hd
    rw [if_neg hd2]
    repeat' split
    all_goals
      exact ⟨Or.inl rfl, id⟩

theorem DefaultRouteInv.dr_disconnectFromConnman {s : NetworkManager} (h : DefaultRouteInv s) :
    DefaultRouteInv (disconnectFromConnman s) := by
  unfold ConnmanQt.disconnectFromConnman
  apply DefaultRouteInv.dr_disconnectServices
  unfold disconnectTechnologies
  split <;> exact h.2

theorem DefaultRouteInv.dr_connectToConnman {s : NetworkManager} (h : DefaultRouteInv s)
    (valid : Bool) (defaultNetDev : String) :
    DefaultRouteInv (connectToConnman valid defaultNetDev s) := by
  have h1 := h.dr_disconnectFromConnman
  unfold ConnmanQt.connectToConnman
  dsimp only
  split
  · exact DefaultRouteInv.dr_updateDefaultRoute _ _
  · split
    · exact h1.dr_data rfl rfl rfl
    · exact h1.dr_data rfl rfl rfl

theorem DefaultRouteInv.dr_connmanUnregistered {s : NetworkManager} (h : DefaultRouteInv s) :
    DefaultRouteInv (connmanUnregistered s) := by
  have h1 := h.dr_disconnectFromConnman
  unfold ConnmanQt.connmanUnregistered
  dsimp only
  split
  · exact h1.dr_data rfl rfl rfl
  · exact h1

theorem DefaultRouteInv.dr_construct (registered valid : Bool) (defaultNetDev : String) :
    DefaultRouteInv (NetworkManager.construct registered valid defaultNetDev) := by
  have h0 : DefaultRouteInv { NetworkManager.initial with m_available := registered } :=
    ⟨Or.inl rfl, fun _ => rfl⟩
  unfold NetworkManager.construct
  dsimp only
  split
  · exact h0.dr_connectToConnman valid defaultNetDev
  · exact h0

/-! ## Handlers that leave the service data alone -/

theorem SameData.sd_refl (s : NetworkManager) : SameData s s :=
  ⟨rfl, rfl, rfl, rfl, rfl, rfl, rfl⟩

theorem SameData.sd_data {s t u : NetworkManager} (h : SameData s t) (e1 : u.heap = t.heap)
    (e2 : u.next = t.next) (e3 : u.m_defaultRoute = t.m_defaultRoute)
    (e4 : u.m_invalidDefaultRoute = t.m_invalidDefaultRoute)
    (e5 : u.m_servicesCache = t.m_servicesCache) (e6 : u.m_servicesOrder = t.m_servicesOrder)
    (e7 : u.m_savedServicesOrder = t.m_savedServicesOrder) : SameData s u :=
  ⟨e1.trans h.heap, e2.trans h.next, e3.trans h.defaultRoute, e4.trans h.invalidRoute,
   e5.trans h.cache, e6.trans h.order, e7.trans h.saved⟩

theorem SameData.sd_callsFinished {s t : NetworkManager} (h : SameData s t) :
    SameData s (callsFinished t) := by
  unfold ConnmanQt.callsFinished
  repeat' split
  all_goals exact h.sd_data rfl rfl rfl rfl rfl rfl rfl

theorem SameData.sd_disconnectTechnologies {s t : NetworkManager} (h : SameData s t) :
    SameData s (disconnectTechnologies t) := by
  unfold ConnmanQt.disconnectTechnologies
  split <;> exact h.sd_data rfl rfl rfl rfl rfl rfl rfl

theorem propertiesReply_some (props : QVariantMap) (s : NetworkManager) :
    propertiesReply (some props) s
      = if s.m_technologiesEnabled then
          (if s.m_manager then
            Except.ok (callsFinished (remoteCall RemoteCall.GetTechnologies
              (emit (Signal.stateChanged (propertyString props "State"))
                { s with m_propertiesCache := props })))
          else Except.error Fault.nullManager)
        else Except.ok (callsFinished
          (emit (Signal.stateChanged (propertyString props "State"))
            { s with m_propertiesCache := props })) := by
  unfold propertiesReply setupTechnologies
  by_cases h1 : s.m_technologiesEnabled = true <;> by_cases h2 : s.m_manager = true <;>
    simp [h1, h2, emit]

theorem technologiesReply_some (lst : List ConnmanObject) (s : NetworkManager) :
    technologiesReply (some lst) s
      = if s.m_servicesEnabled then
          (if s.m_manager then
            Except.ok (callsFinished (remoteCall RemoteCall.GetServices
              { emit Signal.technologiesChanged
                  { s with m_technologiesCache := technologiesReplyLoop lst s.m_technologiesCache }
                with technologiesReady := true }))
          else Except.error Fault.nullManager)
        else Except.ok (callsFinished
          { emit Signal.technologiesChanged
              { s with m_technologiesCache := technologiesReplyLoop lst s.m_technologiesCache }
            with technologiesReady := true }) := by
  unfold technologiesReply setupServices
  by_cases h1 : s.m_servicesEnabled = true <;> by_cases h2 : s.m_manager = true <;>
    simp [h1, h2, emit]

theorem setTechnologiesEnabled_eq (enabled : Bool) (s : NetworkManager) :
    setTechnologiesEnabled enabled s
      = if s.m_technologiesEnabled = enabled then Except.ok s
        else if enabled then
          (if s.m_manager then
            Except.ok (emit Signal.technologiesEnabledChanged
              (remoteCall RemoteCall.GetTechnologies { s with m_technologiesEnabled := enabled }))
          else Except.error Fault.nullManager)
        else Except.ok (emit Signal.technologiesEnabledChanged
          (disconnectTechnologies { s with m_technologiesEnabled := enabled })) := by
  unfold setTechnologiesEnabled setupTechnologies
  by_cases h0 : s.m_technologiesEnabled = enabled <;> by_cases h1 : enabled = true <;>
    by_cases h2 : s.m_manager = true <;> simp [h0, h1, h2]

theorem setServicesEnabled_eq (enabled : Bool) (s : NetworkManager) :
    setServicesEnabled enabled s
      = if s.m_servicesEnabled = enabled then Except.ok s
        else if enabled then
          (if s.m_manager then
            Except.ok (emit Signal.servicesEnabledChanged
              (remoteCall RemoteCall.GetServices { s with m_servicesEnabled := enabled }))
          else Except.error Fault.nullManager)
        else Except.ok (emit Signal.servicesEnabledChanged
          (disconnectServices { s with m_servicesEnabled := enabled })) := by
  unfold setServicesEnabled setupServices
  by_cases h0 : s.m_servicesEnabled = enabled <;> by_cases h1 : enabled = true <;>
    by_cases h2 : s.m_manager = true <;> simp [h0, h1, h2]

theorem SameData.sd_propertiesReply {s t : NetworkManager} (reply : Option QVariantMap)
    (hok : propertiesReply reply s = Except.ok t) : SameData s t := by
  cases reply with
  | none =>
    simp only [ConnmanQt.propertiesReply, Except.ok.injEq] at hok
    subst hok
    exact SameData.sd_refl _
  | some props =>
    rw [propertiesReply_some] at hok
    repeat' split at hok
    all_goals
      first
      | (simp only [Except.ok.injEq] at hok
         subst hok
         apply SameData.sd_callsFinished
         exact (SameData.sd_refl s).sd_data rfl rfl rfl rfl rfl rfl rfl)
      | cases hok

theorem SameData.sd_technologiesReply {s t : NetworkManager} (reply : Option (List ConnmanObject))
    (hok : technologiesReply reply s = Except.ok t) : SameData s t := by
  cases reply with
  | none =>
    simp only [ConnmanQt.technologiesReply, Except.ok.injEq] at hok
    subst hok
    exact SameData.sd_refl _
  | some lst =>
    rw [technologiesReply_some] at hok
    repeat' split at hok
    all_goals
      first
      | (simp only [Except.ok.injEq] at hok
         subst hok
         apply SameData.sd_callsFinished
         exact (SameData.sd_refl s).sd_data rfl rfl rfl rfl rfl rfl rfl)
      | cases hok

theorem SameData.sd_setTechnologiesEnabled {s t : NetworkManager} (enabled : Bool)
    (hok : setTechnologiesEnabled enabled s = Except.ok t) : SameData s t := by
  rw [setTechnologiesEnabled_eq] at hok
  have hdis : SameData s
      (ConnmanQt.disconnectTechnologies { s with m_technologiesEnabled := enabled }) :=
    SameData.sd_disconnectTechnologies ((SameData.sd_refl s).sd_data rfl rfl rfl rfl rfl rfl rfl)
  repeat' split at hok
  all_goals
    first
    | (simp only [Except.ok.injEq] at hok
       subst hok
       first
       | exact SameData.sd_refl _
       | exact (SameData.sd_refl s).sd_data rfl rfl rfl rfl rfl rfl rfl
       | exact hdis.sd_data rfl rfl rfl rfl rfl rfl rfl)
    | cases hok

theorem SameData.sd_command {s t : NetworkManager} (c : Command)
    (hok : c.run s = Except.ok t) : SameData s t := by
  cases c <;>
    simp only [Command.run, ConnmanQt.setOfflineMode, ConnmanQt.setSessionMode,
      ConnmanQt.registerAgent, ConnmanQt.unregisterAgent, ConnmanQt.registerCounter,
      ConnmanQt.unregisterCounter, ConnmanQt.createSession, ConnmanQt.destroySession,
      ConnmanQt.resetCountersForType] at hok <;>
    (repeat' split at hok) <;>
    first
    | (simp only [Except.ok.injEq] at hok
       subst hok
       first
       | exact SameData.sd_refl _
       | exact (SameData.sd_refl s).sd_data rfl rfl rfl rfl rfl rfl rfl)
    | cases hok

theorem SameData.sd_technologyAdded (technology : String) (properties : QVariantMap)
    (s : NetworkManager) : SameData s (technologyAdded technology properties s) :=
  ⟨rfl, rfl, rfl, rfl, rfl, rfl, rfl⟩

theorem SameData.sd_technologyRemoved (technology : String) (s : NetworkManager) :
    SameData s (technologyRemoved technology s) := by
  unfold ConnmanQt.technologyRemoved
  dsimp only
  split <;> exact ⟨rfl, rfl, rfl, rfl, rfl, rfl, rfl⟩

theorem DefaultRouteInv.dr_sameData {s t : NetworkManager} (h : DefaultRouteInv s)
    (hd : SameData s t) : DefaultRouteInv t :=
  h.dr_data hd.defaultRoute hd.invalidRoute hd.order

theorem DefaultRouteInv.dr_propertyChanged {s : NetworkManager} (h : DefaultRouteInv s)
    (name : String) (value : QVariant) (defaultNetDev : String) :
    DefaultRouteInv (propertyChanged name value defaultNetDev s) := by
  unfold ConnmanQt.propertyChanged
  dsimp only
  repeat' split
  all_goals
    first
    | exact DefaultRouteInv.dr_updateDefaultRoute _ _
    | exact h.dr_data rfl rfl rfl

theorem DefaultRouteInv.dr_setServicesEnabled {s t : NetworkManager} (h : DefaultRouteInv s)
    (enabled : Bool) (hok : setServicesEnabled enabled s = Except.ok t) :
    DefaultRouteInv t := by
  rw [setServicesEnabled_eq] at hok
  have hdis : DefaultRouteInv
      (ConnmanQt.disconnectServices { s with m_servicesEnabled := enabled }) :=
    DefaultRouteInv.dr_disconnectServices _ h.2
  repeat' split at hok
  all_goals
    first
    | (simp only [Except.ok.injEq] at hok
       subst hok
       first
       | exact h
       | exact h.dr_data rfl rfl rfl
       | exact hdis.dr_data rfl rfl rfl)
    | cases hok

/-- Every event keeps the default-route invariant. -/
theorem DefaultRouteInv.dr_step {s t : NetworkManager} (h : DefaultRouteInv s) (e : Event)
    (hok : e.step s = Except.ok t) : DefaultRouteInv t := by
  cases e with
  | connectToConnman valid dev =>
    simp only [Event.step, Except.ok.injEq] at hok
    exact hok ▸ h.dr_connectToConnman valid dev
  | connmanUnregistered =>
    simp only [Event.step, Except.ok.injEq] at hok
    exact hok ▸ h.dr_connmanUnregistered
  | disconnectFromConnman =>
    simp only [Event.step, Except.ok.injEq] at hok
    exact hok ▸ h.dr_disconnectFromConnman
  | propertiesReply reply => exact h.dr_sameData (SameData.sd_propertiesReply reply hok)
  | technologiesReply reply => exact h.dr_sameData (SameData.sd_technologiesReply reply hok)
  | servicesReply reply saved dev => exact h.dr_servicesReply reply saved dev hok
  | updateServices changed removed dev =>
    simp only [Event.step, Except.ok.injEq] at hok
    exact hok ▸ DefaultRouteInv.dr_updateServices changed removed dev s
  | updateSavedServices changed =>
    simp only [Event.step, Except.ok.injEq] at hok
    exact hok ▸ h.dr_updateSavedServices changed
  | propertyChanged name value dev =>
    simp only [Event.step, Except.ok.injEq] at hok
    exact hok ▸ h.dr_propertyChanged name value dev
  | technologyAdded technology properties =>
    simp only [Event.step, Except.ok.injEq] at hok
    exact hok ▸ h.dr_sameData (SameData.sd_technologyAdded technology properties s)
  | technologyRemoved technology =>
    simp only [Event.step, Except.ok.injEq] at hok
    exact hok ▸ h.dr_sameData (SameData.sd_technologyRemoved technology s)
  | setServicesEnabled enabled => exact h.dr_setServicesEnabled enabled hok
  | setTechnologiesEnabled enabled =>
    exact h.dr_sameData (SameData.sd_setTechnologiesEnabled enabled hok)
  | command c => exact h.dr_sameData (SameData.sd_command c hok)

theorem DefaultRouteInv.dr_run (evs : List Event) :
    ∀ {s t : NetworkManager}, DefaultRouteInv s → run evs s = Except.ok t →
      DefaultRouteInv t := by
  induction evs with
  | nil =>
    intro s t h hok
    simp only [ConnmanQt.run, Except.ok.injEq] at hok
    exact hok ▸ h
  | cons e rest ih =>
    intro s t h hok
    simp only [ConnmanQt.run] at hok
    cases hstep : e.step s with
    | error f => rw [hstep] at hok; cases hok
    | ok s1 =>
      rw [hstep] at hok
      exact ih (h.dr_step e hstep) hok

/-- C10, as amended: in every state reached from construction the default
route equals the sentinel reference or is a record of `m_servicesOrder`, and it
is null only while the sentinel has not been created; every recomputation
leaves it non-null, and a service it selects is `online` or `ready` on the
probed interface at that moment. -/
theorem defaultRoute_invariant (registered valid : Bool) (defaultNetDev : String)
    (evs : List Event) (s : NetworkManager)
    (hrun : run evs (NetworkManager.construct registered valid defaultNetDev) = Except.ok s) :
    DefaultRouteInv s ∧ ∀ dev, RouteSelected dev (updateDefaultRoute dev s) :=
  ⟨DefaultRouteInv.dr_run evs (DefaultRouteInv.dr_construct registered valid defaultNetDev) hrun,
   fun dev => routeSelected_updateDefaultRoute dev s⟩

theorem defaultRoute_invariant_witness :
    run [Event.connectToConnman true "eth0"] (NetworkManager.construct false true "")
      = Except.ok sampleConnected ∧
    DefaultRouteInv sampleConnected ∧
    ∀ dev, RouteSelected dev (updateDefaultRoute dev sampleConnected) :=
  ⟨rfl, defaultRoute_invariant false true "" [Event.connectToConnman true "eth0"]
    sampleConnected rfl⟩

/-- C10 as stated fails: the engine is constructed with a null default route,
and after a bootstrap that selected an online service a saved-services
notification merges `State = idle` into that record without a recomputation. -/
theorem defaultRoute_null_or_stale :
    (NetworkManager.construct false true "").m_defaultRoute = none ∧
    defaultRouteOk (NetworkManager.construct false true "") = false ∧
    ∃ s, run sampleStaleRouteTrace (NetworkManager.construct false true "") = Except.ok s ∧
      s.m_defaultRoute = some 1 ∧ s.m_invalidDefaultRoute = some 0 ∧
      1 ∈ s.m_servicesOrder ∧ stateOf s 1 = "idle" ∧ defaultRouteOk s = false :=
  ⟨rfl, rfl, _, rfl, by decide⟩

/-! ## The cache invariant -/

theorem cacheOwns_iff (s : NetworkManager) (p : Nat) :
    cacheOwns s p = true ↔
      ∃ r, s.heap p = some r ∧ hashValue s.m_servicesCache r.path = some p := by
  unfold cacheOwns
  cases h : s.heap p with
  | none => simp
  | some r => simp

theorem cacheOwns_congr (s t : NetworkManager) (p : Nat) (hh : t.heap p = s.heap p)
    (hc : ∀ k, hashValue t.m_servicesCache k = hashValue s.m_servicesCache k) :
    cacheOwns t p = cacheOwns s p := by
  unfold cacheOwns
  rw [hh]
  cases s.heap p with
  | none => rfl
  | some r => simp [hc]

theorem cacheOwns_lt {s : NetworkManager} (hwf : WellFormed s) {p : Nat}
    (h : cacheOwns s p = true) : p < s.next := by
  obtain ⟨r, hr, -⟩ := (cacheOwns_iff s p).mp h
  exact hwf.wf_lt_next hr

theorem cacheOwns_cached {s : NetworkManager} (hwf : WellFormed s) {k : String} {p : Nat}
    (h : hashValue s.m_servicesCache k = some p) : cacheOwns s p = true := by
  obtain ⟨r, hr, hpath⟩ := hwf.cached k p (hashValue_mem _ _ _ h)
  exact (cacheOwns_iff s p).mpr ⟨r, hr, by rw [hpath]; exact h⟩

theorem cacheOwns_updateDefaultRoute {s : NetworkManager} (hwf : WellFormed s)
    (defaultNetDev : String) {p : Nat} (h : cacheOwns s p = true) :
    cacheOwns (updateDefaultRoute defaultNetDev s) p = true := by
  rw [cacheOwns_congr s _ p (updateDefaultRoute_heap _ _ _ (cacheOwns_lt hwf h))
    (fun k => by rw [(updateDefaultRoute_lists _ _).1])]
  exact h

theorem cacheOwns_reuseOrCreate {s : NetworkManager} (hwf : WellFormed s)
    (obj : ConnmanObject) {p : Nat} (h : cacheOwns s p = true) :
    cacheOwns (reuseOrCreate obj s) p = true := by
  obtain ⟨r, hr, hc⟩ := (cacheOwns_iff s p).mp h
  rw [cacheOwns_iff]
  unfold reuseOrCreate
  cases hv : hashValue s.m_servicesCache obj.objpath with
  | some q =>
    by_cases hpq : p = q
    · subst hpq
      exact ⟨r.updateProperties obj.properties, by simp [mergeProperties, hr], hc⟩
    · exact ⟨r, by simp [mergeProperties, hpq, hr], hc⟩
  | none =>
    have hne : p ≠ s.next := Nat.ne_of_lt (hwf.wf_lt_next hr)
    have hk : r.path ≠ obj.objpath := by
      intro e
      rw [e, hv] at hc
      cases hc
    exact ⟨r, by simp [newService, hne, hr], by
      simpa [newService, hashValue_insert_ne _ _ _ _ hk] using hc⟩

theorem cacheOwns_reuseOrCreate_ptr {s : NetworkManager} (hwf : WellFormed s)
    (obj : ConnmanObject) :
    cacheOwns (reuseOrCreate obj s) (servicePtr s obj.objpath) = true ∧
    ∃ r, (reuseOrCreate obj s).heap (servicePtr s obj.objpath) = some r ∧
      r.path = obj.objpath := by
  have hwf2 := hwf.wf_reuseOrCreate obj
  have hc := reuseOrCreate_cache obj s obj.objpath
  simp only [if_true] at hc
  refine ⟨cacheOwns_cached hwf2 hc, ?_⟩
  exact hwf2.cached _ _ (hashValue_mem _ _ _ hc)

theorem updateServicesEntry_owns {s : NetworkManager} (hwf : WellFormed s)
    (defaultNetDev : String) (order : Nat) (obj : ConnmanObject) {p : Nat}
    (h : cacheOwns (reuseOrCreate obj s) p = true) :
    cacheOwns (updateServicesEntry defaultNetDev order obj s) p = true := by
  rw [cacheOwns_congr (reuseOrCreate obj s) _ p
    (updateServicesEntry_heap defaultNetDev order obj s p
      (cacheOwns_lt (hwf.wf_reuseOrCreate obj) h))
    (fun k => by rw [updateServicesEntry_cache, reuseOrCreate_cache])]
  exact h

theorem WellFormed.wf_removeService {s : NetworkManager} (hwf : WellFormed s) (k : String) :
    WellFormed (removeService k s) := by
  unfold removeService
  split
  · rename_i q hq
    split
    · exact (hwf.wf_merge k q _ (hashValue_mem _ _ _ hq)).wf_emit _
    · exact (hwf.wf_delete k q (hashValue_mem _ _ _ hq)).wf_emit _
  · exact hwf

/-- The loop invariant of `updateServices` for the cache invariant: the listed
records are cached under their own paths, and the records of `m_servicesOrder`
carry paths of the changed list. -/
theorem updateServicesEntry_cacheInv (paths : List String) (defaultNetDev : String)
    (order : Nat) (obj : ConnmanObject) (s : NetworkManager) (hobj : obj.objpath ∈ paths)
    (h : CacheInv s ∧ ∀ p ∈ s.m_servicesOrder, ∀ r, s.heap p = some r → r.path ∈ paths) :
    CacheInv (updateServicesEntry defaultNetDev order obj s) ∧
      ∀ p ∈ (updateServicesEntry defaultNetDev order obj s).m_servicesOrder,
        ∀ r, (updateServicesEntry defaultNetDev order obj s).heap p = some r →
          r.path ∈ paths := by
  obtain ⟨⟨hwf, hoc⟩, hpaths⟩ := h
  obtain ⟨hptr, rp, hrp, hrpath⟩ := cacheOwns_reuseOrCreate_ptr hwf obj
  have hptrlt := reuseOrCreate_ptr_lt obj s hwf
  have hR := (reuseOrCreate_fields obj s).2.2.2.2
  have hsaved := updateServicesEntry_saved defaultNetDev order obj s
  refine ⟨⟨hwf.wf_updateServicesEntry defaultNetDev order obj, ?_⟩, ?_⟩
  · intro p hp
    apply updateServicesEntry_owns hwf
    rcases hp with hp | hp
    · rw [updateServicesEntry_order] at hp
      rcases List.mem_append.mp hp with hp | hp
      · exact cacheOwns_reuseOrCreate hwf obj (hoc p (Or.inl hp))
      · have hpp : p = servicePtr s obj.objpath := by simpa using hp
        subst hpp
        exact hptr
    · apply cacheOwns_reuseOrCreate hwf obj
      apply hoc p
      right
      rw [hsaved] at hp
      split at hp
      · exact hp
      · exact List.mem_of_mem_erase hp
  · intro p hp r hr
    rw [updateServicesEntry_order] at hp
    by_cases hpp : p = servicePtr s obj.objpath
    · subst hpp
      rw [updateServicesEntry_heap defaultNetDev order obj s _ hptrlt, hrp] at hr
      cases hr
      rw [hrpath]
      exact hobj
    · rcases List.mem_append.mp hp with hp | hp
      · have hlt : p < s.next := cacheOwns_lt hwf (hoc p (Or.inl hp))
        rw [updateServicesEntry_heap defaultNetDev order obj s _ (by omega),
          reuseOrCreate_heap obj s p hpp] at hr
        exact hpaths p hp r hr
      · exact absurd (by simpa using hp) hpp

theorem removeService_cacheInv (paths : List String) (k : String) (s : NetworkManager)
    (hk : k ∉ paths)
    (h : CacheInv s ∧ ∀ p ∈ s.m_servicesOrder, ∀ r, s.heap p = some r → r.path ∈ paths) :
    CacheInv (removeService k s) ∧
      ∀ p ∈ (removeService k s).m_servicesOrder,
        ∀ r, (removeService k s).heap p = some r → r.path ∈ paths := by
  obtain ⟨⟨hwf, hoc⟩, hpaths⟩ := h
  obtain ⟨ho, hs, -, -, -⟩ := removeService_fields k s
  refine ⟨⟨hwf.wf_removeService k, ?_⟩, ?_⟩
  · intro p hp
    rw [ho, hs] at hp
    have hown := hoc p hp
    obtain ⟨r, hr, hc⟩ := (cacheOwns_iff s p).mp hown
    rw [cacheOwns_iff]
    unfold removeService
    split
    · rename_i q hq
      by_cases hqs : q ∈ s.m_savedServicesOrder
      · simp only [hqs, if_true]
        by_cases hpq : p = q
        · subst hpq
          exact ⟨r.updateProperties [("Strength", QVariant.uint 0), ("State", QVariant.str "idle")],
            by simp [emit, mergeProperties, hr], hc⟩
        · exact ⟨r, by simp [emit, mergeProperties, hpq, hr], hc⟩
      · simp only [hqs, if_false]
        have hpq : p ≠ q := by
          intro e
          subst e
          rcases hp with hp | hp
          · obtain ⟨r2, hr2, hpath2⟩ := hwf.cached _ _ (hashValue_mem _ _ _ hq)
            rw [hr] at hr2
            cases hr2
            exact hk (hpath2 ▸ hpaths p hp r hr)
          · exact hqs hp
        have hrk : r.path ≠ k := by
          intro e
          rw [e, hq] at hc
          cases hc
          exact hpq rfl
        exact ⟨r, by simp [emit, deleteLater, hpq, hr], by
          simpa [emit, deleteLater, hashValue_remove_ne _ _ _ hrk] using hc⟩
    · exact ⟨r, hr, hc⟩
  · intro p hp r hr
    rw [ho] at hp
    obtain ⟨r0, hr0, -⟩ := (cacheOwns_iff s p).mp (hoc p (Or.inl hp))
    have hp0 := hpaths p hp r0 hr0
    unfold removeService at hr
    split at hr
    · rename_i q hq
      by_cases hqs : q ∈ s.m_savedServicesOrder
      · simp only [hqs, if_true] at hr
        by_cases hpq : p = q
        · subst hpq
          simp [emit, mergeProperties, hr0] at hr
          rw [← hr]
          exact hp0
        · simp [emit, mergeProperties, hpq, hr0] at hr
          rw [← hr]
          exact hp0
      · simp only [hqs, if_false] at hr
        by_cases hpq : p = q
        · simp [emit, deleteLater, hpq] at hr
        · simp [emit, deleteLater, hpq, hr0] at hr
          rw [← hr]
          exact hp0
    · rw [hr0] at hr
      cases hr
      exact hp0

theorem CacheInv.ci_updateServices {s : NetworkManager} (h : CacheInv s)
    (changed : List ConnmanObject) (removed : List String) (defaultNetDev : String)
    (hcons : ∀ obj ∈ changed, obj.objpath ∉ removed) :
    CacheInv (updateServices changed removed defaultNetDev s) := by
  obtain ⟨hwf, hoc⟩ := h
  have h0 : CacheInv { s with m_servicesOrder := [] } ∧
      ∀ p ∈ ({ s with m_servicesOrder := [] } : NetworkManager).m_servicesOrder,
        ∀ r, ({ s with m_servicesOrder := [] } : NetworkManager).heap p = some r →
          r.path ∈ changed.map ConnmanObject.objpath := by
    refine ⟨⟨hwf.wf_of_eq rfl rfl rfl rfl, ?_⟩, by simp⟩
    intro p hp
    rcases hp with hp | hp
    · simp at hp
    · exact hoc p (Or.inr hp)
  have h1 := updateServicesLoop_induct
    (fun t => CacheInv t ∧ ∀ p ∈ t.m_servicesOrder, ∀ r, t.heap p = some r →
      r.path ∈ changed.map ConnmanObject.objpath) defaultNetDev changed
    (fun order obj t hobj ht => updateServicesEntry_cacheInv _ defaultNetDev order obj t
      (List.mem_map_of_mem _ hobj) ht) 0 _ [] h0
  have h2 := removeServices_induct
    (fun t => CacheInv t ∧ ∀ p ∈ t.m_servicesOrder, ∀ r, t.heap p = some r →
      r.path ∈ changed.map ConnmanObject.objpath) removed
    (fun k t hk ht => removeService_cacheInv _ k t (by
      intro hmem
      obtain ⟨obj, hobj, hpath⟩ := List.mem_map.mp hmem
      exact hcons obj hobj (hpath ▸ hk)) ht) _ h1
  obtain ⟨⟨hwf2, hoc2⟩, -⟩ := h2
  unfold updateServices
  dsimp only
  split
  · refine ⟨((hwf2.wf_updateDefaultRoute defaultNetDev).wf_emit _).wf_emit _ |>.wf_emit _, ?_⟩
    intro p hp
    have hp2 : p ∈ (removeServices removed (updateServicesLoop defaultNetDev 0 changed
          { s with m_servicesOrder := [] } []).1).m_servicesOrder ∨
        p ∈ (removeServices removed (updateServicesLoop defaultNetDev 0 changed
          { s with m_servicesOrder := [] } []).1).m_savedServicesOrder := by
      simpa [emit, (updateDefaultRoute_lists _ _).2.1, (updateDefaultRoute_lists _ _).2.2]
        using hp
    exact cacheOwns_updateDefaultRoute hwf2 defaultNetDev (hoc2 p hp2)
  · exact ⟨(((hwf2.wf_emit _).wf_emit _).wf_emit _), fun p hp => hoc2 p hp⟩

theorem CacheInv.ci_data {s t : NetworkManager} (h : CacheInv s) (e1 : t.heap = s.heap)
    (e2 : t.next = s.next) (e3 : t.m_servicesCache = s.m_servicesCache)
    (e4 : t.m_invalidDefaultRoute = s.m_invalidDefaultRoute)
    (e5 : ∀ p, p ∈ t.m_servicesOrder → p ∈ s.m_servicesOrder)
    (e6 : ∀ p, p ∈ t.m_savedServicesOrder → p ∈ s.m_savedServicesOrder) : CacheInv t := by
  refine ⟨h.1.wf_of_eq e1 e2 e3 e4, ?_⟩
  intro p hp
  rw [cacheOwns_congr s t p (by rw [e1]) (fun k => by rw [e3])]
  exact h.2 p (hp.imp (e5 p) (e6 p))

theorem CacheInv.ci_sameData {s t : NetworkManager} (h : CacheInv s) (hd : SameData s t) :
    CacheInv t :=
  h.ci_data hd.heap hd.next hd.cache hd.invalidRoute (fun _ hp => hd.order ▸ hp)
    (fun _ hp => hd.saved ▸ hp)

theorem CacheInv.ci_updateDefaultRoute {s : NetworkManager} (h : CacheInv s)
    (defaultNetDev : String) : CacheInv (updateDefaultRoute defaultNetDev s) := by
  refine ⟨h.1.wf_updateDefaultRoute defaultNetDev, ?_⟩
  intro p hp
  rw [(updateDefaultRoute_lists _ _).2.1, (updateDefaultRoute_lists _ _).2.2] at hp
  exact cacheOwns_updateDefaultRoute h.1 defaultNetDev (h.2 p hp)

theorem CacheInv.ci_updateSavedServices {s : NetworkManager} (h : CacheInv s)
    (changed : List ConnmanObject) : CacheInv (updateSavedServices changed s) := by
  have h0 : CacheInv { s with m_savedServicesOrder := [] } :=
    h.ci_data rfl rfl rfl rfl (fun _ hp => hp) (fun _ hp => by simp at hp)
  have h1 := updateSavedServicesLoop_induct CacheInv changed (fun obj t _ ht => by
    obtain ⟨hwf, hoc⟩ := ht
    obtain ⟨ho, hs, -, -, -⟩ := reuseOrCreate_fields obj t
    have hR : CacheInv (reuseOrCreate obj t) :=
      ⟨hwf.wf_reuseOrCreate obj, fun p hp =>
        cacheOwns_reuseOrCreate hwf obj (hoc p (by rw [ho, hs] at hp; exact hp))⟩
    refine ⟨hR.1.wf_of_eq rfl rfl rfl rfl, ?_⟩
    intro p hp
    have hcon : cacheOwns (updateSavedServicesEntry obj t) p = cacheOwns (reuseOrCreate obj t) p :=
      cacheOwns_congr _ _ p rfl (fun _ => rfl)
    rw [hcon]
    rcases hp with hp | hp
    · exact hR.2 p (Or.inl hp)
    · rcases List.mem_append.mp hp with hp | hp
      · exact hR.2 p (Or.inr hp)
      · have hpp : p = servicePtr t obj.objpath := by simpa using hp
        subst hpp
        exact (cacheOwns_reuseOrCreate_ptr hwf obj).1) _ h0
  unfold updateSavedServices
  exact h1.ci_data rfl rfl rfl rfl (fun _ hp => hp) (fun _ hp => hp)

/-- The first loop of `servicesReply` keeps the listed records cached under
their own paths as long as no path of the reply is repeated. -/
theorem servicesReplyLoop_owns (defaultNetDev : String) (lst : List ConnmanObject)
    (hnd : (lst.map ConnmanObject.objpath).Nodup) :
    ∀ (order : Nat) (s : NetworkManager), WellFormed s →
      (∀ p ∈ s.m_servicesOrder, cacheOwns s p = true ∧
        ∀ r, s.heap p = some r → r.path ∉ lst.map ConnmanObject.objpath) →
      WellFormed (servicesReplyLoop defaultNetDev order lst s) ∧
      ∀ p ∈ (servicesReplyLoop defaultNetDev order lst s).m_servicesOrder,
        cacheOwns (servicesReplyLoop defaultNetDev order lst s) p = true := by
  induction lst with
  | nil =>
    intro order s hwf h
    exact ⟨hwf, fun p hp => (h p hp).1⟩
  | cons obj rest ih =>
    intro order s hwf h
    simp only [servicesReplyLoop]
    rw [List.map_cons, List.nodup_cons] at hnd
    have hwfc : WellFormed
        { newService obj.objpath obj.properties s with
          m_servicesCache := hashInsert s.m_servicesCache obj.objpath s.next
          m_servicesOrder := s.m_servicesOrder ++ [s.next] } :=
      hwf.wf_create obj.objpath obj.properties _ rfl rfl rfl rfl
    have hc : ∀ p ∈ s.m_servicesOrder ++ [s.next],
        cacheOwns { newService obj.objpath obj.properties s with
            m_servicesCache := hashInsert s.m_servicesCache obj.objpath s.next
            m_servicesOrder := s.m_servicesOrder ++ [s.next] } p = true ∧
        ∀ r, (newService obj.objpath obj.properties s).heap p = some r →
          r.path ∉ rest.map ConnmanObject.objpath := by
      intro p hp
      rcases List.mem_append.mp hp with hp | hp
      · obtain ⟨hown, hpath⟩ := h p hp
        obtain ⟨r, hr, hcr⟩ := (cacheOwns_iff s p).mp hown
        have hne : p ≠ s.next := Nat.ne_of_lt (hwf.wf_lt_next hr)
        have hnot := hpath r hr
        rw [List.map_cons, List.mem_cons, not_or] at hnot
        refine ⟨(cacheOwns_iff _ p).mpr ⟨r, by simp [newService, hne, hr], ?_⟩, ?_⟩
        · simpa [hashValue_insert_ne _ _ _ _ hnot.1] using hcr
        · intro r2 hr2
          simp [newService, hne, hr] at hr2
          rw [← hr2]
          exact hnot.2
      · have hpp : p = s.next := by simpa using hp
        subst hpp
        refine ⟨(cacheOwns_iff _ _).mpr
          ⟨{ path := obj.objpath, props := obj.properties }, by simp [newService], ?_⟩, ?_⟩
        · simp [hashValue_insert_self]
        · intro r2 hr2
          simp [newService] at hr2
          rw [← hr2]
          exact hnd.1
    apply ih hnd.2
    · unfold servicesReplyEntry
      dsimp only
      split
      · exact hwfc.wf_updateDefaultRoute _
      · exact hwfc
    · intro p hp
      unfold servicesReplyEntry at hp ⊢
      dsimp only at hp ⊢
      split at hp
      · rw [(updateDefaultRoute_lists _ _).2.1] at hp
        obtain ⟨hown, hpath⟩ := hc p hp
        rw [if_pos (by assumption)]
        refine ⟨cacheOwns_updateDefaultRoute hwfc _ hown, ?_⟩
        intro r hr
        rw [updateDefaultRoute_heap _ _ _ (cacheOwns_lt hwfc hown)] at hr
        exact hpath r hr
      · rw [if_neg (by assumption)]
        exact hc p hp

theorem servicesReplyCurrent_owns (defaultNetDev : String) (lst : List ConnmanObject)
    (hnd : (lst.map ConnmanObject.objpath).Nodup) (s : NetworkManager) (hwf : WellFormed s) :
    WellFormed (servicesReplyCurrent lst defaultNetDev s) ∧
    ∀ p ∈ (servicesReplyCurrent lst defaultNetDev s).m_servicesOrder,
      cacheOwns (servicesReplyCurrent lst defaultNetDev s) p = true := by
  obtain ⟨hwf1, hown1⟩ := servicesReplyLoop_owns defaultNetDev lst hnd 0
    { s with m_servicesOrder := [] } (hwf.wf_of_eq rfl rfl rfl rfl) (by simp)
  unfold servicesReplyCurrent
  dsimp only
  split
  · refine ⟨(hwf1.wf_updateDefaultRoute _).wf_emit _, ?_⟩
    intro p hp
    have hp1 : p ∈ (servicesReplyLoop defaultNetDev 0 lst
        { s with m_servicesOrder := [] }).m_servicesOrder := by
      simpa [emit, (updateDefaultRoute_lists _ _).2.1] using hp
    exact cacheOwns_updateDefaultRoute hwf1 _ (hown1 p hp1)
  · exact ⟨hwf1.wf_emit _, fun p hp => hown1 p hp⟩

theorem CacheInv.ci_callsFinished {s : NetworkManager} (h : CacheInv s) :
    CacheInv (callsFinished s) :=
  h.ci_sameData (SameData.sd_callsFinished (SameData.sd_refl s))

theorem CacheInv.ci_servicesReplySaved {s : NetworkManager} (hwf : WellFormed s)
    (hown : ∀ p ∈ s.m_servicesOrder, cacheOwns s p = true) (lst : List ConnmanObject) :
    CacheInv (servicesReplySaved lst s) := by
  have h0 : CacheInv { s with m_savedServicesOrder := [] } := by
    refine ⟨hwf.wf_of_eq rfl rfl rfl rfl, ?_⟩
    intro p hp
    rcases hp with hp | hp
    · exact hown p hp
    · simp at hp
  have h1 := savedReplyLoop_induct CacheInv lst (fun obj t _ ht => by
    obtain ⟨hwft, hoc⟩ := ht
    unfold savedReplyEntry
    cases hv : hashValue t.m_servicesCache obj.objpath with
    | some q =>
      dsimp only
      refine ⟨hwft.wf_of_eq rfl rfl rfl rfl, ?_⟩
      intro p hp
      show cacheOwns t p = true
      rcases hp with hp | hp
      · exact hoc p (Or.inl hp)
      · rcases List.mem_append.mp hp with hp | hp
        · exact hoc p (Or.inr hp)
        · have hpp : p = q := by simpa using hp
          subst hpp
          exact cacheOwns_cached hwft hv
    | none =>
      dsimp only
      have hwfc : WellFormed
          { newService obj.objpath obj.properties t with
            m_servicesCache := hashInsert t.m_servicesCache obj.objpath t.next
            m_savedServicesOrder := t.m_savedServicesOrder ++ [t.next] } :=
        hwft.wf_create obj.objpath obj.properties _ rfl rfl rfl rfl
      refine ⟨hwfc, ?_⟩
      have hold : ∀ p, cacheOwns t p = true →
          cacheOwns { newService obj.objpath obj.properties t with
            m_servicesCache := hashInsert t.m_servicesCache obj.objpath t.next
            m_savedServicesOrder := t.m_savedServicesOrder ++ [t.next] } p = true := by
        intro p hp
        obtain ⟨r, hr, hcr⟩ := (cacheOwns_iff t p).mp hp
        have hne : p ≠ t.next := Nat.ne_of_lt (hwft.wf_lt_next hr)
        have hk : r.path ≠ obj.objpath := by
          intro e
          rw [e, hv] at hcr
          cases hcr
        exact (cacheOwns_iff _ p).mpr ⟨r, by simp [newService, hne, hr], by
          simpa [hashValue_insert_ne _ _ _ _ hk] using hcr⟩
      intro p hp
      rcases hp with hp | hp
      · exact hold p (hoc p (Or.inl hp))
      · rcases List.mem_append.mp hp with hp | hp
        · exact hold p (hoc p (Or.inr hp))
        · have hpp : p = t.next := by simpa using hp
          subst hpp
          exact @cacheOwns_cached _ hwfc obj.objpath t.next (hashValue_insert_self _ _ _)) _ h0
  unfold servicesReplySaved
  dsimp only
  apply CacheInv.ci_callsFinished
  exact h1.ci_data rfl rfl rfl rfl (fun _ hp => hp) (fun _ hp => hp)

theorem CacheInv.ci_servicesReply {s t : NetworkManager} (h : CacheInv s)
    (reply saved : Option (List ConnmanObject)) (defaultNetDev : String)
    (hcons : (Event.servicesReply reply saved defaultNetDev).consistent)
    (hok : servicesReply reply saved defaultNetDev s = Except.ok t) : CacheInv t := by
  cases reply with
  | none =>
    simp only [servicesReply, Except.ok.injEq] at hok
    exact hok ▸ h
  | some lst =>
    obtain ⟨hnd, hsaved⟩ := hcons
    obtain ⟨hwf1, hown1⟩ := servicesReplyCurrent_owns defaultNetDev lst hnd s h.1
    unfold servicesReply at hok
    dsimp only at hok
    split at hok
    · cases saved with
      | none => simp at hsaved
      | some savedLst =>
        simp only [Except.ok.injEq] at hok
        subst hok
        apply CacheInv.ci_servicesReplySaved
        · exact hwf1.wf_of_eq rfl rfl rfl rfl
        · intro p hp
          show cacheOwns (servicesReplyCurrent lst defaultNetDev s) p = true
          exact hown1 p hp
    · cases hok

theorem disconnectServices_lists (s : NetworkManager) :
    (disconnectServices s).m_servicesOrder = [] ∧
    (disconnectServices s).m_savedServicesOrder = [] := by
  unfold disconnectServices
  dsimp only
  repeat' split
  all_goals
    constructor
    all_goals simp_all [emit]

theorem CacheInv.ci_disconnectServices {s : NetworkManager} (h : WellFormed s) :
    CacheInv (disconnectServices s) := by
  refine ⟨h.wf_disconnectServices, ?_⟩
  intro p hp
  rw [(disconnectServices_lists s).1, (disconnectServices_lists s).2] at hp
  simp at hp

theorem CacheInv.ci_disconnectFromConnman {s : NetworkManager} (h : CacheInv s) :
    CacheInv (disconnectFromConnman s) := by
  unfold disconnectFromConnman
  apply CacheInv.ci_disconnectServices
  unfold disconnectTechnologies
  split
  · exact h.1.wf_of_eq rfl rfl rfl rfl
  · exact h.1.wf_of_eq rfl rfl rfl rfl

theorem CacheInv.ci_connectToConnman {s : NetworkManager} (h : CacheInv s) (valid : Bool)
    (defaultNetDev : String) : CacheInv (connectToConnman valid defaultNetDev s) := by
  have h1 := h.ci_disconnectFromConnman
  unfold connectToConnman
  dsimp only
  split
  · apply CacheInv.ci_updateDefaultRoute
    exact h1.ci_data rfl rfl rfl rfl (fun _ hp => hp) (fun _ hp => hp)
  · split
    · exact h1.ci_data rfl rfl rfl rfl (fun _ hp => hp) (fun _ hp => hp)
    · exact h1.ci_data rfl rfl rfl rfl (fun _ hp => hp) (fun _ hp => hp)

theorem CacheInv.ci_connmanUnregistered {s : NetworkManager} (h : CacheInv s) :
    CacheInv (connmanUnregistered s) := by
  have h1 := h.ci_disconnectFromConnman
  unfold connmanUnregistered
  dsimp only
  split
  · exact h1.ci_data rfl rfl rfl rfl (fun _ hp => hp) (fun _ hp => hp)
  · exact h1

theorem CacheInv.ci_construct (registered valid : Bool) (defaultNetDev : String) :
    CacheInv (NetworkManager.construct registered valid defaultNetDev) := by
  have h0 : CacheInv { NetworkManager.initial with m_available := registered } :=
    ⟨WellFormed.wf_initial.wf_of_eq rfl rfl rfl rfl, fun p hp => by
      simp [NetworkManager.initial] at hp⟩
  unfold NetworkManager.construct
  dsimp only
  split
  · exact h0.ci_connectToConnman valid defaultNetDev
  · exact h0

theorem CacheInv.ci_propertyChanged {s : NetworkManager} (h : CacheInv s) (name : String)
    (value : QVariant) (defaultNetDev : String) :
    CacheInv (propertyChanged name value defaultNetDev s) := by
  unfold propertyChanged
  dsimp only
  repeat' split
  all_goals
    first
    | (apply CacheInv.ci_updateDefaultRoute
       exact h.ci_data rfl rfl rfl rfl (fun _ hp => hp) (fun _ hp => hp))
    | exact h.ci_data rfl rfl rfl rfl (fun _ hp => hp) (fun _ hp => hp)

theorem CacheInv.ci_setServicesEnabled {s t : NetworkManager} (h : CacheInv s)
    (enabled : Bool) (hok : setServicesEnabled enabled s = Except.ok t) : CacheInv t := by
  rw [setServicesEnabled_eq] at hok
  have hdis : CacheInv (disconnectServices { s with m_servicesEnabled := enabled }) :=
    CacheInv.ci_disconnectServices (h.1.wf_of_eq rfl rfl rfl rfl)
  repeat' split at hok
  all_goals
    first
    | (simp only [Except.ok.injEq] at hok
       subst hok
       first
       | exact h
       | exact h.ci_data rfl rfl rfl rfl (fun _ hp => hp) (fun _ hp => hp)
       | exact hdis.ci_data rfl rfl rfl rfl (fun _ hp => hp) (fun _ hp => hp))
    | cases hok

/-- Every consistent event keeps the cache invariant. -/
theorem CacheInv.ci_step {s t : NetworkManager} (h : CacheInv s) (e : Event)
    (hcons : e.consistent) (hok : e.step s = Except.ok t) : CacheInv t := by
  cases e with
  | connectToConnman valid dev =>
    simp only [Event.step, Except.ok.injEq] at hok
    exact hok ▸ h.ci_connectToConnman valid dev
  | connmanUnregistered =>
    simp only [Event.step, Except.ok.injEq] at hok
    exact hok ▸ h.ci_connmanUnregistered
  | disconnectFromConnman =>
    simp only [Event.step, Except.ok.injEq] at hok
    exact hok ▸ h.ci_disconnectFromConnman
  | propertiesReply reply => exact h.ci_sameData (SameData.sd_propertiesReply reply hok)
  | technologiesReply reply => exact h.ci_sameData (SameData.sd_technologiesReply reply hok)
  | servicesReply reply saved dev => exact h.ci_servicesReply reply saved dev hcons hok
  | updateServices changed removed dev =>
    simp only [Event.step, Except.ok.injEq] at hok
    exact hok ▸ h.ci_updateServices changed removed dev hcons
  | updateSavedServices changed =>
    simp only [Event.step, Except.ok.injEq] at hok
    exact hok ▸ h.ci_updateSavedServices changed
  | propertyChanged name value dev =>
    simp only [Event.step, Except.ok.injEq] at hok
    exact hok ▸ h.ci_propertyChanged name value dev
  | technologyAdded technology properties =>
    simp only [Event.step, Except.ok.injEq] at hok
    exact hok ▸ h.ci_sameData (SameData.sd_technologyAdded technology properties s)
  | technologyRemoved technology =>
    simp only [Event.step, Except.ok.injEq] at hok
    exact hok ▸ h.ci_sameData (SameData.sd_technologyRemoved technology s)
  | setServicesEnabled enabled => exact h.ci_setServicesEnabled enabled hok
  | setTechnologiesEnabled enabled =>
    exact h.ci_sameData (SameData.sd_setTechnologiesEnabled enabled hok)
  | command c => exact h.ci_sameData (SameData.sd_command c hok)

theorem CacheInv.ci_run (evs : List Event) :
    ∀ {s t : NetworkManager}, CacheInv s → (∀ e ∈ evs, e.consistent) →
      run evs s = Except.ok t → CacheInv t := by
  induction evs with
  | nil =>
    intro s t h _ hok
    simp only [run, Except.ok.injEq] at hok
    exact hok ▸ h
  | cons e rest ih =>
    intro s t h hcons hok
    simp only [run] at hok
    cases hstep : e.step s with
    | error f => rw [hstep] at hok; cases hok
    | ok s1 =>
      rw [hstep] at hok
      exact ih (h.ci_step e (hcons e (List.mem_cons_self _ _)) hstep)
        (fun e1 he1 => hcons e1 (List.mem_cons_of_mem _ he1)) hok

/-- C9, as amended: in every state reached from construction through events
whose services replies name each path once and get their saved-services
answer, and whose incremental updates list no path as both changed and
removed, every record of `m_servicesOrder` and `m_savedServicesOrder` is live
and is the record cached under its own path. -/
theorem orders_cached (registered valid : Bool) (defaultNetDev : String) (evs : List Event)
    (s : NetworkManager) (hcons : ∀ e ∈ evs, e.consistent)
    (hrun : run evs (NetworkManager.construct registered valid defaultNetDev) = Except.ok s) :
    ∀ p, p ∈ s.m_servicesOrder ∨ p ∈ s.m_savedServicesOrder → cacheOwns s p = true :=
  (CacheInv.ci_run evs (CacheInv.ci_construct registered valid defaultNetDev) hcons hrun).2

theorem sampleConsistentTrace_consistent : ∀ e ∈ sampleConsistentTrace, e.consistent := by
  intro e he
  simp only [sampleConsistentTrace, List.mem_cons, List.mem_singleton, List.not_mem_nil,
    or_false] at he
  rcases he with rfl | rfl | rfl | rfl | rfl
  · exact trivial
  · exact trivial
  · exact trivial
  · exact ⟨by decide, rfl⟩
  · intro obj hobj
    simp only [List.mem_singleton] at hobj
    subst hobj
    decide

theorem orders_cached_witness :
    (∀ e ∈ sampleConsistentTrace, e.consistent) ∧
    ∃ s, run sampleConsistentTrace (NetworkManager.construct false true "") = Except.ok s ∧
      ∀ p, p ∈ s.m_servicesOrder ∨ p ∈ s.m_savedServicesOrder → cacheOwns s p = true :=
  ⟨sampleConsistentTrace_consistent, _, rfl,
    orders_cached false true "" sampleConsistentTrace _ sampleConsistentTrace_consistent rfl⟩

/-- C9 as stated fails in three ways: a services fetch whose saved-services
call fails leaves the records of an earlier fetch in `m_savedServicesOrder`
while the cache holds their replacements; a reply naming a path twice lists a
record the cache has replaced; an update listing a path as changed and removed
lists a record that was deleted. -/
theorem orders_not_cached :
    (∃ s, run sampleSavedCallFails (NetworkManager.construct false true "") = Except.ok s ∧
      s.m_savedServicesOrder = [1] ∧ hashValue s.m_servicesCache "/wifi0" = some 2 ∧
      ordersCachedOrSentinel s = false) ∧
    (∃ s, run sampleRepeatedPath (NetworkManager.construct false true "") = Except.ok s ∧
      s.m_servicesOrder = [1, 2] ∧ hashValue s.m_servicesCache "/online" = some 2 ∧
      ordersCachedOrSentinel s = false) ∧
    (∃ s, run sampleChangedAndRemoved (NetworkManager.construct false true "") = Except.ok s ∧
      s.m_servicesOrder = [1] ∧ hashValue s.m_servicesCache "/online" = none ∧
      ordersCachedOrSentinel s = false) :=
  ⟨⟨_, rfl, by decide⟩, ⟨_, rfl, by decide⟩, ⟨_, rfl, by decide⟩⟩

/-! ## The readiness gate -/

theorem ReadinessKept.rk_refl (s : NetworkManager) : ReadinessKept s s :=
  ⟨rfl, rfl, id⟩

theorem ReadinessKept.rk_data {s t u : NetworkManager} (h : ReadinessKept s t)
    (e1 : u.technologiesReady = t.technologiesReady) (e2 : u.servicesReady = t.servicesReady)
    (e3 : u.m_available = t.m_available) : ReadinessKept s u :=
  ⟨e1.trans h.technologiesReady, e2.trans h.servicesReady, fun hu => h.available (e3 ▸ hu)⟩

theorem ReadinessKept.rk_sameControl {s t u : NetworkManager} (h : ReadinessKept s t)
    (hc : SameControl t u) : ReadinessKept s u :=
  h.rk_data hc.technologiesReady hc.servicesReady hc.available

theorem ReadinessKept.rk_disconnectTechnologies {s t : NetworkManager}
    (h : ReadinessKept s t) : ReadinessKept s (disconnectTechnologies t) := by
  unfold disconnectTechnologies
  split <;> exact h.rk_data rfl rfl rfl

theorem ReadinessKept.rk_disconnectServices {s t : NetworkManager} (h : ReadinessKept s t) :
    ReadinessKept s (disconnectServices t) := by
  have h1 : ReadinessKept s { deleteAll t.m_servicesCache t with m_servicesCache := [] } := by
    rw [deleteAll_eq]
    exact h.rk_data rfl rfl rfl
  unfold disconnectServices
  dsimp only
  repeat' split
  all_goals exact h1.rk_data rfl rfl rfl

theorem ReadinessKept.rk_disconnectFromConnman {s t : NetworkManager}
    (h : ReadinessKept s t) : ReadinessKept s (disconnectFromConnman t) := by
  unfold disconnectFromConnman
  apply ReadinessKept.rk_disconnectServices
  apply ReadinessKept.rk_disconnectTechnologies
  exact h.rk_data rfl rfl rfl

theorem ReadinessKept.rk_connectToConnman {s t : NetworkManager} (h : ReadinessKept s t)
    (valid : Bool) (defaultNetDev : String) :
    ReadinessKept s (connectToConnman valid defaultNetDev t) := by
  have h1 : ReadinessKept s (disconnectFromConnman t) := h.rk_disconnectFromConnman
  unfold connectToConnman
  dsimp only
  split
  · have h2 : ReadinessKept s
        (remoteCall RemoteCall.GetProperties { disconnectFromConnman t with m_manager := true }) :=
      h1.rk_data rfl rfl rfl
    exact h2.rk_sameControl (SameControl.sc_updateDefaultRoute (SameControl.sc_refl _))
  · split
    · exact ⟨h1.technologiesReady, h1.servicesReady, fun hu => by simp [emit] at hu⟩
    · exact h1.rk_data rfl rfl rfl

theorem ReadinessKept.rk_connmanUnregistered {s t : NetworkManager} (h : ReadinessKept s t) :
    ReadinessKept s (connmanUnregistered t) := by
  have h1 : ReadinessKept s (disconnectFromConnman t) := h.rk_disconnectFromConnman
  unfold connmanUnregistered
  dsimp only
  split
  · exact ⟨h1.technologiesReady, h1.servicesReady, fun hu => by simp [emit] at hu⟩
  · exact h1

theorem ReadinessKept.rk_updateDefaultRoute {s t : NetworkManager} (h : ReadinessKept s t)
    (defaultNetDev : String) : ReadinessKept s (updateDefaultRoute defaultNetDev t) :=
  h.rk_sameControl (SameControl.sc_updateDefaultRoute (SameControl.sc_refl t))

theorem ReadinessKept.rk_propertyChanged (name : String) (value : QVariant)
    (defaultNetDev : String) (s : NetworkManager) :
    ReadinessKept s (propertyChanged name value defaultNetDev s) := by
  unfold propertyChanged
  dsimp only
  repeat' split
  all_goals
    first
    | exact (ReadinessKept.rk_refl s).rk_data rfl rfl rfl
    | (apply ReadinessKept.rk_updateDefaultRoute
       exact (ReadinessKept.rk_refl s).rk_data rfl rfl rfl)

theorem ReadinessKept.rk_command {s t : NetworkManager} (c : Command)
    (hok : c.run s = Except.ok t) : ReadinessKept s t := by
  cases c <;>
    simp only [Command.run, ConnmanQt.setOfflineMode, ConnmanQt.setSessionMode,
      ConnmanQt.registerAgent, ConnmanQt.unregisterAgent, ConnmanQt.registerCounter,
      ConnmanQt.unregisterCounter, ConnmanQt.createSession, ConnmanQt.destroySession,
      ConnmanQt.resetCountersForType] at hok <;>
    (repeat' split at hok) <;>
    first
    | (simp only [Except.ok.injEq] at hok
       subst hok
       first
       | exact ReadinessKept.rk_refl _
       | exact (ReadinessKept.rk_refl s).rk_data rfl rfl rfl)
    | cases hok

theorem ReadinessKept.rk_setServicesEnabled {s t : NetworkManager} (enabled : Bool)
    (hok : setServicesEnabled enabled s = Except.ok t) : ReadinessKept s t := by
  rw [setServicesEnabled_eq] at hok
  have h0 : ReadinessKept s { s with m_servicesEnabled := enabled } :=
    (ReadinessKept.rk_refl s).rk_data rfl rfl rfl
  have hdis := h0.rk_disconnectServices
  repeat' split at hok
  all_goals
    first
    | (simp only [Except.ok.injEq] at hok
       subst hok
       first
       | exact ReadinessKept.rk_refl _
       | exact h0.rk_data rfl rfl rfl
       | exact hdis.rk_data rfl rfl rfl)
    | cases hok

theorem ReadinessKept.rk_setTechnologiesEnabled {s t : NetworkManager} (enabled : Bool)
    (hok : setTechnologiesEnabled enabled s = Except.ok t) : ReadinessKept s t := by
  rw [setTechnologiesEnabled_eq] at hok
  have h0 : ReadinessKept s { s with m_technologiesEnabled := enabled } :=
    (ReadinessKept.rk_refl s).rk_data rfl rfl rfl
  have hdis := h0.rk_disconnectTechnologies
  repeat' split at hok
  all_goals
    first
    | (simp only [Except.ok.injEq] at hok
       subst hok
       first
       | exact ReadinessKept.rk_refl _
       | exact h0.rk_data rfl rfl rfl
       | exact hdis.rk_data rfl rfl rfl)
    | cases hok

theorem callsFinished_spec (u : NetworkManager) :
    (callsFinished u).technologiesReady = u.technologiesReady ∧
    (callsFinished u).servicesReady = u.servicesReady ∧
    (callsFinished u).m_technologiesEnabled = u.m_technologiesEnabled ∧
    (callsFinished u).m_servicesEnabled = u.m_servicesEnabled ∧
    ((callsFinished u).m_available = true ↔ (u.m_available = true ∨ gateOpen u)) := by
  unfold callsFinished gateOpen
  cases h1 : u.m_technologiesEnabled <;> cases h2 : u.technologiesReady <;>
    cases h3 : u.m_servicesEnabled <;> cases h4 : u.servicesReady <;>
    cases h5 : u.m_available <;> simp [emit, h1, h2, h3, h4, h5]

theorem gateOpen_callsFinished (u : NetworkManager) : gateOpen (callsFinished u) ↔ gateOpen u := by
  obtain ⟨h1, h2, h3, h4, -⟩ := callsFinished_spec u
  unfold gateOpen
  rw [h1, h2, h3, h4]

/-- An event that is no successful reply and keeps the readiness members
meets the step specification. -/
theorem StepSpec.of_kept {e : Event} {s t : NetworkManager} (h : ReadinessKept s t)
    (hg : e.isGateStep = false) (ht : e.reportsTechnologies = false)
    (hs : e.reportsServices = false) : StepSpec e s t := by
  refine ⟨by rw [h.technologiesReady, ht, Bool.or_false],
    by rw [h.servicesReady, hs, Bool.or_false], ?_⟩
  intro hav
  constructor
  · intro htav
    have := h.available htav
    rw [hav] at this
    cases this
  · rintro ⟨hgate, -⟩
    rw [hg] at hgate
    cases hgate

/-- A successful reply that ends in the readiness gate meets the step
specification. -/
theorem StepSpec.of_gate {e : Event} {s u : NetworkManager} (hg : e.isGateStep = true)
    (hav : u.m_available = s.m_available)
    (ht : u.technologiesReady = (s.technologiesReady || e.reportsTechnologies))
    (hs : u.servicesReady = (s.servicesReady || e.reportsServices)) :
    StepSpec e s (callsFinished u) := by
  obtain ⟨h1, h2, -, -, h5⟩ := callsFinished_spec u
  refine ⟨h1.trans ht, h2.trans hs, ?_⟩
  intro hsav
  rw [h5, gateOpen_callsFinished, hav, hsav]
  simp [hg]

theorem SameControl.sc_savedReplyLoop {s t : NetworkManager} (h : SameControl s t)
    (lst : List ConnmanObject) : SameControl s (savedReplyLoop lst t) :=
  savedReplyLoop_induct (SameControl s) lst (fun _ _ _ hu => hu.sc_savedReplyEntry) t h

theorem stepSpec_propertiesReply {s t : NetworkManager} (reply : Option QVariantMap)
    (hok : propertiesReply reply s = Except.ok t) :
    StepSpec (Event.propertiesReply reply) s t := by
  cases reply with
  | none =>
    simp only [propertiesReply, Except.ok.injEq] at hok
    subst hok
    exact StepSpec.of_kept (ReadinessKept.rk_refl s) rfl rfl rfl
  | some props =>
    rw [propertiesReply_some] at hok
    repeat' split at hok
    all_goals
      first
      | (simp only [Except.ok.injEq] at hok
         subst hok
         exact StepSpec.of_gate rfl rfl (by simp [Event.reportsTechnologies, emit, remoteCall])
           (by simp [Event.reportsServices, emit, remoteCall]))
      | cases hok

theorem stepSpec_technologiesReply {s t : NetworkManager}
    (reply : Option (List ConnmanObject)) (hok : technologiesReply reply s = Except.ok t) :
    StepSpec (Event.technologiesReply reply) s t := by
  cases reply with
  | none =>
    simp only [technologiesReply, Except.ok.injEq] at hok
    subst hok
    exact StepSpec.of_kept (ReadinessKept.rk_refl s) rfl rfl rfl
  | some lst =>
    rw [technologiesReply_some] at hok
    repeat' split at hok
    all_goals
      first
      | (simp only [Except.ok.injEq] at hok
         subst hok
         exact StepSpec.of_gate rfl rfl (by simp [Event.reportsTechnologies, emit, remoteCall])
           (by simp [Event.reportsServices, emit, remoteCall]))
      | cases hok

theorem stepSpec_servicesReply {s t : NetworkManager}
    (reply saved : Option (List ConnmanObject)) (defaultNetDev : String)
    (hok : servicesReply reply saved defaultNetDev s = Except.ok t) :
    StepSpec (Event.servicesReply reply saved defaultNetDev) s t := by
  cases reply with
  | none =>
    simp only [servicesReply, Except.ok.injEq] at hok
    subst hok
    exact StepSpec.of_kept (ReadinessKept.rk_refl s) rfl rfl rfl
  | some lst =>
    have hc : SameControl s (servicesReplyCurrent lst defaultNetDev s) :=
      (SameControl.sc_refl s).sc_servicesReplyCurrent
    unfold servicesReply at hok
    dsimp only at hok
    split at hok
    · cases saved with
      | none =>
        simp only [Except.ok.injEq] at hok
        subst hok
        exact StepSpec.of_kept
          (((ReadinessKept.rk_refl s).rk_sameControl hc).rk_data rfl rfl rfl) rfl rfl rfl
      | some savedLst =>
        simp only [Except.ok.injEq] at hok
        subst hok
        have hl := SameControl.sc_savedReplyLoop (SameControl.sc_refl
          { remoteCall RemoteCall.GetSavedServices (servicesReplyCurrent lst defaultNetDev s)
            with m_savedServicesOrder := [] }) savedLst
        unfold servicesReplySaved
        dsimp only
        refine StepSpec.of_gate rfl ?_ ?_ ?_
        · exact hl.available.trans hc.available
        · simpa [Event.reportsTechnologies, emit] using
            hl.technologiesReady.trans hc.technologiesReady
        · simp [Event.reportsServices]
    · cases hok

/-- Every event meets the step specification. -/
theorem stepSpec_step {s t : NetworkManager} (e : Event) (hok : e.step s = Except.ok t) :
    StepSpec e s t := by
  cases e with
  | connectToConnman valid dev =>
    simp only [Event.step, Except.ok.injEq] at hok
    subst hok
    exact StepSpec.of_kept ((ReadinessKept.rk_refl s).rk_connectToConnman valid dev) rfl rfl rfl
  | connmanUnregistered =>
    simp only [Event.step, Except.ok.injEq] at hok
    subst hok
    exact StepSpec.of_kept (ReadinessKept.rk_refl s).rk_connmanUnregistered rfl rfl rfl
  | disconnectFromConnman =>
    simp only [Event.step, Except.ok.injEq] at hok
    subst hok
    exact StepSpec.of_kept (ReadinessKept.rk_refl s).rk_disconnectFromConnman rfl rfl rfl
  | propertiesReply reply => exact stepSpec_propertiesReply reply hok
  | technologiesReply reply => exact stepSpec_technologiesReply reply hok
  | servicesReply reply saved dev => exact stepSpec_servicesReply reply saved dev hok
  | updateServices changed removed dev =>
    simp only [Event.step, Except.ok.injEq] at hok
    subst hok
    exact StepSpec.of_kept
      ((ReadinessKept.rk_refl s).rk_sameControl (SameControl.sc_refl s).sc_updateServices)
      rfl rfl rfl
  | updateSavedServices changed =>
    simp only [Event.step, Except.ok.injEq] at hok
    subst hok
    exact StepSpec.of_kept
      ((ReadinessKept.rk_refl s).rk_sameControl (SameControl.sc_refl s).sc_updateSavedServices)
      rfl rfl rfl
  | propertyChanged name value dev =>
    simp only [Event.step, Except.ok.injEq] at hok
    subst hok
    exact StepSpec.of_kept (ReadinessKept.rk_propertyChanged name value dev s) rfl rfl rfl
  | technologyAdded technology properties =>
    simp only [Event.step, Except.ok.injEq] at hok
    subst hok
    exact StepSpec.of_kept ⟨rfl, rfl, id⟩ rfl rfl rfl
  | technologyRemoved technology =>
    simp only [Event.step, Except.ok.injEq] at hok
    subst hok
    refine StepSpec.of_kept ?_ rfl rfl rfl
    unfold technologyRemoved
    dsimp only
    split <;> exact ⟨rfl, rfl, id⟩
  | setServicesEnabled enabled =>
    exact StepSpec.of_kept (ReadinessKept.rk_setServicesEnabled enabled hok) rfl rfl rfl
  | setTechnologiesEnabled enabled =>
    exact StepSpec.of_kept (ReadinessKept.rk_setTechnologiesEnabled enabled hok) rfl rfl rfl
  | command c => exact StepSpec.of_kept (ReadinessKept.rk_command c hok) rfl rfl rfl

theorem run_cons_ok {e : Event} {rest : List Event} {s t : NetworkManager}
    (h : run (e :: rest) s = Except.ok t) :
    ∃ s1, e.step s = Except.ok s1 ∧ run rest s1 = Except.ok t := by
  simp only [run] at h
  cases hstep : e.step s with
  | error f => rw [hstep] at h; cases h
  | ok s1 => rw [hstep] at h; exact ⟨s1, rfl, h⟩

theorem run_snoc (pre : List Event) (e : Event) :
    ∀ {s u t : NetworkManager}, run pre s = Except.ok u → e.step u = Except.ok t →
      run (pre ++ [e]) s = Except.ok t := by
  induction pre with
  | nil =>
    intro s u t h1 h2
    simp only [run, Except.ok.injEq] at h1
    subst h1
    simp [run, h2]
  | cons e1 rest ih =>
    intro s u t h1 h2
    obtain ⟨s1, hs1, hr⟩ := run_cons_ok h1
    simp only [List.cons_append, run, hs1]
    exact ih hr h2

/-- The ready flags record the successful replies of the trace. -/
theorem run_flags (evs : List Event) :
    ∀ {s t : NetworkManager}, run evs s = Except.ok t →
      t.technologiesReady = (s.technologiesReady || evs.any Event.reportsTechnologies) ∧
      t.servicesReady = (s.servicesReady || evs.any Event.reportsServices) := by
  induction evs with
  | nil =>
    intro s t h
    simp only [run, Except.ok.injEq] at h
    subst h
    simp
  | cons e rest ih =>
    intro s t h
    obtain ⟨s1, hs1, hr⟩ := run_cons_ok h
    obtain ⟨h1, h2, -⟩ := stepSpec_step e hs1
    obtain ⟨h3, h4⟩ := ih hr
    rw [h3, h4, h1, h2]
    simp [Bool.or_assoc]

/-- An engine that became available did so at a gate step after which the
gate condition held. -/
theorem run_available (evs : List Event) :
    ∀ {s t : NetworkManager}, run evs s = Except.ok t → s.m_available = false →
      t.m_available = true →
      ∃ pre e post u, evs = pre ++ e :: post ∧ e.isGateStep = true ∧
        run (pre ++ [e]) s = Except.ok u ∧ u.m_available = true ∧ gateOpen u := by
  induction evs with
  | nil =>
    intro s t h hs ht
    simp only [run, Except.ok.injEq] at h
    subst h
    rw [hs] at ht
    cases ht
  | cons e rest ih =>
    intro s t h hs ht
    obtain ⟨s1, hs1, hr⟩ := run_cons_ok h
    obtain ⟨-, -, hav⟩ := stepSpec_step e hs1
    cases h1 : s1.m_available with
    | true =>
      obtain ⟨hg, hgo⟩ := (hav hs).mp h1
      exact ⟨[], e, rest, s1, rfl, hg, by simp [run, hs1], h1, hgo⟩
    | false =>
      obtain ⟨pre, e1, post, u, heq, hg, hrun, hu, hgo⟩ := ih hr h1 ht
      refine ⟨e :: pre, e1, post, u, by rw [heq]; rfl, hg, ?_, hu, hgo⟩
      simp only [List.cons_append, run, hs1]
      exact hrun

theorem sinceLastConnect_first_cycle (valid : Bool) (defaultNetDev : String)
    (evs : List Event) (hcycle : ∀ e ∈ evs, e.reconnects = false) :
    sinceLastConnect (Event.connectToConnman valid defaultNetDev :: evs) = evs := by
  have hany : evs.any Event.isConnect = false := by
    rw [List.any_eq_false]
    intro e he
    have := hcycle e he
    cases e <;> simp_all [Event.isConnect, Event.reconnects]
  simp [sinceLastConnect, hany, Event.isConnect]

theorem gateOpen_iff_reported (t : NetworkManager) (evs : List Event)
    (h1 : t.technologiesReady = evs.any Event.reportsTechnologies)
    (h2 : t.servicesReady = evs.any Event.reportsServices) :
    gateOpen t ↔ enabledReported t evs := by
  unfold gateOpen enabledReported
  rw [h1, h2]

theorem connect_fresh (valid v0 : Bool) (defaultNetDev d0 : String) :
    (connectToConnman valid defaultNetDev
        (NetworkManager.construct false v0 d0)).technologiesReady = false ∧
    (connectToConnman valid defaultNetDev
        (NetworkManager.construct false v0 d0)).servicesReady = false ∧
    (connectToConnman valid defaultNetDev
        (NetworkManager.construct false v0 d0)).m_available = false := by
  have h := (ReadinessKept.rk_refl (NetworkManager.construct false v0 d0)).rk_connectToConnman
    valid defaultNetDev
  refine ⟨h.technologiesReady, h.servicesReady, ?_⟩
  cases hav : (connectToConnman valid defaultNetDev
      (NetworkManager.construct false v0 d0)).m_available with
  | false => rfl
  | true =>
    have h2 : false = true := h.available hav
    cases h2

/-- C2, as amended: from construction with the remote service not registered
and within the first connect cycle (no later connect, disconnect or
unregistration), a ready flag is set exactly when its subsystem has reported
since the connect; `available` is true only after a successful reply at which
every enabled subsystem had reported; and an unavailable engine becomes
available exactly at a successful reply after which every enabled subsystem
has reported. -/
theorem availability_first_cycle (valid v0 : Bool) (defaultNetDev d0 : String)
    (evs : List Event) (s : NetworkManager) (hcycle : ∀ e ∈ evs, e.reconnects = false)
    (hrun : run (Event.connectToConnman valid defaultNetDev :: evs)
      (NetworkManager.construct false v0 d0) = Except.ok s) :
    sinceLastConnect (Event.connectToConnman valid defaultNetDev :: evs) = evs ∧
    s.technologiesReady = evs.any Event.reportsTechnologies ∧
    s.servicesReady = evs.any Event.reportsServices ∧
    (s.m_available = true →
      ∃ pre e post u, evs = pre ++ e :: post ∧ e.isGateStep = true ∧
        run (Event.connectToConnman valid defaultNetDev :: (pre ++ [e]))
          (NetworkManager.construct false v0 d0) = Except.ok u ∧
        u.m_available = true ∧ enabledReported u (pre ++ [e])) ∧
    (∀ e t, e.step s = Except.ok t → s.m_available = false →
      (t.m_available = true ↔ (e.isGateStep = true ∧ enabledReported t (evs ++ [e])))) := by
  obtain ⟨hc1, hc2, hc3⟩ := connect_fresh valid v0 defaultNetDev d0
  have hrun2 : run evs (connectToConnman valid defaultNetDev
      (NetworkManager.construct false v0 d0)) = Except.ok s := by
    simpa [run, Event.step] using hrun
  obtain ⟨hf1, hf2⟩ := run_flags evs hrun2
  rw [hc1, Bool.false_or] at hf1
  rw [hc2, Bool.false_or] at hf2
  refine ⟨sinceLastConnect_first_cycle valid defaultNetDev evs hcycle, hf1, hf2, ?_, ?_⟩
  · intro hav
    obtain ⟨pre, e, post, u, heq, hg, hru, hu, hgo⟩ := run_available evs hrun2 hc3 hav
    obtain ⟨hu1, hu2⟩ := run_flags (pre ++ [e]) hru
    rw [hc1, Bool.false_or] at hu1
    rw [hc2, Bool.false_or] at hu2
    refine ⟨pre, e, post, u, heq, hg, ?_, hu, (gateOpen_iff_reported u _ hu1 hu2).mp hgo⟩
    simpa [run, Event.step] using hru
  · intro e t hstep hav
    obtain ⟨h1, h2, h3⟩ := stepSpec_step e hstep
    have ht1 : t.technologiesReady = (evs ++ [e]).any Event.reportsTechnologies := by
      rw [h1, hf1]; simp
    have ht2 : t.servicesReady = (evs ++ [e]).any Event.reportsServices := by
      rw [h2, hf2]; simp
    rw [h3 hav, gateOpen_iff_reported t _ ht1 ht2]

theorem sampleBootstrap_first_cycle : ∀ e ∈ sampleBootstrap, e.reconnects = false := by
  decide

theorem availability_first_cycle_witness :
    (∀ e ∈ sampleBootstrap, e.reconnects = false) ∧
    ∃ s, run (Event.connectToConnman true "eth0" :: sampleBootstrap)
        (NetworkManager.construct false true "") = Except.ok s ∧
      s.m_available = true ∧
      sinceLastConnect (Event.connectToConnman true "eth0" :: sampleBootstrap)
        = sampleBootstrap ∧
      s.technologiesReady = sampleBootstrap.any Event.reportsTechnologies ∧
      s.servicesReady = sampleBootstrap.any Event.reportsServices ∧
      (s.m_available = true →
        ∃ pre e post u, sampleBootstrap = pre ++ e :: post ∧ e.isGateStep = true ∧
          run (Event.connectToConnman true "eth0" :: (pre ++ [e]))
            (NetworkManager.construct false true "") = Except.ok u ∧
          u.m_available = true ∧ enabledReported u (pre ++ [e])) ∧
      (∀ e t, e.step s = Except.ok t → s.m_available = false →
        (t.m_available = true ↔
          (e.isGateStep = true ∧ enabledReported t (sampleBootstrap ++ [e])))) :=
  ⟨sampleBootstrap_first_cycle, _, rfl, rfl,
    availability_first_cycle true true "eth0" "" sampleBootstrap _
      sampleBootstrap_first_cycle rfl⟩

/-- C2 as stated fails: constructed while the remote service is registered,
the engine is available before any reply; and after an unregistration and a
reconnect the properties reply alone makes it available, the ready flags of
the earlier connection still being set. -/
theorem available_before_reports :
    ((NetworkManager.construct true true "").m_available = true ∧
      (NetworkManager.construct true true "").m_technologiesEnabled = true ∧
      (NetworkManager.construct true true "").technologiesReady = false) ∧
    ∃ s, run sampleReconnectTrace (NetworkManager.construct false true "") = Except.ok s ∧
      s.m_available = true ∧ s.m_technologiesEnabled = true ∧ s.m_servicesEnabled = true ∧
      sinceLastConnect sampleReconnectTrace = [Event.propertiesReply (some [])] ∧
      (sinceLastConnect sampleReconnectTrace).any Event.reportsTechnologies = false ∧
      (sinceLastConnect sampleReconnectTrace).any Event.reportsServices = false :=
  ⟨by decide, _, rfl, by decide⟩

/-! ## Every reachable state is well formed -/

theorem WellFormed.wf_sameData {s t : NetworkManager} (h : WellFormed s) (hd : SameData s t) :
    WellFormed t :=
  h.wf_of_eq hd.heap hd.next hd.cache hd.invalidRoute

theorem WellFormed.wf_removeServices {s : NetworkManager} (h : WellFormed s)
    (removed : List String) : WellFormed (removeServices removed s) :=
  removeServices_induct WellFormed removed (fun k _ _ ht => ht.wf_removeService k) s h

theorem WellFormed.wf_updateServices {s : NetworkManager} (h : WellFormed s)
    (changed : List ConnmanObject) (removed : List String) (defaultNetDev : String) :
    WellFormed (updateServices changed removed defaultNetDev s) := by
  have h2 := (h.wf_updateServicesChanged changed defaultNetDev).wf_removeServices removed
  unfold updateServicesChanged at h2
  unfold updateServices
  dsimp only
  split
  · exact (((h2.wf_updateDefaultRoute defaultNetDev).wf_emit _).wf_emit _).wf_emit _
  · exact ((h2.wf_emit _).wf_emit _).wf_emit _

theorem WellFormed.wf_servicesReplyCurrent {s : NetworkManager} (h : WellFormed s)
    (lst : List ConnmanObject) (defaultNetDev : String) :
    WellFormed (servicesReplyCurrent lst defaultNetDev s) := by
  have h1 : WellFormed (servicesReplyLoop defaultNetDev 0 lst { s with m_servicesOrder := [] }) :=
    servicesReplyLoop_induct WellFormed defaultNetDev lst 0
      (fun order obj _ _ _ ht => ht.wf_servicesReplyEntry defaultNetDev order obj) 0 _
      (Nat.le_refl _) (h.wf_of_eq rfl rfl rfl rfl)
  unfold servicesReplyCurrent
  dsimp only
  split
  · exact (h1.wf_updateDefaultRoute defaultNetDev).wf_emit _
  · exact h1.wf_emit _

theorem WellFormed.wf_callsFinished {s : NetworkManager} (h : WellFormed s) :
    WellFormed (callsFinished s) :=
  h.wf_sameData (SameData.sd_callsFinished (SameData.sd_refl s))

theorem WellFormed.wf_servicesReplySaved {s : NetworkManager} (h : WellFormed s)
    (lst : List ConnmanObject) : WellFormed (servicesReplySaved lst s) := by
  have h1 : WellFormed (savedReplyLoop lst { s with m_savedServicesOrder := [] }) :=
    savedReplyLoop_induct WellFormed lst (fun obj _ _ ht => ht.wf_savedReplyEntry obj) _
      (h.wf_of_eq rfl rfl rfl rfl)
  unfold servicesReplySaved
  dsimp only
  apply WellFormed.wf_callsFinished
  exact h1.wf_of_eq rfl rfl rfl rfl

theorem WellFormed.wf_servicesReply {s t : NetworkManager} (h : WellFormed s)
    (reply saved : Option (List ConnmanObject)) (defaultNetDev : String)
    (hok : servicesReply reply saved defaultNetDev s = Except.ok t) : WellFormed t := by
  cases reply with
  | none =>
    simp only [servicesReply, Except.ok.injEq] at hok
    exact hok ▸ h
  | some lst =>
    have h1 := h.wf_servicesReplyCurrent lst defaultNetDev
    unfold servicesReply at hok
    dsimp only at hok
    split at hok
    · cases saved with
      | none =>
        simp only [Except.ok.injEq] at hok
        subst hok
        exact h1.wf_of_eq rfl rfl rfl rfl
      | some savedLst =>
        simp only [Except.ok.injEq] at hok
        subst hok
        have h3 : WellFormed (remoteCall RemoteCall.GetSavedServices
            (servicesReplyCurrent lst defaultNetDev s)) := h1.wf_of_eq rfl rfl rfl rfl
        exact WellFormed.wf_servicesReplySaved h3 savedLst
    · cases hok

theorem WellFormed.wf_connmanUnregistered {s : NetworkManager} (h : WellFormed s) :
    WellFormed (connmanUnregistered s) := by
  have h1 := h.wf_disconnectFromConnman
  unfold connmanUnregistered
  dsimp only
  split
  · exact h1.wf_of_eq rfl rfl rfl rfl
  · exact h1

theorem WellFormed.wf_propertyChanged {s : NetworkManager} (h : WellFormed s) (name : String)
    (value : QVariant) (defaultNetDev : String) :
    WellFormed (propertyChanged name value defaultNetDev s) := by
  unfold propertyChanged
  dsimp only
  repeat' split
  all_goals
    first
    | exact h.wf_of_eq rfl rfl rfl rfl
    | (apply WellFormed.wf_updateDefaultRoute
       exact h.wf_of_eq rfl rfl rfl rfl)

theorem WellFormed.wf_setServicesEnabled {s t : NetworkManager} (h : WellFormed s)
    (enabled : Bool) (hok : setServicesEnabled enabled s = Except.ok t) : WellFormed t := by
  rw [setServicesEnabled_eq] at hok
  have hdis : WellFormed (disconnectServices { s with m_servicesEnabled := enabled }) :=
    WellFormed.wf_disconnectServices (h.wf_of_eq rfl rfl rfl rfl)
  repeat' split at hok
  all_goals
    first
    | (simp only [Except.ok.injEq] at hok
       subst hok
       first
       | exact h
       | exact h.wf_of_eq rfl rfl rfl rfl
       | exact hdis.wf_of_eq rfl rfl rfl rfl)
    | cases hok

theorem WellFormed.wf_construct (registered valid : Bool) (defaultNetDev : String) :
    WellFormed (NetworkManager.construct registered valid defaultNetDev) := by
  have h0 : WellFormed { NetworkManager.initial with m_available := registered } :=
    WellFormed.wf_initial.wf_of_eq rfl rfl rfl rfl
  unfold NetworkManager.construct
  dsimp only
  split
  · exact h0.wf_connectToConnman valid defaultNetDev
  · exact h0

/-- Every event keeps the state well formed. -/
theorem WellFormed.wf_step {s t : NetworkManager} (h : WellFormed s) (e : Event)
    (hok : e.step s = Except.ok t) : WellFormed t := by
  cases e with
  | connectToConnman valid dev =>
    simp only [Event.step, Except.ok.injEq] at hok
    exact hok ▸ h.wf_connectToConnman valid dev
  | connmanUnregistered =>
    simp only [Event.step, Except.ok.injEq] at hok
    exact hok ▸ h.wf_connmanUnregistered
  | disconnectFromConnman =>
    simp only [Event.step, Except.ok.injEq] at hok
    exact hok ▸ h.wf_disconnectFromConnman
  | propertiesReply reply => exact h.wf_sameData (SameData.sd_propertiesReply reply hok)
  | technologiesReply reply => exact h.wf_sameData (SameData.sd_technologiesReply reply hok)
  | servicesReply reply saved dev => exact h.wf_servicesReply reply saved dev hok
  | updateServices changed removed dev =>
    simp only [Event.step, Except.ok.injEq] at hok
    exact hok ▸ h.wf_updateServices changed removed dev
  | updateSavedServices changed =>
    simp only [Event.step, Except.ok.injEq] at hok
    exact hok ▸ h.wf_updateSavedServices changed
  | propertyChanged name value dev =>
    simp only [Event.step, Except.ok.injEq] at hok
    exact hok ▸ h.wf_propertyChanged name value dev
  | technologyAdded technology properties =>
    simp only [Event.step, Except.ok.injEq] at hok
    exact hok ▸ h.wf_sameData (SameData.sd_technologyAdded technology properties s)
  | technologyRemoved technology =>
    simp only [Event.step, Except.ok.injEq] at hok
    exact hok ▸ h.wf_sameData (SameData.sd_technologyRemoved technology s)
  | setServicesEnabled enabled => exact h.wf_setServicesEnabled enabled hok
  | setTechnologiesEnabled enabled =>
    exact h.wf_sameData (SameData.sd_setTechnologiesEnabled enabled hok)
  | command c => exact h.wf_sameData (SameData.sd_command c hok)

/-- Every state reached from construction is well formed. -/
theorem WellFormed.wf_run (evs : List Event) :
    ∀ {s t : NetworkManager}, WellFormed s → run evs s = Except.ok t → WellFormed t := by
  induction evs with
  | nil =>
    intro s t h hok
    simp only [run, Except.ok.injEq] at hok
    exact hok ▸ h
  | cons e rest ih =>
    intro s t h hok
    obtain ⟨s1, hs1, hr⟩ := run_cons_ok hok
    exact ih (h.wf_step e hs1) hr

/-! ## Removal of a path that is not cached -/

theorem removeService_uncached (k : String) (s : NetworkManager)
    (h : hashValue s.m_servicesCache k = none) : removeService k s = s := by
  unfold removeService
  rw [h]

theorem removeService_cache_none (k1 k : String) (s : NetworkManager)
    (h : hashValue s.m_servicesCache k = none) :
    hashValue (removeService k1 s).m_servicesCache k = none := by
  cases hv : hashValue (removeService k1 s).m_servicesCache k with
  | none => rfl
  | some p =>
    rw [removeService_cache_sub k1 k p s hv] at h
    cases h

theorem removeServices_filter (k : String) (removed : List String) :
    ∀ s : NetworkManager, hashValue s.m_servicesCache k = none →
      removeServices removed s
        = removeServices (removed.filter (fun r => decide (r ≠ k))) s := by
  induction removed with
  | nil => intro s _; rfl
  | cons k1 rest ih =>
    intro s h
    by_cases hk : k1 = k
    · subst hk
      simp only [removeServices, removeService_uncached k1 s h, ne_eq, not_true_eq_false,
        decide_False, Bool.false_eq_true, not_false_eq_true, List.filter_cons_of_neg]
      exact ih s h
    · simp only [removeServices, ne_eq, hk, not_false_eq_true, decide_True,
        List.filter_cons_of_pos]
      exact ih _ (removeService_cache_none k1 k s h)

theorem count_emit (sig x : Signal) (s : NetworkManager) :
    (emit sig s).signals.count x = s.signals.count x + (if sig = x then 1 else 0) := by
  by_cases h : sig = x
  · simp [emit, List.count_append, h]
  · simp [emit, List.count_append, h, List.count_singleton]

theorem updateDefaultRoute_count_removed (defaultNetDev k : String) (s : NetworkManager) :
    (updateDefaultRoute defaultNetDev s).signals.count (Signal.serviceRemoved k)
      = s.signals.count (Signal.serviceRemoved k) := by
  unfold updateDefaultRoute ensureInvalidRoute
  repeat' split
  all_goals simp [count_emit, newService]

theorem updateServicesEntry_count_removed (defaultNetDev k : String) (order : Nat)
    (obj : ConnmanObject) (s : NetworkManager) :
    (updateServicesEntry defaultNetDev order obj s).signals.count (Signal.serviceRemoved k)
      = s.signals.count (Signal.serviceRemoved k) := by
  have hr : (reuseOrCreate obj s).signals = s.signals := by
    unfold reuseOrCreate
    split <;> rfl
  unfold updateServicesEntry
  dsimp only
  repeat' split
  all_goals simp [count_emit, updateDefaultRoute_count_removed, hr]

theorem removeService_count_removed (k1 k : String) (s : NetworkManager)
    (h : hashValue s.m_servicesCache k = none) :
    (removeService k1 s).signals.count (Signal.serviceRemoved k)
      = s.signals.count (Signal.serviceRemoved k) := by
  by_cases hk : k1 = k
  · subst hk
    rw [removeService_uncached k1 s h]
  · unfold removeService
    repeat' split
    all_goals simp [count_emit, mergeProperties, deleteLater, hk]

/-- The second loop on its own: a removed path that the cache does not hold
when the removals are processed is ignored: the call ends in the same state,
signals included, as the call without that path in `removed`, and the trace
gains no service-removed signal for it. -/
theorem updateServices_uncached_at_removal (s : NetworkManager)
    (changed : List ConnmanObject) (removed : List String) (defaultNetDev svcPath : String)
    (h : hashValue (updateServicesChanged changed defaultNetDev s).m_servicesCache svcPath
      = none) :
    updateServices changed removed defaultNetDev s
      = updateServices changed (removed.filter (fun r => decide (r ≠ svcPath)))
          defaultNetDev s ∧
    (updateServices changed removed defaultNetDev s).signals.count
        (Signal.serviceRemoved svcPath)
      = s.signals.count (Signal.serviceRemoved svcPath) := by
  unfold updateServicesChanged at h
  constructor
  · unfold updateServices
    dsimp only
    rw [removeServices_filter svcPath removed _ h]
  · have h1 := updateServicesLoop_induct
      (fun t => t.signals.count (Signal.serviceRemoved svcPath)
        = s.signals.count (Signal.serviceRemoved svcPath)) defaultNetDev changed
      (fun order obj t _ ht => (updateServicesEntry_count_removed _ _ order obj t).trans ht)
      0 { s with m_servicesOrder := [] } [] rfl
    have h2 := removeServices_induct
      (fun t => hashValue t.m_servicesCache svcPath = none ∧
        t.signals.count (Signal.serviceRemoved svcPath)
          = s.signals.count (Signal.serviceRemoved svcPath)) removed
      (fun k1 t _ ht => ⟨removeService_cache_none k1 svcPath t ht.1,
        (removeService_count_removed k1 svcPath t ht.1).trans ht.2⟩) _ ⟨h, h1⟩
    unfold updateServices
    dsimp only
    split
    · simp [count_emit, updateDefaultRoute_count_removed, h2.2]
    · simp [count_emit, h2.2]

/-! ## Unregistration -/

theorem deleteAll_heap_mem (l : List (String × Nat)) (k : String) (p : Nat) :
    ∀ s : NetworkManager, (k, p) ∈ l → (deleteAll l s).heap p = none := by
  induction l with
  | nil => intro s h; simp at h
  | cons kv rest ih =>
    intro s h
    obtain ⟨k1, p1⟩ := kv
    simp only [deleteAll]
    rcases List.mem_cons.mp h with h1 | h1
    · cases h1
      exact deleteAll_heap_none rest p _ (by simp [deleteLater])
    · exact ih _ h1

theorem disconnectServices_cache (s : NetworkManager) :
    (disconnectServices s).m_servicesCache = [] ∧
    (disconnectServices s).heap = (deleteAll s.m_servicesCache s).heap := by
  unfold disconnectServices
  dsimp only
  repeat' split
  all_goals exact ⟨rfl, rfl⟩

theorem disconnectTechnologies_services (s : NetworkManager) :
    (disconnectTechnologies s).m_servicesCache = s.m_servicesCache ∧
    (disconnectTechnologies s).heap = s.heap := by
  unfold disconnectTechnologies
  split <;> exact ⟨rfl, rfl⟩

theorem disconnectFromConnman_cache (s : NetworkManager) :
    (disconnectFromConnman s).m_servicesCache = [] ∧
    ∀ k p, (k, p) ∈ s.m_servicesCache → (disconnectFromConnman s).heap p = none := by
  unfold disconnectFromConnman
  refine ⟨(disconnectServices_cache _).1, ?_⟩
  intro k p hkp
  rw [(disconnectServices_cache _).2]
  apply deleteAll_heap_mem _ k
  rw [(disconnectTechnologies_services _).1]
  exact hkp

theorem disconnectFromConnman_lists (s : NetworkManager) :
    (disconnectFromConnman s).m_servicesOrder = [] ∧
    (disconnectFromConnman s).m_savedServicesOrder = [] :=
  disconnectServices_lists _

/-- C12 (counterexample): a favorite record that is cached and saved before the
unregistration is no longer cached after it. -/
theorem connmanUnregistered_drops_saved :
    ∃ s, run sampleConsistentTrace (NetworkManager.construct false true "") = Except.ok s ∧
      hashValue s.m_servicesCache "/wifi0" = some 3 ∧ 3 ∈ s.m_savedServicesOrder ∧
      favoriteOf s 3 = true ∧
      hashValue (connmanUnregistered s).m_servicesCache "/wifi0" = none :=
  ⟨_, rfl, by decide⟩

/-- C12 (amended): after an unregistration arriving in any state `available`
is false, `servicesOrder` and `savedServicesOrder` are empty, `servicesCache`
is empty, and every record the cache held before is destroyed. -/
theorem connmanUnregistered_clears (s : NetworkManager) :
    (connmanUnregistered s).m_available = false ∧
    (connmanUnregistered s).m_servicesOrder = [] ∧
    (connmanUnregistered s).m_savedServicesOrder = [] ∧
    (connmanUnregistered s).m_servicesCache = [] ∧
    s.m_servicesCache.all (fun kv => ((connmanUnregistered s).heap kv.2).isNone) = true := by
  have h1 := disconnectFromConnman_lists s
  have h2 := disconnectFromConnman_cache s
  have h3 : ∀ kv ∈ s.m_servicesCache, (disconnectFromConnman s).heap kv.2 = none :=
    fun kv hkv => h2.2 kv.1 kv.2 hkv
  unfold connmanUnregistered
  dsimp only
  split
  · refine ⟨rfl, h1.1, h1.2, h2.1, ?_⟩
    rw [List.all_eq_true]
    intro kv hkv
    show (((disconnectFromConnman s).heap kv.2).isNone) = true
    rw [h3 kv hkv]
    rfl
  · rename_i hav
    refine ⟨by simpa using hav, h1.1, h1.2, h2.1, ?_⟩
    rw [List.all_eq_true]
    intro kv hkv
    rw [h3 kv hkv]
    rfl

/-! ## The gate, the flags and a disconnect -/

/-- C16: `callsFinished` makes `available` true exactly when each enabled
subsystem is ready and otherwise leaves it as it was, so it never sets it to
false; it emits availability-changed (with `true`) exactly when `available`
flips from false to true, and emits nothing else; the ready flags, the enable
flags and the caches are left alone. -/
theorem callsFinished_gate (s : NetworkManager) :
    (callsFinished s).m_available
      = (s.m_available ||
          ((!s.m_technologiesEnabled || s.technologiesReady) &&
            (!s.m_servicesEnabled || s.servicesReady))) ∧
    (callsFinished s).signals
      = s.signals ++
          (if (!s.m_available && (callsFinished s).m_available) = true
            then [Signal.availabilityChanged true] else []) ∧
    callsFinished s
      = { s with m_available := (callsFinished s).m_available,
                 signals := (callsFinished s).signals } := by
  unfold callsFinished
  cases h1 : s.m_technologiesEnabled <;> cases h2 : s.technologiesReady <;>
    cases h3 : s.m_servicesEnabled <;> cases h4 : s.servicesReady <;>
    cases h5 : s.m_available <;> simp [emit, h1, h2, h3, h4, h5] <;>
    (cases s; simp_all)

theorem disconnectFromConnman_control (s : NetworkManager) :
    (disconnectFromConnman s).servicesReady = s.servicesReady ∧
    (disconnectFromConnman s).technologiesReady = s.technologiesReady ∧
    (disconnectFromConnman s).m_available = s.m_available := by
  have ht : ∀ t : NetworkManager,
      (disconnectTechnologies t).servicesReady = t.servicesReady ∧
      (disconnectTechnologies t).technologiesReady = t.technologiesReady ∧
      (disconnectTechnologies t).m_available = t.m_available := by
    intro t
    unfold disconnectTechnologies
    split <;> exact ⟨rfl, rfl, rfl⟩
  have hs : ∀ t : NetworkManager,
      (disconnectServices t).servicesReady = t.servicesReady ∧
      (disconnectServices t).technologiesReady = t.technologiesReady ∧
      (disconnectServices t).m_available = t.m_available := by
    intro t
    have e := deleteAll_eq t.m_servicesCache t
    unfold disconnectServices
    dsimp only
    rw [e]
    repeat' split
    all_goals exact ⟨rfl, rfl, rfl⟩
  unfold disconnectFromConnman
  obtain ⟨a1, a2, a3⟩ := hs (disconnectTechnologies { s with m_manager := false })
  obtain ⟨b1, b2, b3⟩ := ht { s with m_manager := false }
  exact ⟨a1.trans b1, a2.trans b2, a3.trans b3⟩

/-- C17: `disconnectFromConnman` leaves both ready flags (and `available`) as
they were; after a completed bootstrap both flags are still true once the
engine has disconnected. -/
theorem disconnectFromConnman_keeps_ready :
    (∀ s : NetworkManager,
      (disconnectFromConnman s).servicesReady = s.servicesReady ∧
      (disconnectFromConnman s).technologiesReady = s.technologiesReady ∧
      (disconnectFromConnman s).m_available = s.m_available) ∧
    ∃ s, run sampleBootstrap sampleConnected = Except.ok s ∧
      (disconnectFromConnman s).servicesReady = true ∧
      (disconnectFromConnman s).technologiesReady = true ∧
      (disconnectFromConnman s).m_available = true :=
  ⟨disconnectFromConnman_control, _, rfl, by decide⟩

/-! ## Failed and stale replies -/

theorem updateDefaultRoute_count_available (defaultNetDev : String) (b : Bool)
    (s : NetworkManager) :
    (updateDefaultRoute defaultNetDev s).signals.count (Signal.availabilityChanged b)
      = s.signals.count (Signal.availabilityChanged b) := by
  unfold updateDefaultRoute ensureInvalidRoute
  repeat' split
  all_goals simp [count_emit, newService]

theorem servicesReplyCurrent_frame (lst : List ConnmanObject) (defaultNetDev : String)
    (s : NetworkManager) :
    (servicesReplyCurrent lst defaultNetDev s).m_savedServicesOrder = s.m_savedServicesOrder ∧
    ∀ b, (servicesReplyCurrent lst defaultNetDev s).signals.count (Signal.availabilityChanged b)
      = s.signals.count (Signal.availabilityChanged b) := by
  have hentry : ∀ (order : Nat) (obj : ConnmanObject) (t : NetworkManager),
      (servicesReplyEntry defaultNetDev order obj t).m_savedServicesOrder
        = t.m_savedServicesOrder ∧
      ∀ b, (servicesReplyEntry defaultNetDev order obj t).signals.count
          (Signal.availabilityChanged b) = t.signals.count (Signal.availabilityChanged b) := by
    intro order obj t
    unfold servicesReplyEntry
    dsimp only
    split
    · exact ⟨(updateDefaultRoute_lists _ _).2.2,
        fun b => updateDefaultRoute_count_available _ b _⟩
    · exact ⟨rfl, fun _ => rfl⟩
  have hloop := servicesReplyLoop_induct
    (fun t => t.m_savedServicesOrder = s.m_savedServicesOrder ∧
      ∀ b, t.signals.count (Signal.availabilityChanged b)
        = s.signals.count (Signal.availabilityChanged b)) defaultNetDev lst 0
    (fun order obj t _ _ ht => ⟨(hentry order obj t).1.trans ht.1,
      fun b => ((hentry order obj t).2 b).trans (ht.2 b)⟩)
    0 { s with m_servicesOrder := [] } (Nat.le_refl _) ⟨rfl, fun _ => rfl⟩
  unfold servicesReplyCurrent
  dsimp only
  split
  · refine ⟨((updateDefaultRoute_lists _ _).2.2).trans hloop.1, fun b => ?_⟩
    simp [count_emit, updateDefaultRoute_count_available, hloop.2 b]
  · refine ⟨hloop.1, fun b => ?_⟩
    simp [count_emit, hloop.2 b]

theorem callsFinished_frame (u : NetworkManager) :
    callsFinished u
      = { u with m_available := (callsFinished u).m_available,
                 signals := (callsFinished u).signals } := by
  unfold callsFinished
  split
  · rfl
  · split <;> rfl

/-- C18 (counterexample): when the saved-services call fails after a good
services reply, the services order, the cache and the default route are
already those of the new reply. -/
theorem servicesReply_saved_failure_not_atomic :
    ∃ t, servicesReply (some [sampleOnline]) none "eth0" sampleConnected = Except.ok t ∧
      sampleConnected.m_servicesOrder = [] ∧ t.m_servicesOrder = [1] ∧
      hashValue sampleConnected.m_servicesCache "/online" = none ∧
      hashValue t.m_servicesCache "/online" = some 1 ∧
      sampleConnected.m_defaultRoute = some 0 ∧ t.m_defaultRoute = some 1 :=
  ⟨_, rfl, by decide⟩

/-- C18 (amended): with the manager handle set, a failed services reply leaves
the engine as it was; a failed saved-services call after a good services reply
ends the handler in the state reached by listing the current services and
issuing the call: `servicesReady`, `available` and `savedServicesOrder` are as
before and no availability-changed signal is emitted, while `servicesCache`,
`servicesOrder` and `defaultRoute` are the ones the good reply produced (the
state from which a good saved reply would have continued). -/
theorem servicesReply_failure (s : NetworkManager) (lst : List ConnmanObject)
    (saved : Option (List ConnmanObject)) (defaultNetDev : String)
    (hm : s.m_manager = true) :
    servicesReply none saved defaultNetDev s = Except.ok s ∧
    ∃ t, servicesReply (some lst) none defaultNetDev s = Except.ok t ∧
      t.servicesReady = s.servicesReady ∧ t.technologiesReady = s.technologiesReady ∧
      t.m_available = s.m_available ∧
      t.m_savedServicesOrder = s.m_savedServicesOrder ∧
      (∀ b, t.signals.count (Signal.availabilityChanged b)
        = s.signals.count (Signal.availabilityChanged b)) ∧
      t = remoteCall RemoteCall.GetSavedServices (servicesReplyCurrent lst defaultNetDev s) ∧
      ∀ savedLst, servicesReply (some lst) (some savedLst) defaultNetDev s
        = Except.ok (servicesReplySaved savedLst t) := by
  have hc : SameControl s (servicesReplyCurrent lst defaultNetDev s) :=
    SameControl.sc_servicesReplyCurrent (SameControl.sc_refl s)
  have hf := servicesReplyCurrent_frame lst defaultNetDev s
  have hm1 : (servicesReplyCurrent lst defaultNetDev s).m_manager = true :=
    hc.manager.trans hm
  refine ⟨rfl, remoteCall RemoteCall.GetSavedServices (servicesReplyCurrent lst defaultNetDev s),
    ?_, hc.servicesReady, hc.technologiesReady, hc.available, hf.1, hf.2, rfl, ?_⟩
  · simp [servicesReply, hm1]
  · intro savedLst
    simp [servicesReply, hm1]

theorem servicesReply_failure_witness :
    sampleConnected.m_manager = true ∧
    servicesReply none none "eth0" sampleConnected = Except.ok sampleConnected ∧
    ∃ t, servicesReply (some [sampleOnline]) none "eth0" sampleConnected = Except.ok t ∧
      t.servicesReady = sampleConnected.servicesReady ∧
      t.technologiesReady = sampleConnected.technologiesReady ∧
      t.m_available = sampleConnected.m_available ∧
      t.m_savedServicesOrder = sampleConnected.m_savedServicesOrder ∧
      (∀ b, t.signals.count (Signal.availabilityChanged b)
        = sampleConnected.signals.count (Signal.availabilityChanged b)) ∧
      t = remoteCall RemoteCall.GetSavedServices
        (servicesReplyCurrent [sampleOnline] "eth0" sampleConnected) ∧
      ∀ savedLst, servicesReply (some [sampleOnline]) (some savedLst) "eth0" sampleConnected
        = Except.ok (servicesReplySaved savedLst t) :=
  ⟨rfl, servicesReply_failure sampleConnected [sampleOnline] none "eth0" rfl⟩

/-- C20: a reply handler has no test of the manager handle.  On a disconnected
engine a good properties reply (technologies enabled) and a good technologies
reply (services enabled) and a good services reply stop at the null handle;
the properties reply with both subsystems disabled is processed and makes the
engine available, and the technologies reply with services disabled is
processed and sets `technologiesReady`. -/
theorem reply_after_disconnect_not_discarded (s : NetworkManager) (props : QVariantMap)
    (lst : List ConnmanObject) (saved : Option (List ConnmanObject)) (defaultNetDev : String) :
    (disconnectFromConnman s).m_manager = false ∧
    propertiesReply (some props)
        { disconnectFromConnman s with m_technologiesEnabled := true }
      = Except.error Fault.nullManager ∧
    technologiesReply (some lst) { disconnectFromConnman s with m_servicesEnabled := true }
      = Except.error Fault.nullManager ∧
    servicesReply (some lst) saved defaultNetDev (disconnectFromConnman s)
      = Except.error Fault.nullManager ∧
    (∃ t, propertiesReply (some props)
        { disconnectFromConnman s with
          m_technologiesEnabled := false, m_servicesEnabled := false } = Except.ok t ∧
      t.m_available = true ∧ t.m_propertiesCache = props) ∧
    (∃ t, technologiesReply (some lst)
        { disconnectFromConnman s with m_servicesEnabled := false } = Except.ok t ∧
      t.technologiesReady = true ∧
      t.m_technologiesCache
        = technologiesReplyLoop lst (disconnectFromConnman s).m_technologiesCache) := by
  have hm := disconnectFromConnman_manager s
  have hc : (servicesReplyCurrent lst defaultNetDev (disconnectFromConnman s)).m_manager
      = false :=
    (SameControl.sc_servicesReplyCurrent (SameControl.sc_refl _)).manager.trans hm
  refine ⟨hm, ?_, ?_, ?_, ?_, ?_⟩
  · simp [propertiesReply, setupTechnologies, emit, hm]
  · simp [technologiesReply, setupServices, emit, hm]
  · simp [servicesReply, hc]
  · refine ⟨callsFinished (emit (Signal.stateChanged (propertyString props "State"))
        { disconnectFromConnman s with
          m_technologiesEnabled := false, m_servicesEnabled := false,
          m_propertiesCache := props }), ?_, ?_, ?_⟩
    · rw [propertiesReply_some]
      rfl
    · rw [(callsFinished_spec _).2.2.2.2]
      refine Or.inr ?_
      unfold gateOpen
      exact ⟨fun h => absurd h (by simp [emit]), fun h => absurd h (by simp [emit])⟩
    · exact (congrArg NetworkManager.m_propertiesCache (callsFinished_frame _)).trans rfl
  · refine ⟨callsFinished
        { emit Signal.technologiesChanged
            { disconnectFromConnman s with
              m_servicesEnabled := false,
              m_technologiesCache :=
                technologiesReplyLoop lst (disconnectFromConnman s).m_technologiesCache }
          with technologiesReady := true }, ?_, ?_, ?_⟩
    · rw [technologiesReply_some]
      rfl
    · exact (callsFinished_spec _).1.trans rfl
    · exact (congrArg NetworkManager.m_technologiesCache (callsFinished_frame _)).trans rfl

/-! ## Selection of the default route -/

theorem scanRoute_eq_find (s : NetworkManager) (defaultNetDev : String) (l : List Nat) :
    scanRoute s defaultNetDev l = l.find? (routeCandidate s defaultNetDev) := by
  induction l with
  | nil => rfl
  | cons q rest ih =>
    by_cases hq : routeCandidate s defaultNetDev q = true
    · simp [scanRoute, hq]
    · simp [scanRoute, hq, ih]

theorem sampleUnnamedListed_wellFormed : WellFormed sampleUnnamedListed :=
  sampleConnected_wellFormed.wf_updateServices _ _ _

/-- C13 (counterexample): the routing probe finds no interface (the empty
name), the default route is the sentinel, and `updateDefaultRoute` replaces it
by the online service whose interface name is empty. -/
theorem updateDefaultRoute_empty_probe_selects_service :
    sampleUnnamedListed.m_servicesOrder = [1, 2] ∧
    sampleUnnamedListed.m_defaultRoute = some 0 ∧
    sampleUnnamedListed.m_invalidDefaultRoute = some 0 ∧
    (updateDefaultRoute "" sampleUnnamedListed).m_defaultRoute = some 2 ∧
    (updateDefaultRoute "" sampleUnnamedListed).m_invalidDefaultRoute = some 0 ∧
    pathOf (updateDefaultRoute "" sampleUnnamedListed) 2 = "/unnamed" := by
  decide

/-- C13 (amended): in a well-formed state, with the probe's answer read as an
interface name (the empty name when it found none), `updateDefaultRoute` sets
`defaultRoute` to the first record of `servicesOrder` whose state is `online`
or `ready` and whose interface-name property equals that name, leaving the
records as they are, and to the sentinel record (path `"/"`, no properties)
when no record of `servicesOrder` passes that test. -/
theorem updateDefaultRoute_selects (s : NetworkManager) (defaultNetDev : String)
    (hwf : WellFormed s) :
    match s.m_servicesOrder.find? (routeCandidate s defaultNetDev) with
    | some p =>
      (updateDefaultRoute defaultNetDev s).m_defaultRoute = some p ∧
      (updateDefaultRoute defaultNetDev s).heap = s.heap ∧
      (stateOf s p = "online" ∨ stateOf s p = "ready") ∧
      interfaceOf s p = some (QVariant.str defaultNetDev)
    | none => IsSentinelRoute (updateDefaultRoute defaultNetDev s) := by
  have hscan : scanRoute s defaultNetDev (getServices "" s)
      = s.m_servicesOrder.find? (routeCandidate s defaultNetDev) := by
    rw [getServices_all, scanRoute_eq_find]
  cases hf : s.m_servicesOrder.find? (routeCandidate s defaultNetDev) with
  | none =>
    rw [hf] at hscan
    exact updateDefaultRoute_sentinel defaultNetDev s hwf hscan
  | some p =>
    rw [hf] at hscan
    obtain ⟨h1, h2, -, -⟩ := updateDefaultRoute_match defaultNetDev s p hscan
    have hc : routeCandidate s defaultNetDev p = true := by
      have := List.find?_some hf
      exact this
    unfold routeCandidate at hc
    simp only [Bool.and_eq_true, Bool.or_eq_true, decide_eq_true_eq] at hc
    exact ⟨h1, h2, hc.1, hc.2⟩

theorem updateDefaultRoute_selects_witness :
    WellFormed sampleUnnamedListed ∧
    match sampleUnnamedListed.m_servicesOrder.find?
        (routeCandidate sampleUnnamedListed "eth0") with
    | some p =>
      (updateDefaultRoute "eth0" sampleUnnamedListed).m_defaultRoute = some p ∧
      (updateDefaultRoute "eth0" sampleUnnamedListed).heap = sampleUnnamedListed.heap ∧
      (stateOf sampleUnnamedListed p = "online" ∨ stateOf sampleUnnamedListed p = "ready") ∧
      interfaceOf sampleUnnamedListed p = some (QVariant.str "eth0")
    | none => IsSentinelRoute (updateDefaultRoute "eth0" sampleUnnamedListed) :=
  ⟨sampleUnnamedListed_wellFormed,
    updateDefaultRoute_selects sampleUnnamedListed "eth0" sampleUnnamedListed_wellFormed⟩

/-! ## The order list and the path list of an incremental update -/

theorem reuseOrCreate_pathOf (s : NetworkManager) (obj : ConnmanObject)
    (q : Nat) (hq : q < s.next) : pathOf (reuseOrCreate obj s) q = pathOf s q := by
  unfold reuseOrCreate pathOf
  cases hv : hashValue s.m_servicesCache obj.objpath with
  | none =>
    have hne : q ≠ s.next := Nat.ne_of_lt hq
    simp [newService, hne]
  | some p =>
    by_cases hqp : q = p
    · subst hqp
      cases hh : s.heap q <;> simp [mergeProperties, hh, NetworkService.updateProperties]
    · simp [mergeProperties, hqp]

theorem reuseOrCreate_pathOf_ptr {s : NetworkManager} (hwf : WellFormed s)
    (obj : ConnmanObject) :
    pathOf (reuseOrCreate obj s) (servicePtr s obj.objpath) = obj.objpath := by
  unfold reuseOrCreate pathOf servicePtr
  cases hv : hashValue s.m_servicesCache obj.objpath with
  | none => simp [newService]
  | some p =>
    obtain ⟨r, hr, hp⟩ := hwf.cached _ _ (hashValue_mem _ _ _ hv)
    simp [mergeProperties, hr, NetworkService.updateProperties, hp]

theorem updateServicesEntry_pathOf {s : NetworkManager} (hwf : WellFormed s)
    (defaultNetDev : String) (order : Nat) (obj : ConnmanObject) :
    (∀ q, q < s.next →
      pathOf (updateServicesEntry defaultNetDev order obj s) q = pathOf s q) ∧
    pathOf (updateServicesEntry defaultNetDev order obj s) (servicePtr s obj.objpath)
      = obj.objpath := by
  have hp : ∀ q, q < (reuseOrCreate obj s).next →
      pathOf (updateServicesEntry defaultNetDev order obj s) q
        = pathOf (reuseOrCreate obj s) q := by
    intro q hq
    unfold pathOf
    rw [updateServicesEntry_heap defaultNetDev order obj s q hq]
  constructor
  · intro q hq
    rw [hp q (Nat.lt_of_lt_of_le hq (reuseOrCreate_fields obj s).2.2.2.2)]
    exact reuseOrCreate_pathOf s obj q hq
  · rw [hp _ (reuseOrCreate_ptr_lt obj s hwf)]
    exact reuseOrCreate_pathOf_ptr hwf obj

theorem updateServicesLoop_paths (defaultNetDev : String) (changed : List ConnmanObject) :
    ∀ (order : Nat) (s : NetworkManager) (l : List String), WellFormed s →
      (∀ p ∈ s.m_servicesOrder, p < s.next) →
      (updateServicesLoop defaultNetDev order changed s l).2
        = l ++ changed.map ConnmanObject.objpath ∧
      (updateServicesLoop defaultNetDev order changed s l).1.m_servicesOrder.map
          (pathOf (updateServicesLoop defaultNetDev order changed s l).1)
        = s.m_servicesOrder.map (pathOf s) ++ changed.map ConnmanObject.objpath := by
  induction changed with
  | nil => intro order s l _ _; simp [updateServicesLoop]
  | cons obj rest ih =>
    intro order s l hwf hlt
    have hpath := updateServicesEntry_pathOf hwf defaultNetDev order obj
    have hnext : s.next ≤ (updateServicesEntry defaultNetDev order obj s).next :=
      le_trans (reuseOrCreate_fields obj s).2.2.2.2 (updateServicesEntry_next _ _ _ _)
    have hptr : servicePtr s obj.objpath
        < (updateServicesEntry defaultNetDev order obj s).next :=
      Nat.lt_of_lt_of_le (reuseOrCreate_ptr_lt obj s hwf) (updateServicesEntry_next _ _ _ _)
    have hlt1 : ∀ p ∈ (updateServicesEntry defaultNetDev order obj s).m_servicesOrder,
        p < (updateServicesEntry defaultNetDev order obj s).next := by
      intro p hp
      rw [updateServicesEntry_order] at hp
      rcases List.mem_append.mp hp with hp | hp
      · exact Nat.lt_of_lt_of_le (hlt p hp) hnext
      · simp only [List.mem_singleton] at hp
        rw [hp]
        exact hptr
    obtain ⟨h1, h2⟩ := ih (order + 1) (updateServicesEntry defaultNetDev order obj s)
      (l ++ [pathOf (updateServicesEntry defaultNetDev order obj s) (servicePtr s obj.objpath)])
      (hwf.wf_updateServicesEntry defaultNetDev order obj) hlt1
    simp only [updateServicesLoop]
    constructor
    · rw [h1, hpath.2]
      simp
    · rw [h2, updateServicesEntry_order, List.map_append, List.map_singleton, hpath.2]
      have hold : s.m_servicesOrder.map
            (pathOf (updateServicesEntry defaultNetDev order obj s))
          = s.m_servicesOrder.map (pathOf s) :=
        List.map_congr_left (fun p hp => hpath.1 p (hlt p hp))
      rw [hold]
      simp

theorem updateServices_order (changed : List ConnmanObject) (removed : List String)
    (defaultNetDev : String) (s : NetworkManager) :
    (updateServices changed removed defaultNetDev s).m_servicesOrder
      = (updateServicesChanged changed defaultNetDev s).m_servicesOrder := by
  unfold updateServices updateServicesChanged
  dsimp only
  split
  · simp only [emit]
    rw [(updateDefaultRoute_lists _ _).2.1, (removeServices_order _ _).1]
  · simp only [emit]
    rw [(removeServices_order _ _).1]

theorem removeService_path (k : String) (s : NetworkManager) (q : Nat) (r : NetworkService)
    (h : (removeService k s).heap q = some r) : pathOf s q = r.path := by
  unfold removeService at h
  unfold pathOf
  split at h
  · rename_i service hv
    split at h
    · by_cases hq : q = service
      · subst hq
        cases hh : s.heap q with
        | none => simp [emit, mergeProperties, hh] at h
        | some r0 =>
          simp [emit, mergeProperties, hh] at h
          subst h
          simp [NetworkService.updateProperties]
      · simp [emit, mergeProperties, hq] at h
        rw [h]
    · by_cases hq : q = service
      · simp [emit, deleteLater, hq] at h
      · simp [emit, deleteLater, hq] at h
        rw [h]
  · rw [h]

theorem removeService_heap_none (k : String) (s : NetworkManager) (q : Nat)
    (h : s.heap q = none) : (removeService k s).heap q = none := by
  unfold removeService
  split
  · rename_i service hv
    split
    · by_cases hq : q = service
      · subst hq
        simp [emit, mergeProperties, h]
      · simp [emit, mergeProperties, hq, h]
    · by_cases hq : q = service
      · simp [emit, deleteLater, hq]
      · simp [emit, deleteLater, hq, h]
  · exact h

theorem removeServices_path (removed : List String) (q : Nat) (r : NetworkService) :
    ∀ s : NetworkManager, (removeServices removed s).heap q = some r → pathOf s q = r.path := by
  induction removed with
  | nil => intro s h; simp only [removeServices] at h; unfold pathOf; rw [h]
  | cons k rest ih =>
    intro s h
    simp only [removeServices] at h
    have h1 := ih _ h
    cases hh : (removeService k s).heap q with
    | none =>
      exfalso
      have hnone := removeServices_induct (fun t => t.heap q = none) rest
        (fun k1 t _ ht => removeService_heap_none k1 t q ht) _ hh
      rw [hnone] at h
      cases h
    | some r1 =>
      unfold pathOf at h1
      rw [hh] at h1
      rw [removeService_path k s q r1 hh]
      exact h1

/-- C14: after `updateServices(changed, removed)` in a well-formed state the
records of `servicesOrder` are those listed by the changed entries, nothing
being carried over from the previous order: their paths, read when the rebuild
is done (a record that the removed loop hands to `deleteLater` is destroyed
only later), are the paths of `changed` in the order delivered, and a record
still live at the end has that same path; the call ends by emitting
services-changed, services-list-changed with exactly that path list, and
saved-services-changed. -/
theorem updateServices_order_paths (s : NetworkManager) (changed : List ConnmanObject)
    (removed : List String) (defaultNetDev : String) (hwf : WellFormed s) :
    (updateServices changed removed defaultNetDev s).m_servicesOrder.map
        (pathOf (updateServicesChanged changed defaultNetDev s))
      = changed.map ConnmanObject.objpath ∧
    (∀ p ∈ (updateServices changed removed defaultNetDev s).m_servicesOrder,
      ∀ r, (updateServices changed removed defaultNetDev s).heap p = some r →
        r.path = pathOf (updateServicesChanged changed defaultNetDev s) p) ∧
    ∃ pre, (updateServices changed removed defaultNetDev s).signals
      = pre ++ [Signal.servicesChanged,
          Signal.servicesListChanged (changed.map ConnmanObject.objpath),
          Signal.savedServicesChanged] := by
  have hl := updateServicesLoop_paths defaultNetDev changed 0
    { s with m_servicesOrder := [] } [] (hwf.wf_of_eq rfl rfl rfl rfl)
    (fun p hp => by simp at hp)
  refine ⟨?_, ?_, ?_⟩
  · rw [updateServices_order]
    unfold updateServicesChanged
    rw [hl.2]
    simp
  · intro p hp r hr
    by_cases hc : changed = []
    · subst hc
      rw [updateServices_order] at hp
      simp [updateServicesChanged, updateServicesLoop] at hp
    · unfold updateServices at hr
      simp only [hc, if_false, emit] at hr
      exact (removeServices_path removed p r _ hr).symm
  · have hl1 := hl.1
    rw [List.nil_append] at hl1
    refine ⟨(if changed = [] then
        updateDefaultRoute defaultNetDev
          (removeServices removed (updateServicesChanged changed defaultNetDev s))
      else removeServices removed (updateServicesChanged changed defaultNetDev s)).signals, ?_⟩
    unfold updateServices updateServicesChanged
    dsimp only
    rw [hl1]
    simp [emit]

theorem updateServices_order_paths_witness :
    WellFormed sampleConnected ∧
    (updateServices [sampleOnline, sampleIdle] ["/online"] "eth0"
        sampleConnected).m_servicesOrder.map
        (pathOf (updateServicesChanged [sampleOnline, sampleIdle] "eth0" sampleConnected))
      = [sampleOnline, sampleIdle].map ConnmanObject.objpath ∧
    (∀ p ∈ (updateServices [sampleOnline, sampleIdle] ["/online"] "eth0"
        sampleConnected).m_servicesOrder,
      ∀ r, (updateServices [sampleOnline, sampleIdle] ["/online"] "eth0"
        sampleConnected).heap p = some r →
        r.path = pathOf (updateServicesChanged [sampleOnline, sampleIdle] "eth0"
          sampleConnected) p) ∧
    ∃ pre, (updateServices [sampleOnline, sampleIdle] ["/online"] "eth0"
        sampleConnected).signals
      = pre ++ [Signal.servicesChanged,
          Signal.servicesListChanged ([sampleOnline, sampleIdle].map ConnmanObject.objpath),
          Signal.savedServicesChanged] :=
  ⟨sampleConnected_wellFormed,
    updateServices_order_paths sampleConnected [sampleOnline, sampleIdle] ["/online"] "eth0"
      sampleConnected_wellFormed⟩

/-! ## When `serviceAdded` is emitted -/

theorem updateServicesEntry_eq (defaultNetDev : String) (order : Nat) (obj : ConnmanObject)
    (s : NetworkManager) :
    updateServicesEntry defaultNetDev order obj s
      = if (hashValue s.m_servicesCache obj.objpath).isNone then
          emit (Signal.serviceAdded obj.objpath)
            (updateServicesEntryListed defaultNetDev order obj s)
        else updateServicesEntryListed defaultNetDev order obj s := rfl

theorem updateServicesEntry_listed (defaultNetDev : String) (order : Nat) (obj : ConnmanObject)
    (s : NetworkManager) :
    updateServicesEntry defaultNetDev order obj s
      = { updateServicesEntryListed defaultNetDev order obj s with
          signals := (updateServicesEntry defaultNetDev order obj s).signals } := by
  rw [updateServicesEntry_eq]
  split <;> rfl

theorem updateServicesLoop_append (defaultNetDev : String) (pre rest : List ConnmanObject) :
    ∀ (order : Nat) (s : NetworkManager) (l : List String),
      updateServicesLoop defaultNetDev order (pre ++ rest) s l
        = updateServicesLoop defaultNetDev (order + pre.length) rest
            (updateServicesLoop defaultNetDev order pre s l).1
            (updateServicesLoop defaultNetDev order pre s l).2 := by
  induction pre with
  | nil => intro order s l; rfl
  | cons obj pre1 ih =>
    intro order s l
    have e : order + 1 + pre1.length = order + (obj :: pre1).length := by
      simp only [List.length_cons]; omega
    show updateServicesLoop defaultNetDev (order + 1) (pre1 ++ rest) _ _ = _
    rw [ih, e]
    rfl

theorem updateServicesLoop_order_ext (defaultNetDev : String) (changed : List ConnmanObject) :
    ∀ (order : Nat) (s : NetworkManager) (l : List String),
      ∃ ext, (updateServicesLoop defaultNetDev order changed s l).1.m_servicesOrder
          = s.m_servicesOrder ++ ext ∧ ext.length = changed.length := by
  induction changed with
  | nil => intro order s l; exact ⟨[], by simp [updateServicesLoop], rfl⟩
  | cons obj rest ih =>
    intro order s l
    obtain ⟨ext, h1, h2⟩ := ih (order + 1) (updateServicesEntry defaultNetDev order obj s)
      (l ++ [pathOf (updateServicesEntry defaultNetDev order obj s) (servicePtr s obj.objpath)])
    refine ⟨servicePtr s obj.objpath :: ext, ?_, by simp [h2]⟩
    simp only [updateServicesLoop]
    rw [h1, updateServicesEntry_order]
    simp

theorem updateServicesEntryListed_fields (defaultNetDev : String) (order : Nat)
    (obj : ConnmanObject) (s : NetworkManager) :
    (updateServicesEntryListed defaultNetDev order obj s).m_servicesOrder
      = s.m_servicesOrder ++ [servicePtr s obj.objpath] ∧
    hashValue (updateServicesEntryListed defaultNetDev order obj s).m_servicesCache obj.objpath
      = some (servicePtr s obj.objpath) ∧
    (updateServicesEntryListed defaultNetDev order obj s).heap
      = (updateServicesEntry defaultNetDev order obj s).heap := by
  have e := updateServicesEntry_listed defaultNetDev order obj s
  have h1 := updateServicesEntry_order defaultNetDev order obj s
  have h2 := updateServicesEntry_cache defaultNetDev order obj s obj.objpath
  rw [e] at h1 h2
  refine ⟨h1, ?_, ?_⟩
  · simpa using h2
  · rw [e]

theorem reuseOrCreate_new (obj : ConnmanObject) (s : NetworkManager)
    (h : hashValue s.m_servicesCache obj.objpath = none) :
    servicePtr s obj.objpath = s.next ∧
    (reuseOrCreate obj s).heap s.next
      = some { path := obj.objpath, props := obj.properties } ∧
    (reuseOrCreate obj s).next = s.next + 1 := by
  unfold servicePtr reuseOrCreate
  rw [h]
  simp [newService]

/-- C19 (counterexample): two new services are listed; when `serviceAdded` is
emitted for the first one, `servicesOrder` holds one record, and two when the
call returns. -/
theorem serviceAdded_before_rebuild_complete :
    updateServicesEntry "eth0" 0 sampleOnline { sampleConnected with m_servicesOrder := [] }
      = emit (Signal.serviceAdded "/online")
          (updateServicesEntryListed "eth0" 0 sampleOnline
            { sampleConnected with m_servicesOrder := [] }) ∧
    (updateServicesEntryListed "eth0" 0 sampleOnline
      { sampleConnected with m_servicesOrder := [] }).m_servicesOrder = [1] ∧
    (updateServices [sampleOnline, sampleIdle] [] "eth0" sampleConnected).m_servicesOrder
      = [1, 2] :=
  ⟨rfl, by decide, by decide⟩

/-- C19 (amended): when an entry of `changed` leads to a freshly created record
(its path is not cached once the entries before it are processed),
`serviceAdded` is emitted within that entry's iteration, before the entries
after it are processed: at the moment of emission `servicesOrder` is the part
of its final value up to and including the new record, which is its last
element, and `servicesCache` maps the path to that record, which is live and
carries the entry's path and properties. -/
theorem serviceAdded_emitted_after_push (s : NetworkManager) (pre post : List ConnmanObject)
    (obj : ConnmanObject) (removed : List String) (defaultNetDev : String)
    (hnew : hashValue (updateServicesChanged pre defaultNetDev s).m_servicesCache obj.objpath
      = none) :
    (∃ l, updateServicesChanged (pre ++ obj :: post) defaultNetDev s
      = (updateServicesLoop defaultNetDev (pre.length + 1) post
          (emit (Signal.serviceAdded obj.objpath)
            (updateServicesEntryListed defaultNetDev pre.length obj
              (updateServicesChanged pre defaultNetDev s))) l).1) ∧
    (updateServicesEntryListed defaultNetDev pre.length obj
        (updateServicesChanged pre defaultNetDev s)).m_servicesOrder
      = (updateServices (pre ++ obj :: post) removed defaultNetDev s).m_servicesOrder.take
          (pre.length + 1) ∧
    (updateServices (pre ++ obj :: post) removed defaultNetDev s).m_servicesOrder.length
      = pre.length + 1 + post.length ∧
    (updateServicesEntryListed defaultNetDev pre.length obj
        (updateServicesChanged pre defaultNetDev s)).m_servicesOrder.getLast?
      = some (updateServicesChanged pre defaultNetDev s).next ∧
    hashValue (updateServicesEntryListed defaultNetDev pre.length obj
        (updateServicesChanged pre defaultNetDev s)).m_servicesCache obj.objpath
      = some (updateServicesChanged pre defaultNetDev s).next ∧
    (updateServicesEntryListed defaultNetDev pre.length obj
        (updateServicesChanged pre defaultNetDev s)).heap
        (updateServicesChanged pre defaultNetDev s).next
      = some { path := obj.objpath, props := obj.properties } := by
  obtain ⟨hptr, hheap, hnext⟩ := reuseOrCreate_new obj _ hnew
  obtain ⟨f1, f2, f3⟩ := updateServicesEntryListed_fields defaultNetDev pre.length obj
    (updateServicesChanged pre defaultNetDev s)
  rw [hptr] at f1 f2
  have hsplit : updateServicesLoop defaultNetDev 0 (pre ++ obj :: post)
        { s with m_servicesOrder := [] } []
      = updateServicesLoop defaultNetDev (pre.length + 1) post
          (emit (Signal.serviceAdded obj.objpath)
            (updateServicesEntryListed defaultNetDev pre.length obj
              (updateServicesChanged pre defaultNetDev s)))
          ((updateServicesLoop defaultNetDev 0 pre { s with m_servicesOrder := [] } []).2 ++
            [pathOf (updateServicesEntry defaultNetDev pre.length obj
                (updateServicesChanged pre defaultNetDev s))
              (servicePtr (updateServicesChanged pre defaultNetDev s) obj.objpath)]) := by
    rw [updateServicesLoop_append, Nat.zero_add]
    have e := updateServicesEntry_eq defaultNetDev pre.length obj
      (updateServicesChanged pre defaultNetDev s)
    rw [hnew] at e
    simp only [Option.isNone_none, if_true] at e
    rw [← e]
    rfl
  obtain ⟨ext0, g1, g2⟩ := updateServicesLoop_order_ext defaultNetDev pre 0
    { s with m_servicesOrder := [] } []
  have hu : (updateServicesChanged pre defaultNetDev s).m_servicesOrder.length = pre.length := by
    unfold updateServicesChanged
    rw [g1]
    simpa using g2
  obtain ⟨ext, k1, k2⟩ := updateServicesLoop_order_ext defaultNetDev post (pre.length + 1)
    (emit (Signal.serviceAdded obj.objpath)
      (updateServicesEntryListed defaultNetDev pre.length obj
        (updateServicesChanged pre defaultNetDev s)))
    ((updateServicesLoop defaultNetDev 0 pre { s with m_servicesOrder := [] } []).2 ++
      [pathOf (updateServicesEntry defaultNetDev pre.length obj
          (updateServicesChanged pre defaultNetDev s))
        (servicePtr (updateServicesChanged pre defaultNetDev s) obj.objpath)])
  have hfinal : (updateServices (pre ++ obj :: post) removed defaultNetDev s).m_servicesOrder
      = (updateServicesEntryListed defaultNetDev pre.length obj
          (updateServicesChanged pre defaultNetDev s)).m_servicesOrder ++ ext := by
    rw [updateServices_order]
    unfold updateServicesChanged
    rw [hsplit, k1]
    rfl
  have hlen : (updateServicesEntryListed defaultNetDev pre.length obj
      (updateServicesChanged pre defaultNetDev s)).m_servicesOrder.length = pre.length + 1 := by
    rw [f1]
    simp [hu]
  refine ⟨⟨_, congrArg Prod.fst hsplit⟩, ?_, ?_, ?_, f2, ?_⟩
  · rw [hfinal, List.take_left' hlen]
  · rw [hfinal, List.length_append, hlen, k2]
  · rw [f1]
    simp
  · rw [f3, updateServicesEntry_heap _ _ _ _ _ (by rw [hnext]; exact Nat.lt_succ_self _)]
    exact hheap

theorem serviceAdded_emitted_after_push_witness :
    hashValue (updateServicesChanged [sampleOnline] "eth0" sampleConnected).m_servicesCache
        sampleIdle.objpath = none ∧
    (∃ l, updateServicesChanged ([sampleOnline] ++ sampleIdle :: [sampleWifi]) "eth0"
        sampleConnected
      = (updateServicesLoop "eth0" ([sampleOnline].length + 1) [sampleWifi]
          (emit (Signal.serviceAdded sampleIdle.objpath)
            (updateServicesEntryListed "eth0" [sampleOnline].length sampleIdle
              (updateServicesChanged [sampleOnline] "eth0" sampleConnected))) l).1) ∧
    (updateServicesEntryListed "eth0" [sampleOnline].length sampleIdle
        (updateServicesChanged [sampleOnline] "eth0" sampleConnected)).m_servicesOrder
      = (updateServices ([sampleOnline] ++ sampleIdle :: [sampleWifi]) [] "eth0"
          sampleConnected).m_servicesOrder.take ([sampleOnline].length + 1) ∧
    (updateServices ([sampleOnline] ++ sampleIdle :: [sampleWifi]) [] "eth0"
        sampleConnected).m_servicesOrder.length
      = [sampleOnline].length + 1 + [sampleWifi].length ∧
    (updateServicesEntryListed "eth0" [sampleOnline].length sampleIdle
        (updateServicesChanged [sampleOnline] "eth0" sampleConnected)).m_servicesOrder.getLast?
      = some (updateServicesChanged [sampleOnline] "eth0" sampleConnected).next ∧
    hashValue (updateServicesEntryListed "eth0" [sampleOnline].length sampleIdle
        (updateServicesChanged [sampleOnline] "eth0" sampleConnected)).m_servicesCache
        sampleIdle.objpath
      = some (updateServicesChanged [sampleOnline] "eth0" sampleConnected).next ∧
    (updateServicesEntryListed "eth0" [sampleOnline].length sampleIdle
        (updateServicesChanged [sampleOnline] "eth0" sampleConnected)).heap
        (updateServicesChanged [sampleOnline] "eth0" sampleConnected).next
      = some { path := sampleIdle.objpath, props := sampleIdle.properties } :=
  ⟨by decide, serviceAdded_emitted_after_push sampleConnected [sampleOnline] [sampleWifi]
    sampleIdle [] "eth0" (by decide)⟩

/-! ## The routing probe -/

theorem atIndex_some (lineList : List String) (i : Nat) (field : String)
    (h : lineList.get? i = some field) : atIndex lineList i = Except.ok field := by
  unfold atIndex
  rw [h]

theorem get?_of_lt (lineList : List String) (i : Nat) (h : i < lineList.length) :
    ∃ field, lineList.get? i = some field :=
  ⟨lineList.get ⟨i, h⟩, List.get?_eq_get h⟩

theorem routeProbeLoop_spec (lines : List String)
    (hfmt : ∀ line ∈ lines, routeLineOk line = true) :
    routeProbeLoop lines = Except.ok (routeProbeSpec (some lines)) := by
  induction lines with
  | nil => rfl
  | cons line rest ih =>
    have hrest := ih (fun l hl => hfmt l (List.mem_cons_of_mem _ hl))
    have hline := hfmt line (List.mem_cons_self _ _)
    unfold routeLineOk at hline
    simp only [Bool.and_eq_true, Bool.or_eq_true, decide_eq_true_eq] at hline
    obtain ⟨hlen, hfour⟩ := hline
    obtain ⟨destination, hd⟩ := get?_of_lt (QString.split line tab) 1 hlen
    obtain ⟨iface, hi⟩ := get?_of_lt (QString.split line tab) 0 (by omega)
    have hhead : (QString.split line tab).headD "" = iface := by
      cases hl : QString.split line tab with
      | nil => rw [hl] at hi; simp at hi
      | cons a l => rw [hl] at hi; simp at hi; simp [hi]
    have hd1 := hd
    rw [List.get?_eq_getElem?] at hd1
    unfold routeProbeSpec at hrest ⊢
    simp only [Option.getD_some] at hrest ⊢
    unfold routeProbeLoop
    simp only [atIndex_some _ _ _ hd]
    by_cases hdest : destination = "00000000"
    · have hlen4 : 4 ≤ (QString.split line tab).length := by
        rcases hfour with h | h
        · exact absurd (hdest ▸ hd) h
        · exact h
      obtain ⟨flags, hf⟩ := get?_of_lt (QString.split line tab) 3 hlen4
      have hf1 := hf
      rw [List.get?_eq_getElem?] at hf1
      simp only [hdest, if_true, atIndex_some _ _ _ hf]
      by_cases hflags : flags = "0003"
      · have ht : isDefaultRouteLine line = true := by
          unfold isDefaultRouteLine
          simp [hd1, hf1, hdest, hflags]
        simp only [hflags, if_true, List.find?_cons_of_pos _ ht, atIndex_some _ _ _ hi, hhead]
      · have ht : ¬ isDefaultRouteLine line = true := by
          unfold isDefaultRouteLine
          simp [hd1, hf1, hdest, hflags]
        simp only [hflags, if_false, List.find?_cons_of_neg _ ht]
        exact hrest
    · have ht : ¬ isDefaultRouteLine line = true := by
        unfold isDefaultRouteLine
        simp [hd1, hdest]
      simp only [hdest, if_false, List.find?_cons_of_neg _ ht]
      exact hrest

/-- C15 (counterexample): an empty line, and a line of three fields whose
second field is `00000000`, make the probe (and so `updateDefaultRoute`) stop
at `lineList.at` with an index out of range; a line with a single field does
the same. -/
theorem routeProbe_short_line_faults :
    routeProbe (some [""]) = Except.error Fault.indexOutOfRange ∧
    routeProbe (some ["eth0\t00000000\t0101A8C0"]) = Except.error Fault.indexOutOfRange ∧
    routeProbe (some ["lo"]) = Except.error Fault.indexOutOfRange ∧
    (∃ e, updateDefaultRouteFrom (some [""]) NetworkManager.initial = Except.error e) :=
  ⟨rfl, rfl, rfl, ⟨_, rfl⟩⟩

/-- C15 (amended): the probe does not fail and yields the first field of the
first line whose second field is `00000000` and whose fourth field is `0003`,
or no interface, for an unreadable table and for every table each of whose
lines has at least two tab-separated fields, and at least four when its second
field is `00000000`. -/
theorem routeProbe_total (routeFile : Option (List String))
    (hfmt : ∀ line ∈ routeFile.getD [], routeLineOk line = true) :
    routeProbe routeFile = Except.ok (routeProbeSpec routeFile) := by
  cases routeFile with
  | none => rfl
  | some lines => exact routeProbeLoop_spec lines hfmt

theorem routeProbe_total_witness :
    (∀ line ∈ (some sampleRouteTable).getD [], routeLineOk line = true) ∧
    routeProbe (some sampleRouteTable) = Except.ok (routeProbeSpec (some sampleRouteTable)) ∧
    routeProbeSpec (some sampleRouteTable) = "eth0" :=
  ⟨by decide, routeProbe_total (some sampleRouteTable) (by decide), by decide⟩

/-! ## The saved-services query -/

theorem getSavedServicesLoop_eq (s : NetworkManager) (tech : String) (l acc : List Nat) :
    getSavedServicesLoop s tech l acc
      = acc ++ l.filter
          (fun p => (decide (tech = "") || decide (typeOf s p = tech)) && favoriteOf s p) := by
  induction l generalizing acc with
  | nil => simp [getSavedServicesLoop]
  | cons p rest ih =>
    by_cases h : (tech = "" ∨ typeOf s p = tech) ∧ favoriteOf s p = true
    · have hb : ((decide (tech = "") || decide (typeOf s p = tech)) && favoriteOf s p) = true := by
        simpa using h
      rw [List.filter_cons, if_pos hb]
      simp only [getSavedServicesLoop, h, if_true, ih]
      simp
    · have hb : ¬ ((decide (tech = "") || decide (typeOf s p = tech)) && favoriteOf s p) = true := by
        simpa using h
      rw [List.filter_cons, if_neg hb]
      simp only [getSavedServicesLoop, h, if_false, ih]

/-- C22: `getSavedServices(t)` is the sublist of `savedServicesOrder`, in order,
of the records whose favorite flag is true and whose type equals `t` (of any
type when `t` is empty); every record it returns has its favorite flag on. -/
theorem getSavedServices_filter (s : NetworkManager) (tech : String) :
    getSavedServices tech s
      = s.m_savedServicesOrder.filter
          (fun p => (decide (tech = "") || decide (typeOf s p = tech)) && favoriteOf s p) ∧
    getSavedServices "" s = s.m_savedServicesOrder.filter (favoriteOf s) ∧
    (getSavedServices tech s).Sublist s.m_savedServicesOrder ∧
    (getSavedServices tech s).all (favoriteOf s) = true := by
  have h : getSavedServices tech s
      = s.m_savedServicesOrder.filter
          (fun p => (decide (tech = "") || decide (typeOf s p = tech)) && favoriteOf s p) := by
    simp [getSavedServices, getSavedServicesLoop_eq]
  refine ⟨h, ?_, ?_, ?_⟩
  · simp [getSavedServices, getSavedServicesLoop_eq]
  · rw [h]
    exact List.filter_sublist _
  · rw [h, List.all_eq_true]
    intro p hp
    have := (List.mem_filter.mp hp).2
    simp only [Bool.and_eq_true] at this
    exact this.2

/-! ## The default route after an incremental update -/

theorem updateDefaultRoute_single (defaultNetDev : String) (u : NetworkManager) (ptr : Nat)
    (hwf : WellFormed u) (hord : u.m_servicesOrder = [ptr]) :
    (routeCandidate u defaultNetDev ptr = true →
      (updateDefaultRoute defaultNetDev u).m_defaultRoute = some ptr) ∧
    (¬ routeCandidate u defaultNetDev ptr = true →
      (updateDefaultRoute defaultNetDev u).m_defaultRoute
          = (updateDefaultRoute defaultNetDev u).m_invalidDefaultRoute ∧
        ∃ q, (updateDefaultRoute defaultNetDev u).m_invalidDefaultRoute = some q) := by
  constructor
  · intro hc
    have hscan : scanRoute u defaultNetDev (getServices "" u) = some ptr := by
      rw [getServices_all, hord]
      simp [scanRoute, hc]
    exact (updateDefaultRoute_match defaultNetDev u ptr hscan).1
  · intro hc
    have hscan : scanRoute u defaultNetDev (getServices "" u) = none := by
      rw [getServices_all, hord]
      simp [scanRoute, hc]
    obtain ⟨q, h1, h2, -⟩ := updateDefaultRoute_sentinel defaultNetDev u hwf hscan
    exact ⟨h1.trans h2.symm, q, h2⟩

theorem routeCandidate_reuseOrCreate_order (obj : ConnmanObject) (s : NetworkManager)
    (l : List Nat) (defaultNetDev : String) (p : Nat) :
    routeCandidate (reuseOrCreate obj { s with m_servicesOrder := l }) defaultNetDev p
      = routeCandidate (reuseOrCreate obj s) defaultNetDev p := by
  have hh : (reuseOrCreate obj { s with m_servicesOrder := l }).heap
      = (reuseOrCreate obj s).heap := by
    unfold reuseOrCreate
    dsimp only
    cases hashValue s.m_servicesCache obj.objpath <;> rfl
  unfold routeCandidate stateOf interfaceOf
  rw [hh]

theorem updateServicesEntry_first_route (defaultNetDev : String) (obj : ConnmanObject)
    (s : NetworkManager) (hwf : WellFormed s) (hord : s.m_servicesOrder = []) :
    (routeCandidate (reuseOrCreate obj s) defaultNetDev (servicePtr s obj.objpath) = true →
      (updateServicesEntry defaultNetDev 0 obj s).m_defaultRoute
        = some (servicePtr s obj.objpath)) ∧
    (¬ routeCandidate (reuseOrCreate obj s) defaultNetDev (servicePtr s obj.objpath) = true →
      (updateServicesEntry defaultNetDev 0 obj s).m_defaultRoute
          = (updateServicesEntry defaultNetDev 0 obj s).m_invalidDefaultRoute ∧
        ∃ q, (updateServicesEntry defaultNetDev 0 obj s).m_invalidDefaultRoute = some q) := by
  have hwf1 := hwf.wf_reuseOrCreate obj
  have ho : (reuseOrCreate obj s).m_servicesOrder ++ [servicePtr s obj.objpath]
      = [servicePtr s obj.objpath] := by
    rw [(reuseOrCreate_fields obj s).1, hord]
    rfl
  have ha := updateDefaultRoute_single defaultNetDev
    { reuseOrCreate obj s with
      m_servicesOrder := (reuseOrCreate obj s).m_servicesOrder ++ [servicePtr s obj.objpath] }
    (servicePtr s obj.objpath) (hwf1.wf_of_eq rfl rfl rfl rfl) ho
  have hb := updateDefaultRoute_single defaultNetDev
    { reuseOrCreate obj s with
      m_servicesOrder := (reuseOrCreate obj s).m_servicesOrder ++ [servicePtr s obj.objpath],
      m_savedServicesOrder := (reuseOrCreate obj s).m_savedServicesOrder.erase
        (servicePtr s obj.objpath) }
    (servicePtr s obj.objpath) (hwf1.wf_of_eq rfl rfl rfl rfl) ho
  unfold updateServicesEntry
  simp only [if_true]
  repeat' split
  all_goals first | exact ha | exact hb

/-- C21: in a well-formed state, after `updateServices(changed, removed)` with
non-empty `changed` the default route is the record of the first entry of
`changed` (the head of `servicesOrder`) when that record, once its properties
are merged, is `online` or `ready` on the probed interface, and the sentinel
record otherwise: the recomputation runs while `servicesOrder` holds that
record alone, so no later entry is selected by the call. -/
theorem updateServices_defaultRoute_first (s : NetworkManager) (obj : ConnmanObject)
    (rest : List ConnmanObject) (removed : List String) (defaultNetDev : String)
    (hwf : WellFormed s) :
    if routeCandidate (reuseOrCreate obj s) defaultNetDev (servicePtr s obj.objpath) = true then
      (updateServices (obj :: rest) removed defaultNetDev s).m_defaultRoute
        = some (servicePtr s obj.objpath) ∧
      (updateServices (obj :: rest) removed defaultNetDev s).m_servicesOrder.head?
        = some (servicePtr s obj.objpath)
    else IsSentinelRoute (updateServices (obj :: rest) removed defaultNetDev s) := by
  have hfirst := updateServicesEntry_first_route defaultNetDev obj
    { s with m_servicesOrder := [] } (hwf.wf_of_eq rfl rfl rfl rfl) rfl
  rw [routeCandidate_reuseOrCreate_order] at hfirst
  have hp : servicePtr { s with m_servicesOrder := [] } obj.objpath
      = servicePtr s obj.objpath := rfl
  rw [hp] at hfirst
  have hwft := hwf.wf_updateServices (obj :: rest) removed defaultNetDev
  have hloop := updateServicesLoop_induct_from
    (fun t => t.m_defaultRoute
        = (updateServicesEntry defaultNetDev 0 obj { s with m_servicesOrder := [] }).m_defaultRoute ∧
      t.m_invalidDefaultRoute
        = (updateServicesEntry defaultNetDev 0 obj
            { s with m_servicesOrder := [] }).m_invalidDefaultRoute)
    defaultNetDev rest 1
    (fun order ob t ho _ ht =>
      ⟨(updateServicesEntry_route defaultNetDev order ob t (by omega)).1.trans ht.1,
        (updateServicesEntry_route defaultNetDev order ob t (by omega)).2.trans ht.2⟩)
    1 (updateServicesEntry defaultNetDev 0 obj { s with m_servicesOrder := [] })
    ([] ++ [pathOf (updateServicesEntry defaultNetDev 0 obj { s with m_servicesOrder := [] })
      (servicePtr { s with m_servicesOrder := [] } obj.objpath)]) (Nat.le_refl _) ⟨rfl, rfl⟩
  have hne : (obj :: rest) ≠ [] := by simp
  have hroute : (updateServices (obj :: rest) removed defaultNetDev s).m_defaultRoute
        = (updateServicesEntry defaultNetDev 0 obj { s with m_servicesOrder := [] }).m_defaultRoute ∧
      (updateServices (obj :: rest) removed defaultNetDev s).m_invalidDefaultRoute
        = (updateServicesEntry defaultNetDev 0 obj
            { s with m_servicesOrder := [] }).m_invalidDefaultRoute := by
    unfold updateServices
    simp only [hne, if_false, emit, updateServicesLoop]
    exact ⟨(removeServices_route _ _).1.trans hloop.1, (removeServices_route _ _).2.trans hloop.2⟩
  split
  · rename_i hc
    refine ⟨hroute.1.trans (hfirst.1 hc), ?_⟩
    rw [updateServices_order]
    obtain ⟨ext, h1, -⟩ := updateServicesLoop_order_ext defaultNetDev rest 1
      (updateServicesEntry defaultNetDev 0 obj { s with m_servicesOrder := [] })
      ([] ++ [pathOf (updateServicesEntry defaultNetDev 0 obj { s with m_servicesOrder := [] })
        (servicePtr { s with m_servicesOrder := [] } obj.objpath)])
    unfold updateServicesChanged
    simp only [updateServicesLoop]
    rw [h1, updateServicesEntry_order]
    rfl
  · rename_i hc
    obtain ⟨h1, q, h2⟩ := hfirst.2 hc
    have hq : (updateServices (obj :: rest) removed defaultNetDev s).m_invalidDefaultRoute
        = some q := hroute.2.trans h2
    exact ⟨q, (hroute.1.trans h1).trans h2, hq, (hwft.sentinel q hq).1⟩

theorem updateServices_defaultRoute_first_witness :
    WellFormed sampleConnected ∧
    if routeCandidate (reuseOrCreate sampleIdle sampleConnected) "eth0"
        (servicePtr sampleConnected sampleIdle.objpath) = true then
      (updateServices (sampleIdle :: [sampleOnline]) [] "eth0" sampleConnected).m_defaultRoute
        = some (servicePtr sampleConnected sampleIdle.objpath) ∧
      (updateServices (sampleIdle :: [sampleOnline]) [] "eth0"
          sampleConnected).m_servicesOrder.head?
        = some (servicePtr sampleConnected sampleIdle.objpath)
    else IsSentinelRoute (updateServices (sampleIdle :: [sampleOnline]) [] "eth0"
      sampleConnected) :=
  ⟨sampleConnected_wellFormed,
    updateServices_defaultRoute_first sampleConnected sampleIdle [sampleOnline] [] "eth0"
      sampleConnected_wellFormed⟩

/-! ## Removed paths, read at the call -/

theorem updateServicesChanged_snoc (pre : List ConnmanObject) (obj : ConnmanObject)
    (defaultNetDev : String) (s : NetworkManager) :
    updateServicesChanged (pre ++ [obj]) defaultNetDev s
      = updateServicesEntry defaultNetDev pre.length obj
          (updateServicesChanged pre defaultNetDev s) := by
  unfold updateServicesChanged
  rw [updateServicesLoop_append, Nat.zero_add]
  rfl

theorem servicePtr_ne {s : NetworkManager} (hwf : WellFormed s) (k : String) (p : Nat)
    (hc : hashValue s.m_servicesCache k = some p) (svcPath : String) (hk : svcPath ≠ k) :
    servicePtr s svcPath ≠ p := by
  obtain ⟨r, hr, hrp⟩ := hwf.cached k p (hashValue_mem _ _ _ hc)
  unfold servicePtr
  cases hv : hashValue s.m_servicesCache svcPath with
  | none => exact Nat.ne_of_gt (hwf.wf_lt_next hr)
  | some q =>
    intro hq
    have hq1 : q = p := hq
    subst hq1
    obtain ⟨r1, hr1, hrp1⟩ := hwf.cached svcPath q (hashValue_mem _ _ _ hv)
    rw [hr] at hr1
    cases hr1
    exact hk (hrp1.symm.trans hrp)

theorem updateServicesChanged_saved_kept (s : NetworkManager) (changed : List ConnmanObject)
    (defaultNetDev svcPath : String) (service : Nat) (hwf : WellFormed s)
    (hcached : hashValue s.m_servicesCache svcPath = some service)
    (hsaved : service ∈ s.m_savedServicesOrder)
    (hfav : ∀ pre obj post, changed = pre ++ obj :: post → obj.objpath = svcPath →
      favoriteOf (updateServicesChanged (pre ++ [obj]) defaultNetDev s) service = true) :
    hashValue (updateServicesChanged changed defaultNetDev s).m_servicesCache svcPath
      = some service ∧
    service ∈ (updateServicesChanged changed defaultNetDev s).m_savedServicesOrder := by
  have key : ∀ (rest pre : List ConnmanObject), changed = pre ++ rest →
      (WellFormed (updateServicesChanged pre defaultNetDev s) ∧
        hashValue (updateServicesChanged pre defaultNetDev s).m_servicesCache svcPath
          = some service ∧
        service ∈ (updateServicesChanged pre defaultNetDev s).m_savedServicesOrder) →
      (hashValue (updateServicesChanged changed defaultNetDev s).m_servicesCache svcPath
          = some service ∧
        service ∈ (updateServicesChanged changed defaultNetDev s).m_savedServicesOrder) := by
    intro rest
    induction rest with
    | nil =>
      intro pre h hi
      rw [List.append_nil] at h
      rw [h]
      exact hi.2
    | cons obj rest ih =>
      intro pre h hi
      obtain ⟨hwft, hct, hst⟩ := hi
      refine ih (pre ++ [obj]) (by rw [h]; simp) ?_
      have hfavo := hfav pre obj rest h
      rw [updateServicesChanged_snoc] at hfavo ⊢
      refine ⟨hwft.wf_updateServicesEntry defaultNetDev pre.length obj, ?_, ?_⟩
      · rw [updateServicesEntry_cache]
        by_cases hk : svcPath = obj.objpath
        · have hp : servicePtr (updateServicesChanged pre defaultNetDev s) obj.objpath
              = service := by
            unfold servicePtr
            rw [← hk, hct]
          simp [hk, hp]
        · simp [hk, hct]
      · rw [updateServicesEntry_saved]
        split
        · exact hst
        · rename_i hoff
          by_cases hk : obj.objpath = svcPath
          · exfalso
            have hp : servicePtr (updateServicesChanged pre defaultNetDev s) obj.objpath
                = service := by
              unfold servicePtr
              rw [hk, hct]
            rw [hp] at hoff
            have hlt : service
                < (reuseOrCreate obj (updateServicesChanged pre defaultNetDev s)).next := by
              have := reuseOrCreate_ptr_lt obj (updateServicesChanged pre defaultNetDev s) hwft
              rw [hp] at this
              exact this
            have hh := updateServicesEntry_heap defaultNetDev pre.length obj
              (updateServicesChanged pre defaultNetDev s) service hlt
            rw [favoriteOf_congr _ _ service hh] at hfavo
            exact hoff (hfavo hk)
          · have hne := servicePtr_ne hwft svcPath service hct obj.objpath hk
            exact (List.mem_erase_of_ne (Ne.symm hne)).mpr hst
  exact key changed [] rfl ⟨hwf.wf_of_eq rfl rfl rfl rfl, hcached, hsaved⟩

/-- C3 (counterexample): the record is cached under the removed path and is in
`savedServicesOrder` at the call; the changed entry for that path reports
favorite off, so the record is pruned from the saved list and the removal
destroys it and drops its cache entry. -/
theorem updateServices_saved_pruned_then_removed :
    hashValue sampleSaved.m_servicesCache "/wifi0" = some 0 ∧
    0 ∈ sampleSaved.m_savedServicesOrder ∧ "/wifi0" ∈ ["/wifi0"] ∧
    hashValue (updateServices [sampleUnfavorite] ["/wifi0"] "" sampleSaved).m_servicesCache
      "/wifi0" = none ∧
    (updateServices [sampleUnfavorite] ["/wifi0"] "" sampleSaved).heap 0 = none := by
  decide

/-- C3 (amended): in a well-formed state, a removed path whose cached record
is in `savedServicesOrder` at the call, and which no entry of `changed` leaves
with its favorite flag off (after each entry of `changed` that names the path
is processed the record's flag is on), keeps its cache entry, and the record
is live with `Strength` 0 and `State` idle when `updateServices` returns. -/
theorem updateServices_saved_at_call_kept (s : NetworkManager) (changed : List ConnmanObject)
    (removed : List String) (defaultNetDev : String) (svcPath : String) (service : Nat)
    (hwf : WellFormed s) (hrem : svcPath ∈ removed)
    (hcached : hashValue s.m_servicesCache svcPath = some service)
    (hsaved : service ∈ s.m_savedServicesOrder)
    (hfav : ∀ pre obj post, changed = pre ++ obj :: post → obj.objpath = svcPath →
      favoriteOf (updateServicesChanged (pre ++ [obj]) defaultNetDev s) service = true) :
    hashValue (updateServices changed removed defaultNetDev s).m_servicesCache svcPath
      = some service ∧
    IdleZero (updateServices changed removed defaultNetDev s) service ∧
    ∃ r, (updateServices changed removed defaultNetDev s).heap service = some r ∧
      r.state = "idle" := by
  obtain ⟨h1, h2⟩ := updateServicesChanged_saved_kept s changed defaultNetDev svcPath service
    hwf hcached hsaved hfav
  exact updateServices_kept_at_removal s changed removed defaultNetDev svcPath service
    hwf hrem h1 h2

theorem sampleFavorite_keeps_flag :
    ∀ pre obj post, [sampleFavorite, sampleWifi] = pre ++ obj :: post →
      obj.objpath = "/wifi0" →
      favoriteOf (updateServicesChanged (pre ++ [obj]) "" sampleSaved) 0 = true := by
  intro pre obj post h hk
  cases pre with
  | nil =>
    simp only [List.nil_append, List.cons.injEq] at h
    obtain ⟨h1, -⟩ := h
    subst h1
    decide
  | cons a pre1 =>
    cases pre1 with
    | nil =>
      simp only [List.cons_append, List.nil_append, List.cons.injEq] at h
      obtain ⟨h0, h1, -⟩ := h
      subst h0 h1
      decide
    | cons b pre2 =>
      simp at h

theorem updateServices_saved_at_call_kept_witness :
    WellFormed sampleSaved ∧ "/wifi0" ∈ ["/wifi0"] ∧
    hashValue sampleSaved.m_servicesCache "/wifi0" = some 0 ∧
    0 ∈ sampleSaved.m_savedServicesOrder ∧
    hashValue (updateServices [sampleFavorite, sampleWifi] ["/wifi0"] ""
      sampleSaved).m_servicesCache "/wifi0" = some 0 ∧
    IdleZero (updateServices [sampleFavorite, sampleWifi] ["/wifi0"] "" sampleSaved) 0 ∧
    ∃ r, (updateServices [sampleFavorite, sampleWifi] ["/wifi0"] "" sampleSaved).heap 0
        = some r ∧ r.state = "idle" :=
  ⟨sampleSaved_wellFormed, by decide, by decide, by decide,
    updateServices_saved_at_call_kept sampleSaved [sampleFavorite, sampleWifi] ["/wifi0"] ""
      "/wifi0" 0 sampleSaved_wellFormed (by decide) (by decide) (by decide)
      sampleFavorite_keeps_flag⟩

/-- C11 (counterexample): the removed path is not cached at the call, but the
same call lists it in `changed`; the record is created, then destroyed by the
removal, with a service-removed signal, while the call without the path in
`removed` keeps it cached. -/
theorem updateServices_created_then_removed :
    hashValue sampleConnected.m_servicesCache "/online" = none ∧
    hashValue (updateServices [sampleOnline] ["/online"] "eth0"
      sampleConnected).m_servicesCache "/online" = none ∧
    hashValue (updateServices [sampleOnline] [] "eth0"
      sampleConnected).m_servicesCache "/online" = some 1 ∧
    Signal.serviceRemoved "/online"
      ∈ (updateServices [sampleOnline] ["/online"] "eth0" sampleConnected).signals := by
  decide

/-- C11 (amended): a removed path that is not a key of `servicesCache` at the
call and is not listed in `changed` is ignored: the call ends in the same
state (cache, both order lists, signals) as the call without that path in
`removed`, and the trace gains no service-removed signal for it. -/
theorem updateServices_unlisted_uncached_ignored (s : NetworkManager)
    (changed : List ConnmanObject) (removed : List String) (defaultNetDev svcPath : String)
    (hnone : hashValue s.m_servicesCache svcPath = none)
    (hnot : ∀ obj ∈ changed, obj.objpath ≠ svcPath) :
    updateServices changed removed defaultNetDev s
      = updateServices changed (removed.filter (fun r => decide (r ≠ svcPath)))
          defaultNetDev s ∧
    (updateServices changed removed defaultNetDev s).signals.count
        (Signal.serviceRemoved svcPath)
      = s.signals.count (Signal.serviceRemoved svcPath) := by
  have h : hashValue (updateServicesChanged changed defaultNetDev s).m_servicesCache svcPath
      = none := by
    refine updateServicesLoop_induct
      (fun t => hashValue t.m_servicesCache svcPath = none) defaultNetDev changed ?_
      0 { s with m_servicesOrder := [] } [] hnone
    intro order obj t hm ht
    show hashValue (updateServicesEntry defaultNetDev order obj t).m_servicesCache svcPath = none
    rw [updateServicesEntry_cache]
    simp [Ne.symm (hnot obj hm), ht]
  exact updateServices_uncached_at_removal s changed removed defaultNetDev svcPath h

theorem updateServices_unlisted_uncached_ignored_witness :
    hashValue sampleConnected.m_servicesCache "/hidden" = none ∧
    (∀ obj ∈ [sampleOnline], obj.objpath ≠ "/hidden") ∧
    updateServices [sampleOnline] ["/hidden", "/online"] "eth0" sampleConnected
      = updateServices [sampleOnline]
          (["/hidden", "/online"].filter (fun r => decide (r ≠ "/hidden"))) "eth0"
          sampleConnected ∧
    (updateServices [sampleOnline] ["/hidden", "/online"] "eth0"
        sampleConnected).signals.count (Signal.serviceRemoved "/hidden")
      = sampleConnected.signals.count (Signal.serviceRemoved "/hidden") :=
  ⟨by decide, by decide,
    updateServices_unlisted_uncached_ignored sampleConnected [sampleOnline]
      ["/hidden", "/online"] "eth0" "/hidden" (by decide) (by decide)⟩

end ConnmanQt
